import Mathlib

/-!
# Telegram Desktop: single-instance command codec and dialogs sync cursor

A shallow embedding of

* `Telegram/SourceFiles/application.cpp`: `_toHex`, `_fromHex`, `_escapeTo7bit`,
  `_escapeFrom7bit`, the command string built by `Application::socketConnected`, the
  per-client parse pass of `Application::readClients`, the acknowledgment read by
  `Application::socketReading` and the choice of the role in `Application::socketError`;
* `Telegram/SourceFiles/dialogswidget.cpp`: the dialogs cursor of `DialogsWidget`
  (`loadDialogs`, `loadConfig`, `dialogsReceived`, `dialogsFailed`, `onListScroll`), the
  list widget `DialogsListWidget` (`onFilterUpdate`, `refresh`, `loadPeerPhotos`,
  `onUpdateSelected`, `peerBefore`, `peerAfter`) and the signals the constructor of
  `DialogsWidget` connects between the list, the scroll area and the cursor.

Conventions.  A `QChar` is its UTF-16 code unit, a natural number below `65536`; a `QString`
is the list of its code units; a `QByteArray` is the list of its bytes.  `int32` values are
integers and the arithmetic on them is that of the integers; where a statement depends on
the range of an `int32` it says so (`toInt32`, `advanceOffset`).
-/

namespace Telegram

/-- A `QString`: the sequence of its UTF-16 code units. -/
abbrev QString := List Nat

/-- A `QByteArray`: the sequence of its bytes. -/
abbrev QByteArray := List Nat

/-- The strings the codec is defined on: every code unit fits in 16 bits. -/
def IsUtf16 (s : QString) : Prop := ∀ c ∈ s, c < 65536

instance (s : QString) : Decidable (IsUtf16 s) := by
  unfold IsUtf16; infer_instance

/-! ## `application.cpp`, lines 24-60: the escape codec -/

/-- `_toHex(ushort v)`: `v = v & 0x000F; (v >= 10) ? ('a' + (v - 10)) : ('0' + v)`. -/
def _toHex (v : Nat) : Nat :=
  let v := v &&& 0x000F
  if v ≥ 10 then 97 + (v - 10) else 48 + v

/-- `_fromHex(QChar c)`:
`((c >= 'a') ? (c - 'a' + 10) : (c - '0')) & 0x000F`.  The subtraction is done on `int`, so
it can be negative; `& 0x000F` of a two's complement `int` is its residue modulo 16. -/
def _fromHex (c : Nat) : Nat :=
  ((if c ≥ 97 then (c : Int) - 97 + 10 else (c : Int) - 48) % 16).toNat

/-- The `ushort` built from four hex digits in `_escapeFrom7bit`:
`ushort((_fromHex(a) << 12) | (_fromHex(b) << 8) | (_fromHex(c) << 4) | _fromHex(d))`. -/
def unescapeChar (a b c d : Nat) : Nat :=
  ((_fromHex a <<< 12) ||| (_fromHex b <<< 8) ||| (_fromHex c <<< 4) ||| _fromHex d) % 65536

/-- The test of `_escapeTo7bit`: `uch < 32 || uch > 127 || uch == ushort(uchar('%'))`. -/
def needsEscape (uch : Nat) : Bool :=
  decide (uch < 32) || decide (uch > 127) || decide (uch = 37)

/-- What `_escapeTo7bit` appends for one code unit: either
`'%'`, `_toHex(uch >> 12)`, `_toHex(uch >> 8)`, `_toHex(uch >> 4)`, `_toHex(uch)`, or the
code unit itself. -/
def escapeChar (uch : Nat) : QString :=
  if needsEscape uch then
    [37, _toHex (uch >>> 12), _toHex (uch >>> 8), _toHex (uch >>> 4), _toHex uch]
  else [uch]

/-- `_escapeTo7bit(const QString &str)`: the loop `for (i = 0; i != l; ++i)` appends
`escapeChar (str.at(i))` to the result. -/
def _escapeTo7bit : QString → QString
  | [] => []
  | uch :: rest => escapeChar uch ++ _escapeTo7bit rest

/-- `_escapeFrom7bit(const QString &str)`.  At position `i` the loop tests
`ch == '%' && i + 4 < l`, that is: four more characters follow the `'%'`.  Then it appends
the decoded code unit and skips the four characters (`i += 4`); otherwise it appends `ch`. -/
def _escapeFrom7bit : QString → QString
  | [] => []
  | ch :: a :: b :: c :: d :: rest4 =>
    if ch = 37 then unescapeChar a b c d :: _escapeFrom7bit rest4
    else ch :: _escapeFrom7bit (a :: b :: c :: d :: rest4)
  | ch :: rest => ch :: _escapeFrom7bit rest

/-! ## `application.cpp`, lines 112-128 and 237-286: the command stream

The client writes `commands.toLatin1()`; the server keeps one byte buffer per connected
client and parses `QString::fromLatin1(buffer)`.  `QString::indexOf`, `QString::mid`,
`QStringRef::startsWith`, `toLatin1` and `fromLatin1` belong to Qt; they are rendered here
from their documented behaviour. -/

/-- `QString::toLatin1()`: a code unit above 255 has no Latin-1 form and becomes `'?'`. -/
def toLatin1 (s : QString) : QByteArray := s.map (fun c => if c > 255 then 63 else c)

/-- `QString::fromLatin1(const QByteArray &)` of Qt 5, which the source is written for:
`fromLatin1(str.data(), qstrnlen(str.constData(), str.size()))`.  The string ends at the
first NUL byte; every byte before it becomes the code unit of the same value. -/
def fromLatin1 (b : QByteArray) : QString := b.takeWhile (fun c => c != 0)

/-- `QString::indexOf(ch, from)` scanning: the index of the first `ch` in the remaining text,
counted from position `i`, or `-1`. -/
def indexOfAux (ch : Nat) : QString → Nat → Int
  | [], _ => -1
  | c :: cs, i => if c = ch then (i : Int) else indexOfAux ch cs (i + 1)

/-- `QString::indexOf(ch, from)`: the first index `≥ from` that holds `ch`, or `-1`. -/
def indexOf (s : QString) (ch : Nat) (frm : Nat) : Int := indexOfAux ch (s.drop frm) frm

/-- `QString::mid(position, n)`: `n` code units from `position`; all the rest when `n` is
negative (or exceeds what is left). -/
def mid (s : QString) (position : Nat) (n : Int) : QString :=
  if n < 0 then s.drop position else (s.drop position).take n.toNat

/-- `QStringRef::startsWith(str)`. -/
def startsWith (s str : QString) : Bool := str.isPrefixOf s

/-- `qsl("CMD:")`. -/
def qCMD : QString := [67, 77, 68, 58]

/-- `qsl("SEND:")`. -/
def qSEND : QString := [83, 69, 78, 68, 58]

/-- `qsl("OPEN:")`. -/
def qOPEN : QString := [79, 80, 69, 78, 58]

/-- `qsl("RES:")`. -/
def qRES : QString := [82, 69, 83, 58]

/-- The decimal digits of a number, as `QString::arg` prints a process id. -/
def decimal (n : Nat) : QString := (Nat.toDigits 10 n).map Char.toNat

/-- The bytes `Application::socketConnected` writes for one path of `cSendPaths()`:
`(qsl("SEND:") + _escapeTo7bit(*i) + ';').toLatin1()`. -/
def sendCommand (path : QString) : QByteArray :=
  toLatin1 (qSEND ++ _escapeTo7bit path ++ [59])

/-- The global settings `readClients` reads while it parses, and the process id. -/
structure Globals where
  /-- The pending send paths, `cSendPaths()`. -/
  cSendPaths : List QString
  /-- The pending start URL, `cStartUrl()`. -/
  cStartUrl : QString
  /-- The value of `QCoreApplication::applicationPid()`. -/
  applicationPid : Nat
deriving DecidableEq, Repr

/-- The branch of `readClients` a unit takes, named by its prefix. -/
inductive Prefix where
  | CMD
  | SEND
  | OPEN
  | unknown
deriving DecidableEq, Repr

/-- The text of a prefix; an unknown unit has none, its payload is its whole text. -/
def Prefix.text : Prefix → QString
  | .CMD => qCMD
  | .SEND => qSEND
  | .OPEN => qOPEN
  | .unknown => []

/-- The locals of `readClients` and the effects of a parse pass. -/
structure ReadState where
  /-- The local `startUrl`. -/
  startUrl : QString
  /-- The local `toSend`. -/
  toSend : List QString
  /-- The arguments of the `Sandbox::execExternal` calls, in order. -/
  executed : List QString
  /-- The responses written to the client socket, in order. -/
  written : List QByteArray
  /-- The units logged as unknown commands, in order. -/
  unknownLog : List QString
  /-- The units recognised so far, in order: the branch taken and the payload
  (`cmds.mid(from + 4, ...)`, `cmds.mid(from + 5, ...)`, or the whole `cmd`). -/
  units : List (Prefix × QString)
deriving DecidableEq, Repr

/-- The state of `readClients` on entry: `QString startUrl; QStringList toSend;`. -/
def ReadState.init : ReadState := ⟨[], [], [], [], [], []⟩

/-- The body of the inner loop of `readClients` for the unit `cmds[from, to)`
(lines 247-262); `frm` and `upto` are the source's `from` and `to`. -/
def processUnit (g : Globals) (cmds : QString) (frm : Nat) (upto : Int) (st : ReadState) :
    ReadState :=
  let cmd := mid cmds frm (upto - frm)
  if startsWith cmd qCMD then
    let arg := mid cmds (frm + 4) (upto - frm - 4)
    let response := toLatin1 (qRES ++ decimal g.applicationPid ++ [59])
    { st with
      executed := st.executed ++ [arg]
      written := st.written ++ [response]
      units := st.units ++ [(Prefix.CMD, arg)] }
  else if startsWith cmd qSEND then
    let payload := mid cmds (frm + 5) (upto - frm - 5)
    let st := { st with units := st.units ++ [(Prefix.SEND, payload)] }
    if g.cSendPaths.isEmpty then
      { st with toSend := st.toSend ++ [_escapeFrom7bit payload] }
    else st
  else if startsWith cmd qOPEN then
    let payload := mid cmds (frm + 5) (upto - frm - 5)
    let st := { st with units := st.units ++ [(Prefix.OPEN, payload)] }
    if g.cStartUrl.isEmpty then
      { st with startUrl := mid (_escapeFrom7bit payload) 0 8192 }
    else st
  else
    { st with
      unknownLog := st.unknownLog ++ [cmd]
      units := st.units ++ [(Prefix.unknown, cmd)] }

/-- The inner loop of `readClients` (line 246):
`for (to = cmds.indexOf(';', from); to >= from;
      to = (from < l) ? cmds.indexOf(';', from) : -1) { ...; from = to + 1; }`.
Returns the final `from`; `none` only when the fuel runs out. -/
def parseLoop (g : Globals) (cmds : QString) :
    Nat → Nat → Int → ReadState → Option (Nat × ReadState)
  | 0, _, _, _ => none
  | fuel + 1, frm, upto, st =>
    if (frm : Int) ≤ upto then
      let st := processUnit g cmds frm upto st
      let frm := (upto + 1).toNat
      let upto := if frm < cmds.length then indexOf cmds 59 frm else -1
      parseLoop g cmds fuel frm upto st
    else some (frm, st)

/-- The parse pass of `readClients` over one client (lines 242-268): `data` is what
`readAll()` returns, `second` the client's buffer.  Returns the retained buffer and the
state. -/
def readClient (g : Globals) (data second : QByteArray) (st : ReadState) :
    Option (QByteArray × ReadState) :=
  let second := second ++ data
  if second.length ≠ 0 then
    let cmds := fromLatin1 second
    let l := cmds.length
    match parseLoop g cmds (l + 1) 0 (indexOf cmds 59 0) st with
    | none => none
    | some (frm, st) => some (if frm > 0 then second.drop frm else second, st)
  else some (second, st)

/-! ### The unit structure of a buffer

The functions below describe a buffer as text: its complete units and what follows the
last `';'`.  They are what the index loop above is compared with. -/

/-- Splitting a text at every `';'`: the complete units, in order, and the text after the
last `';'`.  `acc` is the part of the current unit already read. -/
def splitAcc : QString → QString → List QString × QString
  | acc, [] => ([], acc)
  | acc, c :: cs =>
    if c = 59 then (acc :: (splitAcc [] cs).1, (splitAcc [] cs).2)
    else splitAcc (acc ++ [c]) cs

/-- The complete units of a buffer and the text after its last `';'`. -/
def splitUnits (s : QString) : List QString × QString := splitAcc [] s

/-- Units written back as text: each one followed by `';'`. -/
def joinUnits : List QString → QString
  | [] => []
  | u :: us => u ++ [59] ++ joinUnits us

/-- The text after the last occurrence of `ch` (the whole text when `ch` does not occur). -/
def afterLast (ch : Nat) (s : QString) : QString :=
  (s.reverse.takeWhile (fun c => c != ch)).reverse

/-- A unit as a pair of prefix and payload. -/
def classify (u : QString) : Prefix × QString :=
  if startsWith u qCMD then (Prefix.CMD, u.drop 4)
  else if startsWith u qSEND then (Prefix.SEND, u.drop 5)
  else if startsWith u qOPEN then (Prefix.OPEN, u.drop 5)
  else (Prefix.unknown, u)

/-- The text of a recognised unit: its prefix followed by its payload. -/
def unitText (p : Prefix × QString) : QString := p.1.text ++ p.2

/-- The effect of the loop body on a unit given by its text `u`. -/
def applyUnit (g : Globals) (st : ReadState) (u : QString) : ReadState :=
  if startsWith u qCMD then
    { st with
      executed := st.executed ++ [u.drop 4]
      written := st.written ++ [toLatin1 (qRES ++ decimal g.applicationPid ++ [59])]
      units := st.units ++ [(Prefix.CMD, u.drop 4)] }
  else if startsWith u qSEND then
    let st := { st with units := st.units ++ [(Prefix.SEND, u.drop 5)] }
    if g.cSendPaths.isEmpty then
      { st with toSend := st.toSend ++ [_escapeFrom7bit (u.drop 5)] }
    else st
  else if startsWith u qOPEN then
    let st := { st with units := st.units ++ [(Prefix.OPEN, u.drop 5)] }
    if g.cStartUrl.isEmpty then
      { st with startUrl := mid (_escapeFrom7bit (u.drop 5)) 0 8192 }
    else st
  else
    { st with
      unknownLog := st.unknownLog ++ [u]
      units := st.units ++ [(Prefix.unknown, u)] }

/-- What a parse pass leaves of a buffer: of the text before the first NUL byte the part
after its last `';'`, followed by the bytes from the first NUL byte on, which the pass does
not see. -/
def retainedOf (b : QByteArray) : QByteArray :=
  (splitUnits (fromLatin1 b)).2 ++ b.drop (fromLatin1 b).length

/-- The loop's update of `to`: `(from < l) ? cmds.indexOf(';', from) : -1`. -/
def nextIdx (cmds : QString) (frm : Nat) : Int :=
  if frm < cmds.length then indexOf cmds 59 frm else -1

/-! ## `dialogswidget.cpp`, lines 390-402 and 707-922: the dialogs cursor

`DialogsWidget` keeps the cursor of the dialogs stream in `dlgOffset`, `dlgCount` (`-1`
while unknown) and `dlgPreloading` (the id of the request in flight, `0` for none).  The RPC
layer behind `MTP::send`, the page sizes and `DialogsIndexed::addToEnd` are declared
elsewhere; they enter the model as the parameters gathered in `Env`. -/

/-- An entry of a dialogs page, `MTPDialog`: whether its constructor is `mtpc_dialog`, and
its peer. -/
structure MTPDialog where
  /-- The test `i->type() == mtpc_dialog`. -/
  isDialog : Bool
  /-- The peer, `App::peerFromMTP(dialog.vpeer)`. -/
  peer : Nat
deriving DecidableEq, Repr

/-- The result of `messages.getDialogs`, `MTPmessages_Dialogs`. -/
inductive MTPmessages_Dialogs where
  /-- The constructor `mtpc_messages_dialogs`: the complete list. -/
  | messages_dialogs (vdialogs : List MTPDialog)
  /-- The constructor `mtpc_messages_dialogsSlice`: a page and the count the server states. -/
  | messages_dialogsSlice (vcount : Int) (vdialogs : List MTPDialog)
deriving DecidableEq, Repr

/-- The entries a result carries, `vdialogs`. -/
def MTPmessages_Dialogs.vdialogs : MTPmessages_Dialogs → List MTPDialog
  | .messages_dialogs v => v
  | .messages_dialogsSlice _ v => v

/-- The requests `DialogsWidget` sends. -/
inductive MTPRequest where
  /-- The request `MTPmessages_GetDialogs(offset, max_id, limit)`. -/
  | messages_GetDialogs (offset max_id limit : Int)
  /-- The request `MTPcontacts_GetContacts(MTP_string(""))`. -/
  | contacts_GetContacts
deriving DecidableEq, Repr

/-- Whether a request is a dialogs page request. -/
def MTPRequest.isGetDialogs : MTPRequest → Bool
  | .messages_GetDialogs _ _ _ => true
  | .contacts_GetContacts => false

/-- What the widget takes from declarations outside the two source files. -/
structure Env where
  /-- The constant `DialogsFirstLoad`, the size of the first page. -/
  DialogsFirstLoad : Int
  /-- The constant `DialogsPerPage`, the size of every later page. -/
  DialogsPerPage : Int
  /-- The request id `MTP::send` returns on its `k`-th call (counted from 0). -/
  requestId : Nat → Int
  /-- The rows of `dialogs` after `dialogs.addToEnd(history)` for a peer. -/
  addToEnd : List Nat → Nat → List Nat

/-- The fields of `DialogsWidget` the cursor uses, with the state of the RPC layer. -/
structure DialogsWidget where
  /-- The flag `_configLoaded`. -/
  _configLoaded : Bool
  /-- The cursor offset `dlgOffset`. -/
  dlgOffset : Int
  /-- The total count `dlgCount`; negative while unknown. -/
  dlgCount : Int
  /-- The id of the dialogs request in flight, `dlgPreloading`; `0` for none. -/
  dlgPreloading : Int
  /-- The id of the contacts request, `contactsRequest`; `0` before it is sent. -/
  contactsRequest : Int
  /-- The peers of the rows of `list.dialogs`, in order. -/
  dialogs : List Nat
  /-- Every request handed to `MTP::send`, in order. -/
  sent : List MTPRequest
  /-- The requests sent and not yet answered, with their ids. -/
  pending : List (Int × MTPRequest)
  /-- The number of `mtpConfigLoader()->load()` calls. -/
  configLoads : Nat
deriving DecidableEq, Repr

/-- The constructor `DialogsWidget::DialogsWidget` (lines 707-713): `_configLoaded(false)`,
`dlgOffset(0)`, `dlgCount(-1)`, `dlgPreloading(0)`, `contactsRequest(0)`; nothing sent. -/
def DialogsWidget.init : DialogsWidget :=
  { _configLoaded := false, dlgOffset := 0, dlgCount := -1, dlgPreloading := 0,
    contactsRequest := 0, dialogs := [], sent := [], pending := [], configLoads := 0 }

/-- Modelled from the spec: `MTP::send(request, rpcDone(..), rpcFail(..))` of the RPC client
core, which is not in the source files.  It never blocks, registers the request as pending
and returns its request id. -/
def MTP.send (env : Env) (request : MTPRequest) (w : DialogsWidget) : Int × DialogsWidget :=
  let id := env.requestId w.sent.length
  (id, { w with sent := w.sent ++ [request], pending := w.pending ++ [(id, request)] })

/-- Modelled from the spec: when the response to a pending request arrives the RPC client
core removes the pending entry; one of the two handlers of the request fires. -/
def MTP.answered (id : Int) (request : MTPRequest) (w : DialogsWidget) : DialogsWidget :=
  { w with pending := w.pending.erase (id, request) }

/-- `DialogsWidget::loadConfig` (lines 877-882). -/
def loadConfig (w : DialogsWidget) : DialogsWidget :=
  if !w._configLoaded then
    { w with configLoads := w.configLoads + 1, _configLoaded := true }
  else w

/-- `DialogsWidget::loadDialogs` (lines 884-893). -/
def loadDialogs (env : Env) (w : DialogsWidget) : DialogsWidget :=
  if w.dlgPreloading ≠ 0 then w
  else if w.dlgCount ≥ 0 ∧ w.dlgOffset ≥ w.dlgCount then loadConfig w
  else
    let loadCount := if w.dlgOffset ≠ 0 then env.DialogsPerPage else env.DialogsFirstLoad
    let r := MTP.send env (MTPRequest.messages_GetDialogs w.dlgOffset 0 loadCount) w
    { r.2 with dlgPreloading := r.1 }

/-- `DialogsWidget::onListScroll` (lines 917-922).  `nearEnd` is the outcome of the test
`scroll.scrollTop() > list.dialogsList().list.count * st::dlgHeight - scroll.height()`;
`list.loadPeerPhotos` does not touch the cursor. -/
def onListScroll (env : Env) (nearEnd : Bool) (w : DialogsWidget) : DialogsWidget :=
  if nearEnd then loadDialogs env w else w

/-- `DialogsListWidget::dialogsReceived` (lines 390-402) on the rows of `dialogs`: every
entry whose type is `mtpc_dialog` goes through `addDialog`, that is `dialogs.addToEnd`. -/
def DialogsListWidget.dialogsReceived (env : Env) (added : List MTPDialog)
    (rows : List Nat) : List Nat :=
  added.foldl (fun rows i => if i.isDialog then env.addToEnd rows i.peer else rows) rows

/-- `DialogsWidget::dialogsReceived` (lines 824-869). -/
def dialogsReceived (env : Env) (dialogs : MTPmessages_Dialogs) (nearEnd : Bool)
    (w : DialogsWidget) : DialogsWidget :=
  -- switch (dialogs.type())
  let dlgList : Option (List MTPDialog) :=
    match dialogs with
    | .messages_dialogs vdialogs => some vdialogs
    | .messages_dialogsSlice _ vdialogs => some vdialogs
  let w : DialogsWidget :=
    match dialogs with
    | .messages_dialogs vdialogs => { w with dlgCount := vdialogs.length }
    | .messages_dialogsSlice vcount _ => { w with dlgCount := vcount }
  -- if (!contactsRequest) contactsRequest = MTP::send(MTPcontacts_GetContacts(..), ..)
  let w : DialogsWidget :=
    if w.contactsRequest = 0 then
      let r := MTP.send env MTPRequest.contacts_GetContacts w
      { r.2 with contactsRequest := r.1 }
    else w
  let w : DialogsWidget :=
    match dlgList with
    | some l =>
      let w := { w with dialogs := DialogsListWidget.dialogsReceived env l w.dialogs }
      let w := onListScroll env nearEnd w
      if l.length ≠ 0 then { w with dlgOffset := w.dlgOffset + l.length }
      else { w with dlgCount := w.dlgOffset }
    | none => loadConfig { w with dlgCount := w.dlgOffset }
  let w : DialogsWidget := { w with dlgPreloading := 0 }
  match dlgList with
  | some _ => loadDialogs env w
  | none => w

/-- `DialogsWidget::dialogsFailed` (lines 871-875): logs the error, clears `dlgPreloading`
and returns `true`. -/
def dialogsFailed (w : DialogsWidget) : DialogsWidget :=
  { w with dlgPreloading := 0 }

/-- What can happen to the dialogs cursor: a trigger from a caller (`onListScroll` on
scrolling, resizing or a list update ends in `loadDialogs`), or the answer to a pending
dialogs request, which fires `dialogsReceived` or `dialogsFailed`. -/
inductive Event where
  /-- A call of `loadDialogs`. -/
  | loadDialogs
  /-- The pending request `(id, request)` succeeds with `result`. -/
  | dialogsDone (id : Int) (request : MTPRequest) (result : MTPmessages_Dialogs)
      (nearEnd : Bool)
  /-- The pending request `(id, request)` fails. -/
  | dialogsFail (id : Int) (request : MTPRequest)

/-- One step of the cursor; `none` when the event cannot happen: only a pending dialogs
request is answered. -/
def step (env : Env) (w : DialogsWidget) : Event → Option DialogsWidget
  | .loadDialogs => some (loadDialogs env w)
  | .dialogsDone id request result nearEnd =>
    if (id, request) ∈ w.pending ∧ request.isGetDialogs = true then
      some (dialogsReceived env result nearEnd (MTP.answered id request w))
    else none
  | .dialogsFail id request =>
    if (id, request) ∈ w.pending ∧ request.isGetDialogs = true then
      some (dialogsFailed (MTP.answered id request w))
    else none

/-- The states the cursor reaches from `w` through `loadDialogs`, `dialogsReceived` and
`dialogsFailed`. -/
inductive ReachableFrom (env : Env) (w : DialogsWidget) : DialogsWidget → Prop where
  /-- The start. -/
  | refl : ReachableFrom env w w
  /-- One more event. -/
  | next (w₁ w₂ : DialogsWidget) (e : Event) :
      ReachableFrom env w w₁ → step env w₁ e = some w₂ → ReachableFrom env w w₂

/-- The states the cursor reaches from the constructed widget. -/
def Reachable (env : Env) (w : DialogsWidget) : Prop :=
  ReachableFrom env DialogsWidget.init w

/-- The dialogs requests that are outstanding. -/
def outstandingDialogs (w : DialogsWidget) : List (Int × MTPRequest) :=
  w.pending.filter (fun p => p.2.isGetDialogs)

/-- The dialogs requests sent so far. -/
def sentDialogs (w : DialogsWidget) : List MTPRequest :=
  w.sent.filter MTPRequest.isGetDialogs

/-- The terminal test of `loadDialogs`: `dlgCount >= 0 && dlgOffset >= dlgCount`. -/
def terminal (w : DialogsWidget) : Prop := w.dlgCount ≥ 0 ∧ w.dlgOffset ≥ w.dlgCount

instance (w : DialogsWidget) : Decidable (terminal w) := by
  unfold terminal; infer_instance

/-- The page size `loadDialogs` asks for: `dlgOffset ? DialogsPerPage : DialogsFirstLoad`. -/
def loadCount (env : Env) (w : DialogsWidget) : Int :=
  if w.dlgOffset ≠ 0 then env.DialogsPerPage else env.DialogsFirstLoad

/-- A concrete environment: pages of 50, request ids 1, 2, 3, ..., rows appended. -/
def env50 : Env :=
  { DialogsFirstLoad := 50, DialogsPerPage := 50, requestId := fun k => (k : Int) + 1,
    addToEnd := fun rows peer => rows ++ [peer] }

/-- A page of `n` entries for the peers `0, ..., n - 1`. -/
def page (n : Nat) : List MTPDialog := (List.range n).map (fun i => ⟨true, i⟩)

/-- The count a result states: the length of the list for `messages_dialogs`, `vcount` for
`messages_dialogsSlice`. -/
def statedCount : MTPmessages_Dialogs → Int
  | .messages_dialogs vdialogs => vdialogs.length
  | .messages_dialogsSlice vcount _ => vcount

/-- The first lines of `dialogsReceived` on the contacts request: it is sent when
`contactsRequest` is `0`. -/
def requestContacts (env : Env) (w : DialogsWidget) : DialogsWidget :=
  if w.contactsRequest = 0 then
    { w with
      sent := w.sent ++ [MTPRequest.contacts_GetContacts]
      pending := w.pending ++ [(env.requestId w.sent.length, MTPRequest.contacts_GetContacts)]
      contactsRequest := env.requestId w.sent.length }
  else w

/-- The widget in `dialogsReceived` just before its closing `loadDialogs()` call, when the
page arrives while `dlgPreloading` is set. -/
def pageHandled (env : Env) (dialogs : MTPmessages_Dialogs) (w : DialogsWidget) :
    DialogsWidget :=
  { requestContacts env w with
    dlgCount := if dialogs.vdialogs.length ≠ 0 then statedCount dialogs else w.dlgOffset
    dialogs := DialogsListWidget.dialogsReceived env dialogs.vdialogs w.dialogs
    dlgOffset := w.dlgOffset + dialogs.vdialogs.length
    dlgPreloading := 0 }

/-- The invariant of the reachable states: the offset is not negative; the outstanding
dialogs requests are exactly the one `dlgPreloading` names, asking for the page at the
current offset; and a request is in flight only while the cursor is not terminal. -/
def CursorInv (env : Env) (w : DialogsWidget) : Prop :=
  0 ≤ w.dlgOffset ∧
  outstandingDialogs w =
    (if w.dlgPreloading = 0 then []
     else [(w.dlgPreloading, MTPRequest.messages_GetDialogs w.dlgOffset 0 (loadCount env w))]) ∧
  (w.dlgPreloading ≠ 0 → ¬ terminal w)

/-- The widget after the pending dialogs request `(id, request)` has succeeded with
`result` and `dialogsReceived` has returned. -/
def afterPage (env : Env) (w : DialogsWidget) (id : Int) (request : MTPRequest)
    (result : MTPmessages_Dialogs) (nearEnd : Bool) : DialogsWidget :=
  dialogsReceived env result nearEnd (MTP.answered id request w)

/-- The widget after the pending dialogs request `(id, request)` has failed and
`dialogsFailed` has returned. -/
def afterFailure (w : DialogsWidget) (id : Int) (request : MTPRequest) : DialogsWidget :=
  dialogsFailed (MTP.answered id request w)

/-- The widget of `env50` after its first `loadDialogs` call: the request
`messages_GetDialogs(0, 0, 50)` with id 1 is in flight. -/
def firstRequested : DialogsWidget := loadDialogs env50 DialogsWidget.init

/-- The first request of `env50`. -/
def firstRequest : MTPRequest := MTPRequest.messages_GetDialogs 0 0 50

/-- The widget of `env50` after its first page, 50 entries in a slice that states the count
200: the offset is 50, the contacts request has id 2 and the request
`messages_GetDialogs(50, 0, 50)` with id 3 is in flight. -/
def secondRequested : DialogsWidget :=
  afterPage env50 firstRequested 1 firstRequest
    (MTPmessages_Dialogs.messages_dialogsSlice 200 (page 50)) false

/-- The second request of `env50`. -/
def secondRequest : MTPRequest := MTPRequest.messages_GetDialogs 50 0 50

/-- The cursor is idle and terminal: nothing is in flight, the count is known and the offset
has reached it. -/
def idleTerminal (w : DialogsWidget) : Prop := w.dlgPreloading = 0 ∧ terminal w

instance (w : DialogsWidget) : Decidable (idleTerminal w) := by
  unfold idleTerminal; infer_instance

/-- The invariant of the config load: it has run once when `_configLoaded` is set and not at
all otherwise, and `_configLoaded` is set exactly in the idle terminal states. -/
def ConfigInv (w : DialogsWidget) : Prop :=
  w.configLoads = (if w._configLoaded = true then 1 else 0) ∧
    (w._configLoaded = true ↔ idleTerminal w)

/-- `DialogsWidget::contactsFailed` (lines 903-905): `return true;`, no field is touched. -/
def contactsFailed (w : DialogsWidget) : DialogsWidget := w

/-- The widget after the pending contacts request `id` has failed and `contactsFailed` has
returned. -/
def afterContactsFailure (w : DialogsWidget) (id : Int) : DialogsWidget :=
  contactsFailed (MTP.answered id MTPRequest.contacts_GetContacts w)

/-- The contacts requests sent so far. -/
def sentContacts (w : DialogsWidget) : List MTPRequest :=
  w.sent.filter (fun r => !r.isGetDialogs)

/-- The contacts requests that are outstanding. -/
def outstandingContacts (w : DialogsWidget) : List (Int × MTPRequest) :=
  w.pending.filter (fun p => !p.2.isGetDialogs)

/-- The widget of `env50` after its first request was answered by an empty slice: the cursor
is idle and terminal. -/
def emptyAnswered : DialogsWidget :=
  afterPage env50 firstRequested 1 firstRequest
    (MTPmessages_Dialogs.messages_dialogsSlice 100 []) true

/-! ## `application.cpp`, lines 237-286: `readClients` over all clients, and lines 141-153:
the client side -/

/-- A connected client of the local server, an entry of `_localClients`. -/
structure LocalClient where
  /-- What `i->first->readAll()` returns in this call. -/
  readable : QByteArray
  /-- The buffer `i->second`. -/
  second : QByteArray
deriving DecidableEq, Repr

/-- The server side of `Application`: its clients and the settings `readClients` uses. -/
structure Application where
  /-- The list `_localClients`. -/
  _localClients : List LocalClient
  /-- The settings `cSendPaths()`, `cStartUrl()` and the process id. -/
  globals : Globals
deriving DecidableEq, Repr

/-- The loop of `readClients` over `_localClients` (lines 241-269): every client is read and
parsed in turn; the locals `startUrl` and `toSend` are shared by all of them. -/
def readClientsLoop (g : Globals) :
    List LocalClient → ReadState → Option (List LocalClient × ReadState)
  | [], st => some ([], st)
  | c :: cs, st =>
    match readClient g c.readable c.second st with
    | none => none
    | some (second, st) =>
      match readClientsLoop g cs st with
      | none => none
      | some (cs, st) => some ({ readable := [], second := second } :: cs, st)

/-- `Application::readClients` (lines 237-286).  After the loop, `toSend` is appended to the
send paths when it is not empty and a non-empty `startUrl` becomes the start URL.  The calls
`App::wnd()->sendPaths()` and `messenger->checkStartUrl()` that follow belong to other
files. -/
def readClients (app : Application) : Option (Application × ReadState) :=
  match readClientsLoop app.globals app._localClients ReadState.init with
  | none => none
  | some (clients, st) =>
    let paths := if st.toSend ≠ [] then app.globals.cSendPaths ++ st.toSend
      else app.globals.cSendPaths
    let url := if st.startUrl ≠ [] then st.startUrl else app.globals.cStartUrl
    some ({ _localClients := clients
            globals := { app.globals with cSendPaths := paths, cStartUrl := url } }, st)

/-- The complete units of all clients of a `readClients` call, in the order they are
processed: for each client the units of the text `QString::fromLatin1` makes of its
buffer. -/
def allUnits : List LocalClient → List QString
  | [] => []
  | c :: cs => (splitUnits (fromLatin1 (c.second ++ c.readable))).1 ++ allUnits cs

/-- What a unit adds to `toSend` when the send paths are empty: the decoded payload of a
SEND unit. -/
def sendOf (u : QString) : List QString :=
  if (classify u).1 = Prefix.SEND then [_escapeFrom7bit (classify u).2] else []

/-- The decoded payloads of the SEND units, in order. -/
def sendPayloads : List QString → List QString
  | [] => []
  | u :: us => sendOf u ++ sendPayloads us

/-- What a unit makes of the local `startUrl` when the start URL is empty: an OPEN unit
replaces it by its decoded payload cut to 8192 characters. -/
def openOf (url : QString) (u : QString) : QString :=
  if (classify u).1 = Prefix.OPEN then mid (_escapeFrom7bit (classify u).2) 0 8192 else url

/-- The client side of `Application`, a second instance waiting for the acknowledgment. -/
structure SecondInstance where
  /-- Whether `_localSocket.state()` is `QLocalSocket::ConnectedState`. -/
  connected : Bool
  /-- The accumulated data `_localSocketReadData`. -/
  _localSocketReadData : QByteArray
  /-- The arguments of the `psActivateProcess` calls, in order. -/
  activated : List Nat
  /-- The number of `App::quit()` calls. -/
  quits : Nat
deriving DecidableEq, Repr

/-- An ASCII decimal digit, what `\d` matches. -/
def isDigit (c : Nat) : Bool := decide (48 ≤ c) && decide (c ≤ 57)

/-- A match of `RES:(\d+);` that starts at the beginning of the text: `RES:`, then one or
more digits, taken greedily, then `';'`. -/
def matchResHere : QString → Bool
  | 82 :: 69 :: 83 :: 58 :: d :: rest =>
    isDigit d && decide ((rest.dropWhile isDigit).head? = some 59)
  | _ => false

/-- `QRegularExpression("RES:(\\d+);").match(data).hasMatch()`: the pattern is not anchored,
a match may start at any position. -/
def hasMatchRes : QString → Bool
  | [] => false
  | c :: cs => matchResHere (c :: cs) || hasMatchRes cs

/-- The value of a digit string read from the left, starting from `acc`. -/
def digitsValue (acc : Nat) : QString → Nat
  | [] => acc
  | c :: cs => digitsValue (acc * 10 + (c - 48)) cs

/-- `QByteArray::toULongLong()` on a string of decimal digits: its value when that fits in
64 bits; `0` when the conversion fails (no digits, another character, or overflow). -/
def toULongLong (s : QByteArray) : Nat :=
  if s ≠ [] ∧ s.all isDigit = true ∧ digitsValue 0 s < 2 ^ 64 then digitsValue 0 s else 0

/-- `Application::socketReading` (lines 141-153) when `readAll()` returns `chunk`.  `match`
takes a `QString`: the byte array is converted on the way, and in Qt 5 that conversion, like
`fromLatin1`, ends at the first NUL byte; on the bytes below 128 the two agree. -/
def socketReading (chunk : QByteArray) (c : SecondInstance) : SecondInstance :=
  if c.connected = false then c
  else
    let data := c._localSocketReadData ++ chunk
    let c := { c with _localSocketReadData := data }
    if hasMatchRes (fromLatin1 data) then
      let pid := toULongLong (mid data 4 ((data.length : Int) - 5))
      { c with activated := c.activated ++ [pid], quits := c.quits + 1 }
    else c

/-- The second instance once its socket is connected and nothing has been read. -/
def SecondInstance.init : SecondInstance :=
  { connected := true, _localSocketReadData := [], activated := [], quits := 0 }

/-- The bytes the server writes for a CMD unit:
`qsl("RES:%1;").arg(QCoreApplication::applicationPid()).toLatin1()`. -/
def resResponse (pid : Nat) : QByteArray := toLatin1 (qRES ++ decimal pid ++ [59])

/-- Reading a sequence of chunks, one `socketReading` call each. -/
def readChunks (chunks : List QByteArray) (c : SecondInstance) : SecondInstance :=
  chunks.foldl (fun c chunk => socketReading chunk c) c

/-- A server with one fresh client from which `bytes` can be read, and empty settings. -/
def serverWith (bytes : QByteArray) : Application :=
  { _localClients := [{ readable := bytes, second := [] }]
    globals := { cSendPaths := [], cStartUrl := [], applicationPid := 7 } }

/-- Two states of a parse pass that differ only by the report of the unknown unit `u`: the
first has `u` in the log of unknown commands, and in the trace of recognised units, at a
place where the second has nothing; everything else is equal. -/
def SameButReport (u : QString) (st₁ st₂ : ReadState) : Prop :=
  st₁.startUrl = st₂.startUrl ∧ st₁.toSend = st₂.toSend ∧ st₁.executed = st₂.executed ∧
    st₁.written = st₂.written ∧
    ∃ l₁ l₂ k₁ k₂, st₂.unknownLog = l₁ ++ l₂ ∧ st₁.unknownLog = l₁ ++ [u] ++ l₂ ∧
      st₂.units = k₁ ++ k₂ ∧ st₁.units = k₁ ++ [(Prefix.unknown, u)] ++ k₂

/-- The data read so far: the chunks one after the other. -/
def joinChunks : List QByteArray → QByteArray
  | [] => []
  | c :: cs => c ++ joinChunks cs

/-! ## `dialogswidget.cpp`, lines 293-388 and 438-457, 581-614: filtering the list

`DialogsListWidget` shows `dialogs` followed by `contactsNoDialogs`, or the rows of
`filtered` while `filter` is not empty.  The classes `DialogsIndexed`, `DialogsList` and
`DialogRow`, the text helpers `textAccentFold` and `cWordSplit` and the geometry are declared
elsewhere; what the widget reads of them is modelled here or taken as a parameter. -/

/-- A row `DialogRow`, as far as the widget reads it: the peer of its history and the names
of that peer, `history->peer->names`. -/
structure DialogRow where
  /-- The peer `history->peer`. -/
  peer : Nat
  /-- The name components `history->peer->names`. -/
  names : List QString
deriving DecidableEq, Repr

/-- The class `DialogsIndexed`: a list of rows (`list`, with `list.count` its length) and the
map `index` from a first letter to the list of the rows filed under it. -/
structure DialogsIndexed where
  /-- The rows of `list`, from `list.begin` to `list.end`. -/
  list : List DialogRow
  /-- The map `index`; `index.find(c)` is the lookup of `c`. -/
  index : List (Nat × List DialogRow)
deriving DecidableEq, Repr

/-- What the list widget itself does to the outside.  The signal `mustScrollTo` is recorded
here; the slots `DialogsWidget` connects to it run in `Wired.refresh` below. -/
inductive Effect where
  /-- The call `resize(width(), height)`. -/
  | resize (height : Int)
  /-- The signal `mustScrollTo(scrollToTop, scrollToBottom)`. -/
  | mustScrollTo (scrollToTop scrollToBottom : Int)
  /-- The call `MTP::clearLoaderPriorities()`. -/
  | clearLoaderPriorities
  /-- The call `row->history->peer->photo->load()` for the row of a peer. -/
  | photoLoad (peer : Nat)
  /-- The call `parentWidget()->update()`. -/
  | parentUpdate
deriving DecidableEq, Repr

/-- What the list widget takes from declarations outside the source file. -/
structure FilterEnv where
  /-- The function `textAccentFold`. -/
  textAccentFold : QString → QString
  /-- The function `QString::toLower`. -/
  toLower : QString → QString
  /-- The function `QString::trimmed`. -/
  trimmed : QString → QString
  /-- The call `split(cWordSplit(), QString::SkipEmptyParts)`. -/
  split : QString → List QString
  /-- The height `parentWidget()->height()`. -/
  parentHeight : Int
  /-- The row height `st::dlgHeight`. -/
  dlgHeight : Int
  /-- The index of the row `DialogsList::adjustCurrent(y, h)` makes `current`. -/
  adjustCurrent : List DialogRow → Int → Int → Nat

/-- The fields of `DialogsListWidget` and the effects so far. -/
structure DialogsListWidget where
  /-- The member `dialogs`. -/
  dialogs : DialogsIndexed
  /-- The member `contactsNoDialogs`. -/
  contactsNoDialogs : DialogsIndexed
  /-- The member `contacts`. -/
  contacts : DialogsIndexed
  /-- The stored filter `filter`. -/
  filter : QString
  /-- The filtered sequence `filtered`. -/
  filtered : List DialogRow
  /-- The selected row `sel`; `none` for the null pointer. -/
  sel : Option DialogRow
  /-- The flag `contactSel`. -/
  contactSel : Bool
  /-- The flag `selByMouse`. -/
  selByMouse : Bool
  /-- The index `filteredSel`. -/
  filteredSel : Int
  /-- The effects produced so far, in order. -/
  effects : List Effect
deriving DecidableEq, Repr

/-- `QStringList::join(' ')`. -/
def joinWords : List QString → QString
  | [] => []
  | [x] => x
  | x :: y :: rest => x ++ [32] ++ joinWords (y :: rest)

/-- The token list `f` of `onFilterUpdate` (lines 298-306) for a folded, non-empty filter:
the parts of the split, trimmed, without the empty ones. -/
def filterTokens (env : FilterEnv) (newFilter : QString) : List QString :=
  ((env.split newFilter).map env.trimmed).filter (fun filterName => !filterName.isEmpty)

/-- The loops of lines 318-327 and 330-339 over the tokens: the bucket of the first letter
of every token is looked up; a missing bucket ends the search with the null pointer, and
otherwise the bucket with the least `count` is kept.  `fi->at(0)` is the first code unit of
a token, which is never empty. -/
def chooseBucket (index : List (Nat × List DialogRow)) :
    List QString → Option (List DialogRow) → Option (List DialogRow)
  | [], toFilter => toFilter
  | fi :: rest, toFilter =>
    match index.lookup (fi.headD 0) with
    | none => none
    | some bucket =>
      chooseBucket index rest
        (match toFilter with
         | none => some bucket
         | some chosen => if chosen.length > bucket.length then some bucket else some chosen)

/-- The test of lines 346-357 on a row: for every token some name has it at position 0,
`(*ni).indexOf(*fi) == 0`, that is, starts with it. -/
def rowMatches (f : List QString) (row : DialogRow) : Bool :=
  f.all (fun fi => row.names.any (fun name => fi.isPrefixOf name))

/-- The rows one list contributes to `filtered` (lines 317-327 and 342-361): nothing when
the list is empty or no bucket was chosen, else the matching rows of the chosen bucket. -/
def filteredOf (d : DialogsIndexed) (f : List QString) : List DialogRow :=
  let toFilter := if d.list.length ≠ 0 then chooseBucket d.index f none else none
  match toFilter with
  | some bucket => if bucket.length ≠ 0 then bucket.filter (rowMatches f) else []
  | none => []

/-- The peers whose photo the loops of `loadPeerPhotos` over a list load: from the row at
position `pos` on, while `row->pos * st::dlgHeight < yTo`. -/
def photosWhile (dlgHeight yTo : Int) : Nat → List DialogRow → List Effect
  | _, [] => []
  | pos, row :: rest =>
    if (pos : Int) * dlgHeight < yTo then
      Effect.photoLoad row.peer :: photosWhile dlgHeight yTo (pos + 1) rest
    else []

/-- The photo loads of `DialogsListWidget::loadPeerPhotos` (lines 584-613), one
`photo->load()` per row visited.  The divisions are those of C++, rounding towards zero. -/
def peerPhotoLoads (env : FilterEnv) (yFrom : Int) (w : DialogsListWidget) : List Effect :=
  let yTo := yFrom + env.parentHeight * 5
  if w.filter.isEmpty then
    let otherStart := (w.dialogs.list.length : Int) * env.dlgHeight
    let loads₁ :=
      if yFrom < otherStart then
        let current := env.adjustCurrent w.dialogs.list yFrom env.dlgHeight
        photosWhile env.dlgHeight yTo current (w.dialogs.list.drop current)
      else []
    let yFrom := if yFrom < otherStart then 0 else yFrom - otherStart
    let yTo := yTo - otherStart
    let loads₂ :=
      if yTo > 0 then
        let current := env.adjustCurrent w.contactsNoDialogs.list yFrom env.dlgHeight
        photosWhile env.dlgHeight yTo current (w.contactsNoDialogs.list.drop current)
      else []
    loads₁ ++ loads₂
  else
    let frm := Int.tdiv yFrom env.dlgHeight
    let frm := if frm < 0 then 0 else frm
    if frm < w.filtered.length then
      let upto := Int.tdiv yTo env.dlgHeight + 1
      let upto := if upto > w.filtered.length then (w.filtered.length : Int) else upto
      let rows := List.take (Int.toNat (upto - frm)) (List.drop (Int.toNat frm) w.filtered)
      rows.map (fun row => Effect.photoLoad row.peer)
    else []

/-- `DialogsListWidget::loadPeerPhotos` (lines 581-614): `MTP::clearLoaderPriorities()`, then
the photo loads. -/
def DialogsListWidget.loadPeerPhotos (env : FilterEnv) (yFrom : Int) (w : DialogsListWidget) :
    DialogsListWidget :=
  { w with
    effects := w.effects ++ [Effect.clearLoaderPriorities] ++ peerPhotoLoads env yFrom w }

/-- `DialogsListWidget::refresh` (lines 438-445) for the list widget on its own: `resize` and
`emit mustScrollTo(0, 0)` are recorded as effects.  Inside `DialogsWidget` the scroll area
answers both; that is `Wired.refresh` below, which leaves the same list fields. -/
def DialogsListWidget.refresh (env : FilterEnv) (toTop : Bool) (w : DialogsListWidget) :
    DialogsListWidget :=
  let rows : Int :=
    if w.filter.isEmpty then
      (w.dialogs.list.length : Int) + (w.contactsNoDialogs.list.length : Int)
    else (w.filtered.length : Int)
  let w := { w with effects := w.effects ++ [Effect.resize (rows * env.dlgHeight)] }
  let w :=
    if toTop then
      DialogsListWidget.loadPeerPhotos env 0
        { w with effects := w.effects ++ [Effect.mustScrollTo 0 0] }
    else w
  { w with effects := w.effects ++ [Effect.parentUpdate] }

/-- `DialogsListWidget::setMouseSel` (lines 447-457). -/
def DialogsListWidget.setMouseSel (msel toTop : Bool) (w : DialogsListWidget) :
    DialogsListWidget :=
  let w := { w with selByMouse := msel }
  if !w.selByMouse && toTop then
    if w.filter.isEmpty then
      { w with
        sel :=
          if w.dialogs.list.length ≠ 0 then w.dialogs.list.head?
          else if w.contactsNoDialogs.list.length ≠ 0 then w.contactsNoDialogs.list.head?
          else none
        contactSel :=
          decide (w.dialogs.list.length = 0) && decide (w.contactsNoDialogs.list.length ≠ 0) }
    else { w with filteredSel := 0 }
  else w

/-- `DialogsListWidget::onFilterUpdate` (lines 293-388). -/
def DialogsListWidget.onFilterUpdate (env : FilterEnv) (newFilter : QString)
    (w : DialogsListWidget) : DialogsListWidget :=
  let newFilter := env.textAccentFold (env.toLower (env.trimmed newFilter))
  if newFilter ≠ w.filter then
    let f : List QString := if !newFilter.isEmpty then filterTokens env newFilter else []
    let newFilter := if !newFilter.isEmpty then joinWords f else newFilter
    let w :=
      if newFilter ≠ w.filter then
        let w := { w with filter := newFilter }
        if !w.filter.isEmpty then
          let w := { w with filtered := [] }
          if !f.isEmpty then
            { w with filtered := filteredOf w.dialogs f ++ filteredOf w.contactsNoDialogs f }
          else w
        else w
      else w
    DialogsListWidget.setMouseSel false true (DialogsListWidget.refresh env true w)
  else w

/-- The folded text of `onFilterUpdate`:
`textAccentFold(newFilter.trimmed().toLower())`. -/
def foldedFilter (env : FilterEnv) (newFilter : QString) : QString :=
  env.textAccentFold (env.toLower (env.trimmed newFilter))

/-- The tokens a filter text normalises to: none for a text that folds to the empty
string. -/
def normalisedTokens (env : FilterEnv) (newFilter : QString) : List QString :=
  if !(foldedFilter env newFilter).isEmpty then filterTokens env (foldedFilter env newFilter)
  else []

/-- A row has a name component that starts with the code unit `c`. -/
def hasNameStarting (c : Nat) (row : DialogRow) : Bool :=
  row.names.any (fun name => name.head? == some c)

/-- The index of a list is in order: the bucket of `c` holds exactly the rows of the list
that have a name component starting with `c`, in the order of the list, and there is no
bucket only when there is no such row. -/
def IndexOk (d : DialogsIndexed) : Prop :=
  ∀ c : Nat,
    match d.index.lookup c with
    | some bucket => bucket = d.list.filter (hasNameStarting c)
    | none => d.list.filter (hasNameStarting c) = []

/-- Every token is a prefix of at least one name component of the row. -/
def MatchesAll (f : List QString) (row : DialogRow) : Prop :=
  ∀ token ∈ f, ∃ name ∈ row.names, token <+: name

instance (f : List QString) (row : DialogRow) : Decidable (MatchesAll f row) := by
  unfold MatchesAll; infer_instance

/-- The filtered sequence in the words of the specification: the rows of the dialogs list
followed by the rows of the contacts-without-dialogs list for which every token is a prefix
of at least one name component. -/
def naiveFiltered (w : DialogsListWidget) (f : List QString) : List DialogRow :=
  (w.dialogs.list ++ w.contactsNoDialogs.list).filter (fun row => decide (MatchesAll f row))

/-- Words separated by spaces, for the concrete environment: the current word and the rest
of the text. -/
def splitSpaces : QString → QString → List QString
  | word, [] => if word.isEmpty then [] else [word]
  | word, c :: cs =>
    if c = 32 then (if word.isEmpty then splitSpaces [] cs else word :: splitSpaces [] cs)
    else splitSpaces (word ++ [c]) cs

/-- A concrete environment: no folding, words split at spaces, a parent of height 600 and
rows of height 62. -/
def envPlain : FilterEnv :=
  { textAccentFold := id, toLower := id, trimmed := id, split := splitSpaces [],
    parentHeight := 600, dlgHeight := 62, adjustCurrent := fun _ _ _ => 0 }

/-- The row of the peer 1, named `john`. -/
def john : DialogRow := { peer := 1, names := [[106, 111, 104, 110]] }

/-- The row of the peer 2, named `alex`. -/
def alex : DialogRow := { peer := 2, names := [[97, 108, 101, 120]] }

/-- A widget whose dialogs are `john` and `alex`, indexed by first letter, with no filter. -/
def twoDialogs : DialogsListWidget :=
  { dialogs := { list := [john, alex], index := [(106, [john]), (97, [alex])] }
    contactsNoDialogs := { list := [], index := [] }
    contacts := { list := [], index := [] }
    filter := [], filtered := [], sel := none, contactSel := false, selByMouse := false
    filteredSel := -1, effects := [] }

/-- The filter `onFilterUpdate` would store: the tokens joined by spaces for a text that
folds to a non-empty string, else the empty string. -/
def normalisedFilter (env : FilterEnv) (newFilter : QString) : QString :=
  if !(foldedFilter env newFilter).isEmpty then joinWords (normalisedTokens env newFilter)
  else foldedFilter env newFilter

/-- The widget in `onFilterUpdate` when `refresh(true)` is reached (line 385): the stored
filter and the filtered sequence have been renewed if the normalised filter is new. -/
def filterCore (env : FilterEnv) (newFilter : QString) (w : DialogsListWidget) :
    DialogsListWidget :=
  if normalisedFilter env newFilter ≠ w.filter then
    { w with
      filter := normalisedFilter env newFilter
      filtered :=
        if !(normalisedFilter env newFilter).isEmpty then
          (if !(normalisedTokens env newFilter).isEmpty then
            filteredOf w.dialogs (normalisedTokens env newFilter) ++
              filteredOf w.contactsNoDialogs (normalisedTokens env newFilter)
           else [])
        else w.filtered }
  else w

/-- A widget without rows and without a filter. -/
def emptyList : DialogsListWidget :=
  { dialogs := { list := [], index := [] }
    contactsNoDialogs := { list := [], index := [] }
    contacts := { list := [], index := [] }
    filter := [], filtered := [], sel := none, contactSel := false, selByMouse := false
    filteredSel := -1, effects := [] }

/-- The widget after the filter `jo` was entered while there were no rows and the dialogs
`john` and `alex` arrived afterwards: the stored filter is `jo`, the filtered sequence is
still empty. -/
def staleJo : DialogsListWidget :=
  { DialogsListWidget.onFilterUpdate envPlain [106, 111] emptyList with
    dialogs := twoDialogs.dialogs }

/-! ## `application.cpp`, lines 47-60: `_escapeFrom7bit` with its index arithmetic

The list function `_escapeFrom7bit` above follows the text that is left to decode.  The loop
below keeps the index `i` and the length `l` of the source and reads through `str.at`, which
has no value outside the string. -/

/-- `str.at(i)`: the code unit at position `i`, and nothing when `i` is not a position of the
string (Qt asserts `i < size()`). -/
def charAt (str : QString) (i : Nat) : Option Nat := str.get? i

/-- The loop `for (int i = 0, l = str.size(); i != l; ++i)` of `_escapeFrom7bit` (lines
50-58), from the index `i` with `result` built so far.  A `'%'` with `i + 4 < l` reads
`str.at(i + 1)` ... `str.at(i + 4)`, appends the decoded code unit and adds `4` to `i` before
the `++i` of the loop; every other character is appended.  The value is `none` when a read
falls outside the string or the fuel runs out. -/
def escapeFrom7bitLoop (str : QString) : Nat → Nat → QString → Option QString
  | 0, _, _ => none
  | fuel + 1, i, result =>
    if i = str.length then some result
    else
      match charAt str i with
      | none => none
      | some ch =>
        if ch = 37 ∧ i + 4 < str.length then
          match charAt str (i + 1), charAt str (i + 2), charAt str (i + 3),
              charAt str (i + 4) with
          | some a, some b, some c, some d =>
            escapeFrom7bitLoop str fuel (i + 4 + 1) (result ++ [unescapeChar a b c d])
          | _, _, _, _ => none
        else escapeFrom7bitLoop str fuel (i + 1) (result ++ [ch])

/-- `_escapeFrom7bit(str)` run as written: the loop from `i = 0` with an empty result; one
turn per character is always enough. -/
def escapeFrom7bitRun (str : QString) : Option QString :=
  escapeFrom7bitLoop str (str.length + 1) 0 []

/-! ## `application.cpp`, lines 112-115 and 155-189: choosing the role

`Application` first connects `_localSocket` to the local server of its name.
`socketConnected` makes it a second instance; `socketError` decides what happens when the
socket reports an error.  The build modelled is the one with the local server and with the
automatic update (`Q_OS_WINRT` and `TDESKTOP_DISABLE_AUTOUPDATE` not defined). -/

/-- The values of `QLocalSocket::LocalSocketError`. -/
inductive LocalSocketError where
  | ConnectionRefusedError
  | PeerClosedError
  | ServerNotFoundError
  | SocketAccessError
  | SocketResourceError
  | SocketTimeoutError
  | DatagramTooLargeError
  | ConnectionError
  | UnsupportedSocketOperationError
  | UnknownSocketError
  | OperationError
deriving DecidableEq, Repr

/-- The lines `socketConnected` and `socketError` write to the log. -/
inductive LogLine where
  /-- The line `Socket connected, this is not the first application instance, ...`. -/
  | socketConnected
  /-- The line `Could not write show command, error %1, quitting...`. -/
  | couldNotWrite (e : LocalSocketError)
  /-- The line `This is the only instance of Telegreat, starting server and app...`. -/
  | onlyInstance
  /-- The line `Socket connect error %1, starting server and app...`. -/
  | connectError (e : LocalSocketError)
  /-- The line `Failed to start listening to %1 server, error %2`. -/
  | listenFailed
deriving DecidableEq, Repr

/-- What `socketError` takes from outside the source file. -/
structure StartEnv where
  /-- The result of `_localServer.listen(_localServerName)`. -/
  listen : Bool
  /-- The setting `cNoStartUpdate()`. -/
  cNoStartUpdate : Bool
  /-- The result of `Core::checkReadyUpdate()`. -/
  checkReadyUpdate : Bool
deriving DecidableEq, Repr

/-- The part of `Application` that takes part in choosing the role, and what has been done
to the outside so far. -/
structure Instance where
  /-- The value of `App::quitting()`. -/
  quitting : Bool
  /-- The member `_secondInstance`. -/
  _secondInstance : Bool
  /-- The number of `_localSocket.close()` calls. -/
  socketCloses : Nat
  /-- The number of `_localServer.listen(...)` calls. -/
  listenCalls : Nat
  /-- Whether `_localServer` is listening: a `listen` call has returned `true`. -/
  listening : Bool
  /-- The setting `cRestartingUpdate()`. -/
  cRestartingUpdate : Bool
  /-- The number of `singleInstanceChecked()` calls, which start the application. -/
  instanceChecked : Nat
  /-- The number of `App::quit()` calls. -/
  quits : Nat
  /-- The log lines written, in order. -/
  log : List LogLine
deriving DecidableEq, Repr

/-- `Application::socketConnected` (lines 112-115), as far as the role goes: it sets
`_secondInstance`.  The commands it then writes are `sendCommand` and its like above. -/
def Instance.socketConnected (s : Instance) : Instance :=
  { s with log := s.log ++ [LogLine.socketConnected], _secondInstance := true }

/-- `Application::socketError` (lines 155-189).  `psCheckLocalSocket` is declared
elsewhere and is left out. -/
def Instance.socketError (env : StartEnv) (e : LocalSocketError) (s : Instance) : Instance :=
  if s.quitting then s
  else if s._secondInstance then
    { s with log := s.log ++ [LogLine.couldNotWrite e], quits := s.quits + 1 }
  else
    let s := if e = LocalSocketError.ServerNotFoundError
      then { s with log := s.log ++ [LogLine.onlyInstance] }
      else { s with log := s.log ++ [LogLine.connectError e] }
    let s := { s with socketCloses := s.socketCloses + 1 }
    let s := { s with listenCalls := s.listenCalls + 1 }
    if !env.listen then
      { s with log := s.log ++ [LogLine.listenFailed], quits := s.quits + 1 }
    else
      let s := { s with listening := true }
      if !env.cNoStartUpdate && env.checkReadyUpdate then
        { s with cRestartingUpdate := true, quits := s.quits + 1 }
      else { s with instanceChecked := s.instanceChecked + 1 }

/-- The instance right after its constructor has called `connectToServer`. -/
def Instance.init : Instance :=
  { quitting := false, _secondInstance := false, socketCloses := 0, listenCalls := 0,
    listening := false, cRestartingUpdate := false, instanceChecked := 0, quits := 0,
    log := [] }

/-- An environment in which `listen` succeeds and no update is waiting. -/
def envListen : StartEnv := { listen := true, cNoStartUpdate := false, checkReadyUpdate := false }

/-- The log line `socketError` writes before it closes the socket. -/
def errorLine (e : LocalSocketError) : LogLine :=
  if e = LocalSocketError.ServerNotFoundError then LogLine.onlyInstance
  else LogLine.connectError e

/-! ## `dialogswidget.cpp`, lines 637-697: the neighbours of a peer

`DialogsList` is a linked list of rows between `begin` and the sentinel `end`, with the map
`rowByPeer` from a peer to its row; it is declared elsewhere.  Here a list of rows stands for
it: a row is known by its position, `prev` of the first row is null, `next` of the last row
is `end`, `end->prev` is the last row, and `rowByPeer.constFind` finds the row filed under a
peer, the first one with that peer.  A `PeerData` pointer is the number of the peer, a null
result is `none`. -/

/-- `list.rowByPeer.constFind(peer->id)`: the position of the row of the peer, `none` for
`constEnd()`. -/
def constFind : List DialogRow → Nat → Option Nat
  | [], _ => none
  | row :: rest, peer =>
    if row.peer = peer then some 0 else (constFind rest peer).map (fun pos => pos + 1)

/-- `row->prev` for the row at a position: `none` for the null pointer of the first row. -/
def rowPrev (list : List DialogRow) (pos : Nat) : Option DialogRow :=
  if pos = 0 then none else list.get? (pos - 1)

/-- `row->next` for the row at a position: `none` when it is `list.end`. -/
def rowNext (list : List DialogRow) (pos : Nat) : Option DialogRow := list.get? (pos + 1)

/-- The loop of `peerBefore` over `filtered` (lines 641-646): `i` runs from the second row,
`j` is the row before `i`; the first row with the peer gives the peer of `j`. -/
def beforeLoop (peer : Nat) : DialogRow → List DialogRow → Option Nat
  | _, [] => none
  | j, i :: rest => if i.peer = peer then some j.peer else beforeLoop peer i rest

/-- The loop of `peerAfter` over `filtered` (lines 671-676): the first row with the peer
gives the peer of the row after it, or null when it is the last one. -/
def afterLoop (peer : Nat) : List DialogRow → Option Nat
  | [] => none
  | i :: rest =>
    if i.peer = peer then
      match rest with
      | [] => none
      | next :: _ => some next.peer
    else afterLoop peer rest

/-- `DialogsListWidget::peerBefore` (lines 637-667). -/
def DialogsListWidget.peerBefore (w : DialogsListWidget) (peer : Nat) : Option Nat :=
  if !w.filter.isEmpty then
    match w.filtered with
    | [] => none
    | first :: rest => if first.peer = peer then none else beforeLoop peer first rest
  else
    match constFind w.dialogs.list peer with
    | none =>
      match constFind w.contactsNoDialogs.list peer with
      | none => none
      | some pos =>
        match rowPrev w.contactsNoDialogs.list pos with
        | some prev => some prev.peer
        | none =>
          if w.dialogs.list.length ≠ 0 then w.dialogs.list.getLast?.map DialogRow.peer
          else none
    | some pos =>
      match rowPrev w.dialogs.list pos with
      | some prev => some prev.peer
      | none => none

/-- `DialogsListWidget::peerAfter` (lines 669-697). -/
def DialogsListWidget.peerAfter (w : DialogsListWidget) (peer : Nat) : Option Nat :=
  if !w.filter.isEmpty then afterLoop peer w.filtered
  else
    match constFind w.dialogs.list peer with
    | none =>
      match constFind w.contactsNoDialogs.list peer with
      | none => none
      | some pos =>
        match rowNext w.contactsNoDialogs.list pos with
        | some next => some next.peer
        | none => none
    | some pos =>
      match rowNext w.dialogs.list pos with
      | some next => some next.peer
      | none =>
        if w.contactsNoDialogs.list.length ≠ 0
        then w.contactsNoDialogs.list.head?.map DialogRow.peer
        else none

/-- The sequence the widget shows: the filtered rows when a filter is set, otherwise the
dialogs rows followed by the contacts-without-dialogs rows. -/
def shown (w : DialogsListWidget) : List DialogRow :=
  if !w.filter.isEmpty then w.filtered else w.dialogs.list ++ w.contactsNoDialogs.list

/-- The peers of the shown sequence, in order. -/
def shownPeers (w : DialogsListWidget) : List Nat := (shown w).map DialogRow.peer

/-- The peer before the first row with `peer` in a sequence, `none` when that row is the
first one or there is none. -/
def beforeIn (peer : Nat) : List DialogRow → Option Nat
  | [] => none
  | first :: rest => if first.peer = peer then none else beforeLoop peer first rest

/-- A contact without a dialog, for the examples. -/
def bob : DialogRow := { peer := 3, names := [[98, 111, 98]] }

/-- The dialogs `john` and `alex` followed by the contact `bob`, no filter. -/
def withContact : DialogsListWidget :=
  { twoDialogs with
    contactsNoDialogs := { list := [bob], index := [(98, [bob])] } }

/-! ## `dialogswidget.cpp`, line 856: the offset as an `int32`

In the cursor model above `dlgOffset` is the mathematical sum of the page sizes.  The member
is an `int32`; the definitions below give the value the machine stores, so that the range in
which the two agree can be stated. -/

/-- The largest `int32`, `2147483647`. -/
def INT32_MAX : Int := 2147483647

/-- The smallest `int32`, `-2147483648`. -/
def INT32_MIN : Int := -2147483648

/-- The `int32` a machine with two's complement arithmetic stores for an integer: the value
itself inside `INT32_MIN .. INT32_MAX`, wrapped round by `2 ^ 32` outside (in C++ the
overflow of a signed addition is undefined). -/
def toInt32 (x : Int) : Int := (x + 2147483648) % 4294967296 - 2147483648

/-- The statement `dlgOffset += dlgList->size()` (line 856) on the `int32` member
`dlgOffset`. -/
def advanceOffset (dlgOffset : Int) (size : Nat) : Int := toInt32 (dlgOffset + size)

/-! ## `dialogswidget.cpp`, lines 91-132, 717-728 and 917-926: the list inside `DialogsWidget`

`DialogsWidget` owns the scroll area `scroll` and the list widget `list`, which is the
widget of the scroll area (`scroll.setWidget(&list)`, line 720).  Its constructor connects
`list.mustScrollTo` to `scroll.scrollToY` (line 722) and `scroll.scrolled` to
`list.onUpdateSelected` (line 727) and to `DialogsWidget::onListScroll` (line 728).  All of
them live in the GUI thread, so the connections are direct: a slot runs inside the `emit`,
before the statement after it.  `ScrollArea` is declared elsewhere: how it moves on
`scrollToY` and on a resize of its widget, and whether it then emits `scrolled()`, is a
parameter, as are the position of the mouse and `DialogsList::rowAtY`. -/

/-- What the wiring takes from `ScrollArea` and from declarations outside the source. -/
structure ScrollEnv where
  /-- The height `scroll.height()`. -/
  height : Int
  /-- The call `scroll.scrollToY(toTop, toBottom)` at a scroll position: the new scroll
  position and whether `scrolled()` is emitted. -/
  scrollToY : Int → Int → Int → Int × Bool
  /-- The scroll area at a scroll position when its widget is resized to a height: the new
  scroll position and whether `scrolled()` is emitted. -/
  widgetResized : Int → Int → Int × Bool
  /-- The point `mapFromGlobal(lastMousePos)` for a list widget at a scroll position: its
  `y()` when `rect().contains(mouse)`, and `none` when the mouse is outside. -/
  mouse : DialogsListWidget → Int → Option Int
  /-- The row `DialogsList::rowAtY(y, h)` finds in a list, `none` for the null pointer. -/
  rowAtY : List DialogRow → Int → Int → Option DialogRow

/-- A `DialogsWidget` with its members `list` and `scroll`. -/
structure Wired where
  /-- The cursor fields of the `DialogsWidget`, with the state of the RPC layer. -/
  widget : DialogsWidget
  /-- The member `list`. -/
  list : DialogsListWidget
  /-- The scroll position `scroll.scrollTop()`. -/
  scrollTop : Int
deriving DecidableEq, Repr

/-- `DialogsListWidget::onUpdateSelected(force = false)` (lines 91-132), the slot connected
to `scroll.scrolled`; `mouse` is `some mouseY` when `rect().contains(mouse)`.  The shape of
the cursor (`setCursor`) is not part of the model. -/
def DialogsListWidget.onUpdateSelected (env : FilterEnv) (senv : ScrollEnv)
    (mouse : Option Int) (w : DialogsListWidget) : DialogsListWidget :=
  match mouse with
  | none => w
  | some mouseY =>
    if !w.selByMouse then w
    else if w.filter.isEmpty then
      let found := senv.rowAtY w.dialogs.list mouseY env.dlgHeight
      let otherStart := (w.dialogs.list.length : Int) * env.dlgHeight
      let newSel :=
        match found with
        | some row => some row
        | none => senv.rowAtY w.contactsNoDialogs.list (mouseY - otherStart) env.dlgHeight
      let w := { w with contactSel := found.isNone }
      if newSel ≠ w.sel then
        { w with sel := newSel, effects := w.effects ++ [Effect.parentUpdate] }
      else w
    else if !w.filtered.isEmpty then
      let newFilteredSel := Int.tdiv mouseY env.dlgHeight
      let newFilteredSel :=
        if newFilteredSel < 0 ∨ newFilteredSel ≥ w.filtered.length then -1
        else newFilteredSel
      if newFilteredSel ≠ w.filteredSel then
        { w with filteredSel := newFilteredSel, effects := w.effects ++ [Effect.parentUpdate] }
      else w
    else w

/-- `DialogsWidget::onListScroll` (lines 917-922) with the list and the scroll area:
`list.loadPeerPhotos(scroll.scrollTop())`, then `loadDialogs()` when
`scroll.scrollTop() > list.dialogsList().list.count * st::dlgHeight - scroll.height()`. -/
def Wired.onListScroll (env : Env) (fenv : FilterEnv) (senv : ScrollEnv) (p : Wired) :
    Wired :=
  let p := { p with list := DialogsListWidget.loadPeerPhotos fenv p.scrollTop p.list }
  { p with
    widget :=
      Telegram.onListScroll env
        (decide (p.scrollTop > (p.list.dialogs.list.length : Int) * fenv.dlgHeight - senv.height))
        p.widget }

/-- The signal `scroll.scrolled()`: its slots in the order they were connected,
`list.onUpdateSelected()` (line 727), then `onListScroll()` (line 728). -/
def Wired.scrolled (env : Env) (fenv : FilterEnv) (senv : ScrollEnv) (p : Wired) : Wired :=
  Wired.onListScroll env fenv senv
    { p with
      list := DialogsListWidget.onUpdateSelected fenv senv (senv.mouse p.list p.scrollTop) p.list }

/-- The scroll area after one of its moves: the new scroll position, and the signal
`scrolled()` when the move emits it. -/
def Wired.moved (env : Env) (fenv : FilterEnv) (senv : ScrollEnv) (move : Int × Bool)
    (p : Wired) : Wired :=
  let p := { p with scrollTop := move.1 }
  if move.2 then Wired.scrolled env fenv senv p else p

/-- The list widget records one more effect. -/
def Wired.log (e : Effect) (p : Wired) : Wired :=
  { p with list := { p.list with effects := p.list.effects ++ [e] } }

/-- The scroll area after `resize` has given its widget a height (line 439). -/
def Wired.resized (env : Env) (fenv : FilterEnv) (senv : ScrollEnv) (height : Int)
    (p : Wired) : Wired :=
  Wired.moved env fenv senv (senv.widgetResized p.scrollTop height) p

/-- The slot `scroll.scrollToY(toTop, toBottom)`, connected to `list.mustScrollTo`
(line 722). -/
def Wired.scrollToY (env : Env) (fenv : FilterEnv) (senv : ScrollEnv) (toTop toBottom : Int)
    (p : Wired) : Wired :=
  Wired.moved env fenv senv (senv.scrollToY p.scrollTop toTop toBottom) p

/-- The call `list.loadPeerPhotos(yFrom)`. -/
def Wired.loadPeerPhotos (fenv : FilterEnv) (yFrom : Int) (p : Wired) : Wired :=
  { p with list := DialogsListWidget.loadPeerPhotos fenv yFrom p.list }

/-- `DialogsListWidget::refresh` (lines 438-445) as it runs inside `DialogsWidget`: after
`resize` the scroll area adjusts to the new height of its widget, and
`emit mustScrollTo(0, 0)` calls `scroll.scrollToY(0, 0)`; either may emit `scrolled()`. -/
def Wired.refresh (env : Env) (fenv : FilterEnv) (senv : ScrollEnv) (toTop : Bool)
    (p : Wired) : Wired :=
  let rows : Int :=
    if p.list.filter.isEmpty then
      (p.list.dialogs.list.length : Int) + (p.list.contactsNoDialogs.list.length : Int)
    else (p.list.filtered.length : Int)
  let p := Wired.log (Effect.resize (rows * fenv.dlgHeight)) p
  let p := Wired.resized env fenv senv (rows * fenv.dlgHeight) p
  let p :=
    if toTop then
      let p := Wired.log (Effect.mustScrollTo 0 0) p
      let p := Wired.scrollToY env fenv senv 0 0 p
      Wired.loadPeerPhotos fenv 0 p
    else p
  Wired.log Effect.parentUpdate p

/-- `DialogsWidget::onFilterUpdate` (lines 924-926), `list.onFilterUpdate(_filter.text())`,
with the wiring: the body of `DialogsListWidget::onFilterUpdate` up to line 384 is
`filterCore`, then `refresh(true)` and `setMouseSel(false, true)`. -/
def Wired.onFilterUpdate (env : Env) (fenv : FilterEnv) (senv : ScrollEnv) (text : QString)
    (p : Wired) : Wired :=
  if foldedFilter fenv text ≠ p.list.filter then
    let p := { p with list := filterCore fenv text p.list }
    let p := Wired.refresh env fenv senv true p
    { p with list := DialogsListWidget.setMouseSel false true p.list }
  else p

/-- The page request `loadDialogs` sends from a state:
`MTPmessages_GetDialogs(dlgOffset, 0, loadCount)`. -/
def pageRequest (env : Env) (w : DialogsWidget) : MTPRequest :=
  MTPRequest.messages_GetDialogs w.dlgOffset 0 (loadCount env w)

/-- From `a` to `b` the cursor has only been triggered: offset, count and the contacts
request are the same; the requests sent in between are page requests for the offset of `a`;
none when `a` is in flight (then nothing changes at all) or terminal; at most one, which
is then in flight, when request ids are not zero; and the config has been loaded in between
only from an idle terminal cursor that had not loaded it, and then once. -/
def Triggered (env : Env) (a b : DialogsWidget) : Prop :=
  b.dlgOffset = a.dlgOffset ∧ b.dlgCount = a.dlgCount ∧
    b.contactsRequest = a.contactsRequest ∧
    ∃ new : List MTPRequest, b.sent = a.sent ++ new ∧
      (∀ r ∈ new, r = pageRequest env a) ∧
      (a.dlgPreloading ≠ 0 → b = a) ∧
      (terminal a → new = []) ∧
      ((∀ k, env.requestId k ≠ 0) → new.length ≤ 1 ∧ (new ≠ [] → b.dlgPreloading ≠ 0)) ∧
      ((b.configLoads = a.configLoads ∧ b._configLoaded = a._configLoaded) ∨
        (terminal a ∧ a.dlgPreloading = 0 ∧ a._configLoaded = false ∧
          b.configLoads = a.configLoads + 1 ∧ b._configLoaded = true))

/-- From `a` to `b` the list widget has kept its rows and its filter and has only added
effects, and every photo it asked for belongs to a row it holds. -/
def Quiet (a b : DialogsListWidget) : Prop :=
  b.dialogs = a.dialogs ∧ b.contactsNoDialogs = a.contactsNoDialogs ∧
    b.contacts = a.contacts ∧ b.filter = a.filter ∧ b.filtered = a.filtered ∧
    ∃ new : List Effect, b.effects = a.effects ++ new ∧
      ∀ peer, Effect.photoLoad peer ∈ new →
        ∃ row ∈ a.filtered ++ a.dialogs.list ++ a.contactsNoDialogs.list, row.peer = peer

/-- The scroll area never emits `scrolled()`, neither on `scrollToY` nor when its widget is
resized. -/
def Silent (senv : ScrollEnv) : Prop :=
  (∀ top toTop toBottom, (senv.scrollToY top toTop toBottom).2 = false) ∧
    ∀ top height, (senv.widgetResized top height).2 = false

/-- From `p` to `q` the cursor has only been triggered and the list has only added effects;
with a silent scroll area the cursor is untouched. -/
def Calm (env : Env) (senv : ScrollEnv) (p q : Wired) : Prop :=
  Triggered env p.widget q.widget ∧ Quiet p.list q.list ∧
    (Silent senv → q.widget = p.widget)

/-- A scroll area of height 100 that moves where `scrollToY` sends it and emits `scrolled()`
when that changes its position; a resize of its widget leaves it alone; the mouse is
outside the list. -/
def scrollPlain : ScrollEnv :=
  { height := 100
    scrollToY := fun top toTop _ => (toTop, decide (top ≠ toTop))
    widgetResized := fun top _ => (top, false)
    mouse := fun _ _ => none
    rowAtY := fun _ _ _ => none }

/-- The cursor after a first page of one dialog, of a stated total of 100, has been handled
and the request for the next page has failed: idle at offset 1, not terminal. -/
def afterFailedPage : DialogsWidget :=
  afterFailure
    (afterPage env50 firstRequested 1 firstRequest
      (MTPmessages_Dialogs.messages_dialogsSlice 100 [{ isDialog := true, peer := 1 }]) false)
    3 (MTPRequest.messages_GetDialogs 1 0 50)

/-- The dialog `john` and the contact `bob` in the list, no filter, the view scrolled down by
10, and the cursor of `afterFailedPage`. -/
def scrolledDown : Wired :=
  { widget := afterFailedPage
    list :=
      { twoDialogs with
        dialogs := { list := [john], index := [(106, [john])] }
        contactsNoDialogs := { list := [bob], index := [(98, [bob])] } }
    scrollTop := 10 }

/-! ## Specification-side vocabulary -/

/-- The lowercase hexadecimal digit (`'0'..'9'`, `'a'..'f'`) of a value below 16. -/
def hexDigit (n : Nat) : Nat := (Nat.digitChar n).toNat

/-- The four lowercase hex digits of a 16-bit value, most significant first. -/
def hex4 (u : Nat) : QString :=
  [hexDigit (u / 4096 % 16), hexDigit (u / 256 % 16), hexDigit (u / 16 % 16), hexDigit (u % 16)]

/-- The escaped form in the words of the specification, with the upper end `hi` of the range
of code units that are copied: a code unit outside `32..hi`, or equal to `'%'`, becomes `'%'`
followed by its four lowercase hex digits; every other code unit is copied. -/
def escapeSpec (hi : Nat) : QString → QString
  | [] => []
  | u :: rest => (if u < 32 ∨ hi < u ∨ u = 37 then 37 :: hex4 u else [u]) ++ escapeSpec hi rest

/-! ### Lemmas on the codec -/

theorem land_15 (v : Nat) : v &&& 15 = v % 16 :=
  Nat.and_pow_two_sub_one_eq_mod v 4

theorem toHex_eq (v : Nat) :
    _toHex v = if v % 16 ≥ 10 then 97 + (v % 16 - 10) else 48 + v % 16 := by
  simp only [_toHex, land_15]

theorem hexDigit_facts : ∀ k < 16,
    _fromHex (if k ≥ 10 then 97 + (k - 10) else 48 + k) = k ∧
      48 ≤ (if k ≥ 10 then 97 + (k - 10) else 48 + k) ∧
      (if k ≥ 10 then 97 + (k - 10) else 48 + k) ≤ 102 := by
  decide

theorem fromHex_toHex (v : Nat) : _fromHex (_toHex v) = v % 16 := by
  rw [toHex_eq]
  exact (hexDigit_facts (v % 16) (Nat.mod_lt _ (by decide))).1

theorem toHex_range (v : Nat) : 48 ≤ _toHex v ∧ _toHex v ≤ 102 := by
  rw [toHex_eq]
  exact (hexDigit_facts (v % 16) (Nat.mod_lt _ (by decide))).2

theorem lor_digits (a b c d : Nat) (_ha : a < 16) (hb : b < 16) (hc : c < 16) (hd : d < 16) :
    (a <<< 12) ||| (b <<< 8) ||| (c <<< 4) ||| d = a * 4096 + b * 256 + c * 16 + d := by
  have e1 : (a <<< 12) ||| (b <<< 8) = a * 4096 + b * 256 := by
    have h := Nat.mul_add_lt_is_or (show b * 256 < 2 ^ 12 by omega) a
    rw [Nat.shiftLeft_eq, Nat.shiftLeft_eq, Nat.mul_comm a (2 ^ 12),
      show b * 2 ^ 8 = b * 256 by norm_num, ← h]
  have e2 : (a * 4096 + b * 256) ||| (c <<< 4) = a * 4096 + b * 256 + c * 16 := by
    have h := Nat.mul_add_lt_is_or (show c * 16 < 2 ^ 8 by omega) (a * 16 + b)
    rw [Nat.shiftLeft_eq, show c * 2 ^ 4 = c * 16 by norm_num,
      show a * 4096 + b * 256 = 2 ^ 8 * (a * 16 + b) by ring, ← h]
  have e3 : (a * 4096 + b * 256 + c * 16) ||| d = a * 4096 + b * 256 + c * 16 + d := by
    have h := Nat.mul_add_lt_is_or (show d < 2 ^ 4 by omega) (a * 256 + b * 16 + c)
    rw [show a * 4096 + b * 256 + c * 16 = 2 ^ 4 * (a * 256 + b * 16 + c) by ring, ← h]
  rw [e1, e2, e3]

theorem unescapeChar_toHex (u : Nat) (hu : u < 65536) :
    unescapeChar (_toHex (u >>> 12)) (_toHex (u >>> 8)) (_toHex (u >>> 4)) (_toHex u) = u := by
  unfold unescapeChar
  simp only [fromHex_toHex, Nat.shiftRight_eq_div_pow]
  rw [lor_digits _ _ _ _ (Nat.mod_lt _ (by decide)) (Nat.mod_lt _ (by decide))
    (Nat.mod_lt _ (by decide)) (Nat.mod_lt _ (by decide))]
  rw [show (2 : Nat) ^ 12 = 4096 by norm_num, show (2 : Nat) ^ 8 = 256 by norm_num,
    show (2 : Nat) ^ 4 = 16 by norm_num]
  have h1 : u / 4096 = u / 16 / 16 / 16 := by
    rw [Nat.div_div_eq_div_mul, Nat.div_div_eq_div_mul]
  have h2 : u / 256 = u / 16 / 16 := by rw [Nat.div_div_eq_div_mul]
  rw [h1, h2]
  have hb : u / 16 / 16 / 16 < 16 := by omega
  have e : u / 16 / 16 / 16 % 16 * 4096 + u / 16 / 16 % 16 * 256 + u / 16 % 16 * 16 + u % 16
      = u := by
    rw [Nat.mod_eq_of_lt hb]
    have k0 := Nat.div_add_mod u 16
    have k1 := Nat.div_add_mod (u / 16) 16
    have k2 := Nat.div_add_mod (u / 16 / 16) 16
    generalize u / 16 / 16 / 16 = q3 at *
    generalize u / 16 / 16 % 16 = r2 at *
    generalize u / 16 / 16 = q2 at *
    generalize u / 16 % 16 = r1 at *
    generalize u / 16 = q1 at *
    generalize u % 16 = r0 at *
    omega
  rw [e]
  exact Nat.mod_eq_of_lt hu

theorem escapeFrom7bit_cons_ne (ch : Nat) (t : QString) (h : ch ≠ 37) :
    _escapeFrom7bit (ch :: t) = ch :: _escapeFrom7bit t := by
  match t with
  | [] => simp [_escapeFrom7bit]
  | [_] => simp [_escapeFrom7bit]
  | [_, _] => simp [_escapeFrom7bit]
  | [_, _, _] => simp [_escapeFrom7bit]
  | _ :: _ :: _ :: _ :: _ => simp [_escapeFrom7bit, h]

theorem escapeFrom7bit_escaped (a b c d : Nat) (t : QString) :
    _escapeFrom7bit (37 :: a :: b :: c :: d :: t) = unescapeChar a b c d :: _escapeFrom7bit t := by
  simp [_escapeFrom7bit]

theorem escapeFrom7bit_escapeChar (u : Nat) (hu : u < 65536) (t : QString) :
    _escapeFrom7bit (escapeChar u ++ t) = u :: _escapeFrom7bit t := by
  unfold escapeChar
  by_cases h : needsEscape u = true
  · simp only [h, if_true, List.cons_append, List.nil_append]
    rw [escapeFrom7bit_escaped, unescapeChar_toHex u hu]
  · have h37 : u ≠ 37 := by
      intro e; apply h; simp [needsEscape, e]
    simp only [h, List.cons_append, List.nil_append]
    exact escapeFrom7bit_cons_ne u t h37

theorem escapeFrom7bit_escapeTo7bit (s : QString) (hs : IsUtf16 s) :
    _escapeFrom7bit (_escapeTo7bit s) = s := by
  induction s with
  | nil => rfl
  | cons u rest ih =>
    have hu : u < 65536 := hs u (List.mem_cons_self _ _)
    have hrest : IsUtf16 rest := fun c hc => hs c (List.mem_cons_of_mem _ hc)
    show _escapeFrom7bit (escapeChar u ++ _escapeTo7bit rest) = u :: rest
    rw [escapeFrom7bit_escapeChar u hu, ih hrest]

/-- C1: escape round trip.  For every string `s` of UTF-16 code units (control characters,
code units above 127 and `'%'` included), decoding the escaped form gives `s` back:
`_escapeFrom7bit(_escapeTo7bit(s)) = s`. -/
theorem escape_round_trip (s : QString) (hs : IsUtf16 s) :
    _escapeFrom7bit (_escapeTo7bit s) = s := by
  induction s with
  | nil => rfl
  | cons u rest ih =>
    have hu : u < 65536 := hs u (List.mem_cons_self _ _)
    rw [show _escapeTo7bit (u :: rest) = escapeChar u ++ _escapeTo7bit rest from rfl,
      escapeFrom7bit_escapeChar u hu, ih (fun c hc => hs c (List.mem_cons_of_mem _ hc))]

/-- Witness for C1: a string with a letter, `'%'`, NUL, `0xFFFF`, `';'`, DEL and `0x80`. -/
theorem escape_round_trip_witness :
    IsUtf16 [97, 37, 0, 65535, 59, 127, 128] ∧
      _escapeFrom7bit (_escapeTo7bit [97, 37, 0, 65535, 59, 127, 128])
        = [97, 37, 0, 65535, 59, 127, 128] :=
  ⟨by decide, escape_round_trip _ (by decide)⟩

theorem toHex_eq_hexDigit (v : Nat) : _toHex v = hexDigit (v % 16) := by
  have h : ∀ k < 16, (if k ≥ 10 then 97 + (k - 10) else 48 + k) = hexDigit k := by decide
  rw [toHex_eq]
  exact h (v % 16) (Nat.mod_lt _ (by decide))

theorem escapeChar_eq (u : Nat) :
    escapeChar u = if u < 32 ∨ 127 < u ∨ u = 37 then 37 :: hex4 u else [u] := by
  unfold escapeChar needsEscape hex4
  simp only [toHex_eq_hexDigit, Nat.shiftRight_eq_div_pow, Bool.or_eq_true, decide_eq_true_eq,
    gt_iff_lt, or_assoc]

theorem escapeChar_range (u c : Nat) (hc : c ∈ escapeChar u) : 32 ≤ c ∧ c ≤ 127 := by
  unfold escapeChar at hc
  by_cases h : needsEscape u = true
  · rw [if_pos h] at hc
    simp only [List.mem_cons, List.mem_singleton, List.not_mem_nil, or_false] at hc
    obtain ⟨a1, b1⟩ := toHex_range (u >>> 12)
    obtain ⟨a2, b2⟩ := toHex_range (u >>> 8)
    obtain ⟨a3, b3⟩ := toHex_range (u >>> 4)
    obtain ⟨a4, b4⟩ := toHex_range u
    rcases hc with e | e | e | e | e <;> rw [e] <;> omega
  · rw [if_neg h] at hc
    simp only [List.mem_singleton] at hc
    subst hc
    simp only [needsEscape, Bool.or_eq_true, decide_eq_true_eq, not_or] at h
    omega

theorem escapeTo7bit_range (s : QString) : ∀ c ∈ _escapeTo7bit s, 32 ≤ c ∧ c ≤ 127 := by
  induction s with
  | nil => intro c hc; cases hc
  | cons u rest ih =>
    intro c hc
    rcases List.mem_append.mp hc with h | h
    · exact escapeChar_range u c h
    · exact ih c h

/-- C5 (as amended): for every string `s`, every code unit of `s` outside `32..127`, or equal
to `'%'`, is replaced in `_escapeTo7bit(s)` by `'%'` followed by the four lowercase hex
digits of its 16-bit value, every other code unit (DEL, 127, included) is copied unchanged,
and every code unit of the output lies in `32..127`, so it is 7-bit and not a control
character below 32. -/
theorem escapeTo7bit_seven_bit (s : QString) :
    _escapeTo7bit s = escapeSpec 127 s ∧ ∀ c ∈ _escapeTo7bit s, 32 ≤ c ∧ c ≤ 127 := by
  refine ⟨?_, escapeTo7bit_range s⟩
  induction s with
  | nil => rfl
  | cons u rest ih =>
    show escapeChar u ++ _escapeTo7bit rest = _
    rw [ih, escapeChar_eq]
    rfl

/-- C5 as stated fails at DEL: the code unit 127 is outside printable ASCII `32..126`, yet
`_escapeTo7bit` copies it, so the output differs from the stated form and holds a code unit
that is not printable ASCII. -/
theorem escapeTo7bit_del_not_escaped :
    _escapeTo7bit [127] = [127] ∧ _escapeTo7bit [127] ≠ escapeSpec 126 [127] ∧
      ¬ (∀ c ∈ _escapeTo7bit [127], 32 ≤ c ∧ c ≤ 126) := by
  decide

/-! ### Lemmas on the command stream -/

theorem indexOfAux_not_mem (ch : Nat) (r : QString) (i : Nat) (h : ch ∉ r) :
    indexOfAux ch r i = -1 := by
  induction r generalizing i with
  | nil => rfl
  | cons c cs ih =>
    have hc : c ≠ ch := fun e => h (e ▸ List.mem_cons_self _ _)
    have hcs : ch ∉ cs := fun m => h (List.mem_cons_of_mem _ m)
    simp only [indexOfAux, hc, if_false]
    exact ih (i + 1) hcs

theorem indexOfAux_append (ch : Nat) (u t : QString) (i : Nat) (h : ch ∉ u) :
    indexOfAux ch (u ++ ch :: t) i = ((i + u.length : Nat) : Int) := by
  induction u generalizing i with
  | nil => simp [indexOfAux]
  | cons c cs ih =>
    have hc : c ≠ ch := fun e => h (e ▸ List.mem_cons_self _ _)
    have hcs : ch ∉ cs := fun m => h (List.mem_cons_of_mem _ m)
    rw [List.cons_append, indexOfAux, if_neg hc, ih (i + 1) hcs]
    simp only [List.length_cons]
    congr 1
    omega

theorem indexOf_unit (pre u t : QString) (h : 59 ∉ u) :
    indexOf (pre ++ u ++ 59 :: t) 59 pre.length = ((pre.length + u.length : Nat) : Int) := by
  unfold indexOf
  rw [List.append_assoc, List.drop_left]
  exact indexOfAux_append 59 u t pre.length h

theorem indexOf_tail (pre r : QString) (h : 59 ∉ r) :
    indexOf (pre ++ r) 59 pre.length = -1 := by
  unfold indexOf
  rw [List.drop_left]
  exact indexOfAux_not_mem 59 r pre.length h

theorem mid_unit (pre u t : QString) (k : Nat) (hk : k ≤ u.length) :
    mid (pre ++ u ++ t) (pre.length + k) (((pre.length + u.length : Nat) : Int) - pre.length - k)
      = u.drop k := by
  unfold mid
  have hn : ¬ (((pre.length + u.length : Nat) : Int) - pre.length - k < 0) := by
    push_cast; omega
  have e : ((((pre.length + u.length : Nat) : Int) - pre.length - k).toNat) = u.length - k := by
    push_cast; omega
  rw [if_neg hn, e, List.append_assoc, ← List.drop_drop, List.drop_left, List.drop_append_of_le_length hk,
    List.take_left']
  simp

theorem startsWith_length (u str : QString) (h : startsWith u str = true) :
    str.length ≤ u.length := by
  unfold startsWith at h
  exact (List.isPrefixOf_iff_prefix.mp h).length_le

theorem mid_unit_cmd (pre u t : QString) :
    mid (pre ++ u ++ t) pre.length (((pre.length + u.length : Nat) : Int) - pre.length) = u := by
  have h := mid_unit pre u t 0 (Nat.zero_le _)
  simpa using h

theorem mid_unit_4 (pre u t : QString) (hk : 4 ≤ u.length) :
    mid (pre ++ u ++ t) (pre.length + 4) (((pre.length + u.length : Nat) : Int) - pre.length - 4)
      = u.drop 4 := by
  have h := mid_unit pre u t 4 hk
  simpa using h

theorem mid_unit_5 (pre u t : QString) (hk : 5 ≤ u.length) :
    mid (pre ++ u ++ t) (pre.length + 5) (((pre.length + u.length : Nat) : Int) - pre.length - 5)
      = u.drop 5 := by
  have h := mid_unit pre u t 5 hk
  simpa using h

theorem processUnit_unit (g : Globals) (pre u t : QString) (st : ReadState) :
    processUnit g (pre ++ u ++ t) pre.length ((pre.length + u.length : Nat) : Int) st
      = applyUnit g st u := by
  unfold processUnit applyUnit
  simp only [mid_unit_cmd]
  by_cases h1 : startsWith u qCMD = true
  · simp only [h1, if_true]
    rw [mid_unit_4 pre u t (startsWith_length u qCMD h1)]
  · simp only [h1]
    by_cases h2 : startsWith u qSEND = true
    · simp only [h2, if_true]
      rw [mid_unit_5 pre u t (startsWith_length u qSEND h2)]
      rfl
    · simp only [h2]
      by_cases h3 : startsWith u qOPEN = true
      · simp only [h3, if_true]
        rw [mid_unit_5 pre u t (startsWith_length u qOPEN h3)]
        rfl
      · simp only [h3]
        rfl

theorem parseLoop_succ (g : Globals) (cmds : QString) (f frm : Nat) (upto : Int)
    (st : ReadState) :
    parseLoop g cmds (f + 1) frm upto st =
      if (frm : Int) ≤ upto then
        parseLoop g cmds f (upto + 1).toNat (nextIdx cmds (upto + 1).toNat)
          (processUnit g cmds frm upto st)
      else some (frm, st) := rfl

theorem joinUnits_length (us : List QString) : us.length ≤ (joinUnits us).length := by
  induction us with
  | nil => simp [joinUnits]
  | cons u us ih => simp only [joinUnits, List.length_append, List.length_cons]; omega

/-- The index loop walks the units of the text: started at the beginning of a unit, with
enough fuel, it applies the loop body to every complete unit in order and stops with `from`
just after the last `';'`. -/
theorem parseLoop_units (g : Globals) (us : List QString) :
    ∀ (pre r : QString) (st : ReadState) (fuel : Nat),
      (∀ u ∈ us, 59 ∉ u) → 59 ∉ r → us.length < fuel →
      parseLoop g (pre ++ joinUnits us ++ r) fuel pre.length
          (nextIdx (pre ++ joinUnits us ++ r) pre.length) st
        = some (pre.length + (joinUnits us).length, us.foldl (applyUnit g) st) := by
  induction us with
  | nil =>
    intro pre r st fuel _ hr hf
    obtain ⟨f, rfl⟩ : ∃ f, fuel = f + 1 := ⟨fuel - 1, by simp at hf; omega⟩
    have hidx : nextIdx (pre ++ joinUnits [] ++ r) pre.length = -1 := by
      unfold nextIdx
      split
      · simp only [joinUnits, List.append_nil]
        exact indexOf_tail pre r hr
      · rfl
    rw [hidx, parseLoop_succ, if_neg (by omega)]
    simp [joinUnits]
  | cons u us ih =>
    intro pre r st fuel hus hr hf
    have hu : 59 ∉ u := hus u (List.mem_cons_self _ _)
    have hus' : ∀ v ∈ us, 59 ∉ v := fun v hv => hus v (List.mem_cons_of_mem _ hv)
    obtain ⟨f, rfl⟩ : ∃ f, fuel = f + 1 := ⟨fuel - 1, by simp at hf; omega⟩
    have hf' : us.length < f := by simp at hf; omega
    have e1 : pre ++ joinUnits (u :: us) ++ r = pre ++ u ++ 59 :: (joinUnits us ++ r) := by
      simp [joinUnits]
    have e2 : pre ++ joinUnits (u :: us) ++ r = (pre ++ u ++ [59]) ++ joinUnits us ++ r := by
      simp [joinUnits]
    have hidx : nextIdx (pre ++ joinUnits (u :: us) ++ r) pre.length
        = ((pre.length + u.length : Nat) : Int) := by
      unfold nextIdx
      rw [if_pos (by rw [e1]; simp only [List.length_append, List.length_cons]; omega), e1,
        indexOf_unit pre u _ hu]
    have hp : processUnit g (pre ++ joinUnits (u :: us) ++ r) pre.length
        ((pre.length + u.length : Nat) : Int) st = applyUnit g st u := by
      rw [e1]; exact processUnit_unit g pre u _ st
    have hfrm : (((pre.length + u.length : Nat) : Int) + 1).toNat = (pre ++ u ++ [59]).length := by
      simp only [List.length_append, List.length_cons, List.length_nil]
      omega
    rw [hidx, parseLoop_succ, if_pos (by push_cast; omega), hp, hfrm, e2,
      ih (pre ++ u ++ [59]) r (applyUnit g st u) f hus' hr hf']
    simp only [joinUnits, List.length_append, List.length_cons, List.length_nil, List.foldl_cons]
    congr 2
    omega

theorem splitAcc_spec (s : QString) : ∀ acc : QString, 59 ∉ acc →
    acc ++ s = joinUnits (splitAcc acc s).1 ++ (splitAcc acc s).2 ∧
      (∀ u ∈ (splitAcc acc s).1, 59 ∉ u) ∧ 59 ∉ (splitAcc acc s).2 := by
  induction s with
  | nil =>
    intro acc hacc
    simp [splitAcc, joinUnits, hacc]
  | cons c cs ih =>
    intro acc hacc
    by_cases hc : c = 59
    · subst hc
      obtain ⟨h1, h2, h3⟩ := ih [] (by simp)
      simp only [splitAcc, if_true]
      refine ⟨?_, ?_, h3⟩
      · simp only [joinUnits, List.append_assoc, ← h1]
        simp
      · intro u hu
        rcases List.mem_cons.mp hu with rfl | hu
        · exact hacc
        · exact h2 u hu
    · have hacc' : 59 ∉ acc ++ [c] := by
        simp only [List.mem_append, List.mem_singleton, not_or]
        exact ⟨hacc, fun e => hc e.symm⟩
      obtain ⟨h1, h2, h3⟩ := ih (acc ++ [c]) hacc'
      simp only [splitAcc, hc, if_false]
      refine ⟨?_, h2, h3⟩
      rw [← h1]
      simp

theorem splitAcc_shift (acc : QString) : ∀ (x s : QString), 59 ∉ acc →
    splitAcc x (acc ++ s) = splitAcc (x ++ acc) s := by
  induction acc with
  | nil => intro x s _; simp
  | cons c cs ih =>
    intro x s h
    have hc : c ≠ 59 := fun e => h (e ▸ List.mem_cons_self _ _)
    have hcs : 59 ∉ cs := fun m => h (List.mem_cons_of_mem _ m)
    rw [List.cons_append, splitAcc, if_neg hc, ih (x ++ [c]) s hcs]
    simp

theorem splitAcc_append (a : QString) : ∀ (acc b : QString),
    splitAcc acc (a ++ b) =
      ((splitAcc acc a).1 ++ (splitAcc (splitAcc acc a).2 b).1,
        (splitAcc (splitAcc acc a).2 b).2) := by
  induction a with
  | nil => intro acc b; simp [splitAcc]
  | cons c cs ih =>
    intro acc b
    by_cases hc : c = 59
    · subst hc
      rw [List.cons_append, splitAcc, if_pos rfl, ih [] b, splitAcc, if_pos rfl]
      rfl
    · rw [List.cons_append, splitAcc, if_neg hc, ih (acc ++ [c]) b, splitAcc, if_neg hc]

/-- Split invariance of the unit structure: the units of `a ++ b` are the units of `a`
followed by the units of what `a` leaves joined with `b`. -/
theorem splitUnits_append (a b : QString) :
    splitUnits (a ++ b) =
      ((splitUnits a).1 ++ (splitUnits ((splitUnits a).2 ++ b)).1,
        (splitUnits ((splitUnits a).2 ++ b)).2) := by
  unfold splitUnits
  have h := (splitAcc_spec a [] (by simp)).2.2
  rw [splitAcc_append a [] b, splitAcc_shift (splitAcc [] a).2 [] b h]
  simp

theorem takeWhile_append_stop (p : Nat → Bool) (a b : List Nat) (ha : ∀ x ∈ a, p x = true)
    (hb : b = [] ∨ ∃ c t, b = c :: t ∧ p c = false) :
    (a ++ b).takeWhile p = a := by
  induction a with
  | nil =>
    rcases hb with rfl | ⟨c, t, rfl, hc⟩
    · rfl
    · simp [List.takeWhile, hc]
  | cons x xs ih =>
    have hx : p x = true := ha x (List.mem_cons_self _ _)
    have hxs : ∀ y ∈ xs, p y = true := fun y hy => ha y (List.mem_cons_of_mem _ hy)
    simp [List.takeWhile, hx, ih hxs]

theorem joinUnits_ends (us : List QString) (h : us ≠ []) : ∃ t, joinUnits us = t ++ [59] := by
  induction us with
  | nil => exact absurd rfl h
  | cons u us ih =>
    by_cases hus : us = []
    · subst hus; exact ⟨u, by simp [joinUnits]⟩
    · obtain ⟨t, ht⟩ := ih hus
      exact ⟨u ++ [59] ++ t, by simp [joinUnits, ht]⟩

theorem afterLast_join (us : List QString) (r : QString) (hr : 59 ∉ r) :
    afterLast 59 (joinUnits us ++ r) = r := by
  unfold afterLast
  rw [List.reverse_append, takeWhile_append_stop _ r.reverse, List.reverse_reverse]
  · intro x hx
    have hx' : x ∈ r := List.mem_reverse.mp hx
    simp only [bne_iff_ne, ne_eq]
    intro e; exact hr (e ▸ hx')
  · by_cases hus : us = []
    · left; subst hus; simp [joinUnits]
    · right
      obtain ⟨t, ht⟩ := joinUnits_ends us hus
      exact ⟨59, t.reverse, by simp [ht], by simp⟩

theorem fromLatin1_of_not_mem (b : QByteArray) (h : 0 ∉ b) : fromLatin1 b = b := by
  unfold fromLatin1
  induction b with
  | nil => rfl
  | cons c cs ih =>
    have hc : c ≠ 0 := fun e => h (e ▸ List.mem_cons_self _ _)
    have hcs : 0 ∉ cs := fun hm => h (List.mem_cons_of_mem _ hm)
    simp [List.takeWhile_cons, hc, ih hcs]

theorem fromLatin1_not_mem (b : QByteArray) : 0 ∉ fromLatin1 b := by
  unfold fromLatin1
  intro h
  have := List.mem_takeWhile_imp h
  simp at this

theorem fromLatin1_append_of_not_mem (a b : QByteArray) (h : 0 ∉ a) :
    fromLatin1 (a ++ b) = a ++ fromLatin1 b := by
  unfold fromLatin1
  induction a with
  | nil => rfl
  | cons c cs ih =>
    have hc : c ≠ 0 := fun e => h (e ▸ List.mem_cons_self _ _)
    have hcs : 0 ∉ cs := fun hm => h (List.mem_cons_of_mem _ hm)
    simp [List.takeWhile_cons, hc, ih hcs]

theorem fromLatin1_append_nul (a b : QByteArray) (h : 0 ∉ a) :
    fromLatin1 (a ++ 0 :: b) = a := by
  rw [fromLatin1_append_of_not_mem a _ h]
  simp [fromLatin1, List.takeWhile_cons]

/-- A buffer is its text before the first NUL byte followed by the rest, which is empty or
starts with the NUL byte. -/
theorem fromLatin1_split (b : QByteArray) :
    b = fromLatin1 b ++ b.drop (fromLatin1 b).length ∧
      (b.drop (fromLatin1 b).length = [] ∨ ∃ t, b.drop (fromLatin1 b).length = 0 :: t) := by
  unfold fromLatin1
  induction b with
  | nil => simp
  | cons c cs ih =>
    by_cases hc : c = 0
    · subst hc
      simp [List.takeWhile_cons]
    · simp only [List.takeWhile_cons, bne_iff_ne, ne_eq, hc, not_false_eq_true, if_true,
        List.length_cons, List.drop_succ_cons, List.cons_append, List.cons.injEq, true_and]
      exact ih

theorem retainedOf_of_not_mem (b : QByteArray) (h : 0 ∉ b) :
    retainedOf b = (splitUnits b).2 := by
  unfold retainedOf
  rw [fromLatin1_of_not_mem b h]
  simp

/-- The parse pass in closed form: it always returns; the state is the loop body applied, in
order, to every complete unit of the text before the first NUL byte, and the retained buffer
is what follows the last `';'` of that text. -/
theorem readClient_eq (g : Globals) (data second : QByteArray) (st : ReadState) :
    readClient g data second st =
      some (retainedOf (second ++ data),
        (splitUnits (fromLatin1 (second ++ data))).1.foldl (applyUnit g) st) := by
  unfold readClient retainedOf splitUnits
  generalize second ++ data = s
  dsimp only
  obtain ⟨hsplit, _⟩ := fromLatin1_split s
  generalize fromLatin1 s = cmds at hsplit ⊢
  generalize s.drop cmds.length = z at hsplit ⊢
  obtain ⟨h1, h2, h3⟩ := splitAcc_spec cmds [] (by simp)
  rw [List.nil_append] at h1
  generalize (splitAcc [] cmds).1 = us at h1 h2
  generalize (splitAcc [] cmds).2 = r at h1 h3
  subst h1
  subst hsplit
  by_cases hs : (joinUnits us ++ r ++ z).length = 0
  · have hs' : joinUnits us ++ r ++ z = [] := List.length_eq_zero.mp hs
    obtain ⟨hjr, hz⟩ := List.append_eq_nil.mp hs'
    obtain ⟨hj, hr⟩ := List.append_eq_nil.mp hjr
    have hus : us = [] := by
      have := joinUnits_length us
      rw [hj] at this
      exact List.length_eq_zero.mp (by simpa using this)
    subst hus hr hz
    simp [joinUnits]
  · simp only [ne_eq, hs, not_false_eq_true, if_true]
    have hidx : indexOf (joinUnits us ++ r) 59 0 = nextIdx (joinUnits us ++ r) 0 := by
      unfold nextIdx
      by_cases hl : 0 < (joinUnits us ++ r).length
      · rw [if_pos hl]
      · rw [if_neg hl]
        have : joinUnits us ++ r = [] := List.length_eq_zero.mp (by omega)
        rw [this]
        rfl
    have hloop := parseLoop_units g us [] r st ((joinUnits us ++ r).length + 1) h2 h3
      (by
        have := joinUnits_length us
        simp only [List.length_append]
        omega)
    rw [List.nil_append] at hloop
    simp only [List.length_nil] at hloop
    rw [hidx, hloop]
    simp only [Option.some.injEq, Prod.mk.injEq, and_true]
    by_cases hz : 0 + (joinUnits us).length > 0
    · rw [if_pos hz]
      simp
    · rw [if_neg hz]
      have hj : joinUnits us = [] := List.length_eq_zero.mp (by omega)
      simp [hj]

theorem splitUnits_joinUnits_append (us : List QString) (t : QString)
    (h : ∀ v ∈ us, 59 ∉ v) :
    splitUnits (joinUnits us ++ t) = (us ++ (splitUnits t).1, (splitUnits t).2) := by
  induction us with
  | nil => simp [joinUnits]
  | cons v us ih =>
    have hv : 59 ∉ v := h v (List.mem_cons_self _ _)
    have hus : ∀ x ∈ us, 59 ∉ x := fun x hx => h x (List.mem_cons_of_mem _ hx)
    have e : joinUnits (v :: us) ++ t = v ++ 59 :: (joinUnits us ++ t) := by
      simp [joinUnits]
    have ih' := ih hus
    unfold splitUnits at *
    rw [e, splitAcc_shift v [] _ hv, List.nil_append, splitAcc, if_pos rfl, ih']
    rfl

/-- On a buffer without a NUL byte the pass sees the whole buffer. -/
theorem readClient_of_not_mem (g : Globals) (data second : QByteArray) (st : ReadState)
    (h0 : 0 ∉ second ++ data) :
    readClient g data second st =
      some ((splitUnits (second ++ data)).2,
        (splitUnits (second ++ data)).1.foldl (applyUnit g) st) := by
  rw [readClient_eq, retainedOf_of_not_mem _ h0, fromLatin1_of_not_mem _ h0]

theorem splitAcc_of_not_mem (r : QString) : ∀ acc : QString, 59 ∉ r →
    splitAcc acc r = ([], acc ++ r) := by
  induction r with
  | nil => intro acc _; simp [splitAcc]
  | cons c cs ih =>
    intro acc h
    have hc : c ≠ 59 := fun e => h (e ▸ List.mem_cons_self _ _)
    have hcs : 59 ∉ cs := fun hm => h (List.mem_cons_of_mem _ hm)
    rw [splitAcc, if_neg hc, ih _ hcs]
    simp

theorem splitUnits_of_not_mem (r : QString) (h : 59 ∉ r) : splitUnits r = ([], r) := by
  unfold splitUnits
  rw [splitAcc_of_not_mem r [] h]
  rfl

/-- A buffer given as its text and the rest from the first NUL byte on. -/
theorem pass_of_text (cmds z : QByteArray) (h0 : 0 ∉ cmds)
    (hz : z = [] ∨ ∃ t, z = 0 :: t) :
    fromLatin1 (cmds ++ z) = cmds ∧ retainedOf (cmds ++ z) = (splitUnits cmds).2 ++ z := by
  have ht : fromLatin1 (cmds ++ z) = cmds := by
    rcases hz with rfl | ⟨t, rfl⟩
    · rw [List.append_nil]; exact fromLatin1_of_not_mem cmds h0
    · exact fromLatin1_append_nul cmds t h0
  refine ⟨ht, ?_⟩
  unfold retainedOf
  rw [ht, List.drop_left]

theorem pass_append_aux (a b : QByteArray) (us : List QString) (r z : QByteArray)
    (ha : a = joinUnits us ++ r ++ z) (h2 : ∀ u ∈ us, 59 ∉ u) (h3 : 59 ∉ r)
    (h0 : 0 ∉ joinUnits us ++ r) (hz : z = [] ∨ ∃ t, z = 0 :: t) :
    (splitUnits (fromLatin1 (a ++ b))).1
        = (splitUnits (fromLatin1 a)).1 ++ (splitUnits (fromLatin1 (retainedOf a ++ b))).1 ∧
      retainedOf (a ++ b) = retainedOf (retainedOf a ++ b) := by
  subst ha
  have hr0 : 0 ∉ r := fun h => h0 (List.mem_append_right _ h)
  have hsplitUs : splitUnits (joinUnits us ++ r) = (us, r) := by
    rw [splitUnits_joinUnits_append us r h2, splitUnits_of_not_mem r h3]
    simp
  obtain ⟨ta, hra⟩ := pass_of_text (joinUnits us ++ r) z h0 hz
  rw [hra, ta, hsplitUs]
  rcases hz with rfl | ⟨t, rfl⟩
  · simp only [List.append_nil]
    have e1 : fromLatin1 (joinUnits us ++ r ++ b) = joinUnits us ++ (r ++ fromLatin1 b) := by
      rw [fromLatin1_append_of_not_mem _ b h0, List.append_assoc]
    have e2 : fromLatin1 (r ++ b) = r ++ fromLatin1 b := fromLatin1_append_of_not_mem r b hr0
    refine ⟨?_, ?_⟩
    · rw [e1, e2, splitUnits_joinUnits_append us _ h2]
    · unfold retainedOf
      rw [e1, e2, splitUnits_joinUnits_append us _ h2]
      have d1 : (joinUnits us ++ r ++ b).drop (joinUnits us ++ (r ++ fromLatin1 b)).length
          = b.drop (fromLatin1 b).length := by
        have : (joinUnits us ++ (r ++ fromLatin1 b)).length
            = (joinUnits us ++ r).length + (fromLatin1 b).length := by
          simp only [List.length_append]; omega
        rw [this, List.drop_append]
      have d2 : (r ++ b).drop (r ++ fromLatin1 b).length = b.drop (fromLatin1 b).length := by
        rw [List.length_append, List.drop_append]
      rw [d1, d2]
  · have e1 : fromLatin1 (joinUnits us ++ r ++ 0 :: t ++ b) = joinUnits us ++ r := by
      rw [List.append_assoc (joinUnits us ++ r)]
      exact fromLatin1_append_nul _ _ h0
    have e2 : fromLatin1 (r ++ 0 :: t ++ b) = r := by
      rw [List.append_assoc r]
      exact fromLatin1_append_nul _ _ hr0
    refine ⟨?_, ?_⟩
    · rw [e1, e2, hsplitUs, splitUnits_of_not_mem r h3]
      simp
    · unfold retainedOf
      rw [e1, e2, hsplitUs, splitUnits_of_not_mem r h3]
      have d1 : (joinUnits us ++ r ++ 0 :: t ++ b).drop (joinUnits us ++ r).length
          = 0 :: t ++ b := by
        rw [List.append_assoc (joinUnits us ++ r), List.drop_left]
      have d2 : (r ++ 0 :: t ++ b).drop r.length = 0 :: t ++ b := by
        rw [List.append_assoc r, List.drop_left]
      rw [d1, d2]

/-- Cutting a buffer in two: the units of the whole are the units of the first part followed
by the units found once the second part is appended to what the first pass retained, and
the retained buffers agree. -/
theorem pass_append (a b : QByteArray) :
    (splitUnits (fromLatin1 (a ++ b))).1
        = (splitUnits (fromLatin1 a)).1 ++ (splitUnits (fromLatin1 (retainedOf a ++ b))).1 ∧
      retainedOf (a ++ b) = retainedOf (retainedOf a ++ b) := by
  obtain ⟨hsplit, hz⟩ := fromLatin1_split a
  obtain ⟨h1, h2, h3⟩ := splitAcc_spec (fromLatin1 a) [] (by simp)
  rw [List.nil_append] at h1
  have h0 : 0 ∉ joinUnits (splitAcc [] (fromLatin1 a)).1 ++ (splitAcc [] (fromLatin1 a)).2 := by
    rw [← h1]; exact fromLatin1_not_mem a
  refine pass_append_aux a b _ _ _ ?_ h2 h3 h0 hz
  rw [← h1]
  exact hsplit

theorem unitText_classify (u : QString) : unitText (classify u) = u := by
  unfold classify unitText
  have key : ∀ str : QString, startsWith u str = true → str ++ u.drop str.length = u := by
    intro str h
    obtain ⟨t, ht⟩ := List.isPrefixOf_iff_prefix.mp h
    rw [← ht, List.drop_left]
  by_cases h1 : startsWith u qCMD = true
  · rw [if_pos h1]; exact key qCMD h1
  · rw [if_neg h1]
    by_cases h2 : startsWith u qSEND = true
    · rw [if_pos h2]; exact key qSEND h2
    · rw [if_neg h2]
      by_cases h3 : startsWith u qOPEN = true
      · rw [if_pos h3]; exact key qOPEN h3
      · rw [if_neg h3]; rfl

theorem applyUnit_units (g : Globals) (st : ReadState) (u : QString) :
    (applyUnit g st u).units = st.units ++ [classify u] := by
  unfold applyUnit classify
  by_cases h1 : startsWith u qCMD = true
  · simp only [h1, if_true]
  · rw [if_neg h1, if_neg h1]
    by_cases h2 : startsWith u qSEND = true
    · rw [if_pos h2, if_pos h2]
      by_cases hg : g.cSendPaths.isEmpty = true
      · simp only [hg, if_true]
      · simp only [hg, Bool.false_eq_true, if_false]
    · rw [if_neg h2, if_neg h2]
      by_cases h3 : startsWith u qOPEN = true
      · rw [if_pos h3, if_pos h3]
        by_cases hg : g.cStartUrl.isEmpty = true
        · simp only [hg, if_true]
        · simp only [hg, Bool.false_eq_true, if_false]
      · rw [if_neg h3, if_neg h3]

theorem foldl_applyUnit_units (g : Globals) (us : List QString) : ∀ st : ReadState,
    (us.foldl (applyUnit g) st).units = st.units ++ us.map classify := by
  induction us with
  | nil => intro st; simp
  | cons u us ih =>
    intro st
    rw [List.foldl_cons, ih, applyUnit_units]
    simp

theorem joinUnits_map_unitText (us : List QString) :
    joinUnits ((us.map classify).map unitText) = joinUnits us := by
  induction us with
  | nil => rfl
  | cons u us ih => simp only [List.map_cons, joinUnits, unitText_classify, ih]

theorem afterLast_not_mem (s : QString) (h : 59 ∉ s) : afterLast 59 s = s := by
  have := afterLast_join [] s h
  simpa [joinUnits] using this

/-- C4 (as amended): after every parse pass over a peer's buffer that holds no NUL byte the
pass returns, the retained buffer is exactly the text after the last `';'` of the buffer as
it was before the pass (the whole buffer when it holds no `';'`), it contains no `';'`, and
the units recognised in the pass, each followed by `';'`, concatenated with the retained
buffer reproduce the pre-pass buffer. -/
theorem retained_buffer_is_tail (g : Globals) (data second : QByteArray) (st : ReadState)
    (h0 : 0 ∉ second ++ data) :
    ∃ retained st', readClient g data second st = some (retained, st') ∧
      retained = afterLast 59 (second ++ data) ∧
      (59 ∉ second ++ data → retained = second ++ data) ∧
      59 ∉ retained ∧
      ∃ recognised, st'.units = st.units ++ recognised ∧
        joinUnits (recognised.map unitText) ++ retained = second ++ data := by
  obtain ⟨h1, _, h3⟩ := splitAcc_spec (second ++ data) [] (by simp)
  rw [List.nil_append] at h1
  have hlast : (splitUnits (second ++ data)).2 = afterLast 59 (second ++ data) := by
    conv_rhs => rw [h1]
    exact (afterLast_join _ _ h3).symm
  refine ⟨_, _, readClient_of_not_mem g data second st h0, hlast, ?_, h3, _,
    foldl_applyUnit_units g _ st, ?_⟩
  · intro h
    rw [hlast]
    exact afterLast_not_mem _ h
  · rw [joinUnits_map_unitText]
    exact h1.symm

/-- Witness for C4 as amended: the buffer `CMD:a;zz`. -/
theorem retained_buffer_is_tail_witness :
    0 ∉ [] ++ (qCMD ++ [97, 59, 122, 122]) ∧
      ∃ retained st', readClient ⟨[], [], 7⟩ (qCMD ++ [97, 59, 122, 122]) [] ReadState.init
          = some (retained, st') ∧
        retained = afterLast 59 ([] ++ (qCMD ++ [97, 59, 122, 122])) ∧
        (59 ∉ [] ++ (qCMD ++ [97, 59, 122, 122]) →
          retained = [] ++ (qCMD ++ [97, 59, 122, 122])) ∧
        59 ∉ retained ∧
        ∃ recognised, st'.units = ReadState.init.units ++ recognised ∧
          joinUnits (recognised.map unitText) ++ retained
            = [] ++ (qCMD ++ [97, 59, 122, 122]) :=
  ⟨by decide,
    retained_buffer_is_tail ⟨[], [], 7⟩ (qCMD ++ [97, 59, 122, 122]) [] ReadState.init
      (by decide)⟩

/-- C4 as stated fails: in the buffer `a\0b;c` the text the pass sees is `a`, which holds no
`';'`; nothing is recognised and the whole buffer is retained.  The retained buffer holds a
`';'` and is not the text `c` after the last `';'`. -/
theorem nul_byte_keeps_the_buffer :
    readClient ⟨[], [], 7⟩ [97, 0, 98, 59, 99] [] ReadState.init
        = some ([97, 0, 98, 59, 99], ReadState.init) ∧
      59 ∈ [97, 0, 98, 59, 99] ∧
      afterLast 59 ([] ++ [97, 0, 98, 59, 99]) = [99] := by
  decide

/-- C3: streaming decode is split-invariant.  For one peer starting with an empty buffer and
all byte sequences `a` and `b`, a parse pass over `a` followed by a parse pass after `b` is
appended recognises, in order, the same (prefix, payload) units as a single pass over
`a ++ b`, and both leave the same retained buffer; the settings in force during each pass
(`g₁`, `g₂`, `g`) do not matter. -/
theorem streaming_decode_split_invariant (g₁ g₂ g : Globals) (a b : QByteArray)
    (st : ReadState) :
    ∃ r₁ st₁ r₂ st₂ st₃,
      readClient g₁ a [] st = some (r₁, st₁) ∧
      readClient g₂ b r₁ st₁ = some (r₂, st₂) ∧
      readClient g (a ++ b) [] st = some (r₂, st₃) ∧
      st₃.units = st₂.units := by
  obtain ⟨hu, hr⟩ := pass_append a b
  refine ⟨_, _, _, _, (splitUnits (fromLatin1 (a ++ b))).1.foldl (applyUnit g) st,
    readClient_eq g₁ a [] st, readClient_eq g₂ b _ _, ?_, ?_⟩
  · rw [readClient_eq g (a ++ b) [] st]
    simp only [List.nil_append]
    rw [hr]
  · simp only [List.nil_append]
    rw [foldl_applyUnit_units, foldl_applyUnit_units, foldl_applyUnit_units, hu]
    simp

theorem toLatin1_of_le (s : QString) (h : ∀ c ∈ s, c ≤ 255) : toLatin1 s = s := by
  unfold toLatin1
  induction s with
  | nil => rfl
  | cons c cs ih =>
    have hc : ¬ c > 255 := by
      have := h c (List.mem_cons_self _ _)
      omega
    rw [List.map_cons, if_neg hc, ih (fun x hx => h x (List.mem_cons_of_mem _ hx))]

theorem toHex_ne_semicolon (v : Nat) : _toHex v ≠ 59 := by
  have h : ∀ k < 16, (if k ≥ 10 then 97 + (k - 10) else 48 + k) ≠ 59 := by decide
  rw [toHex_eq]
  exact h (v % 16) (Nat.mod_lt _ (by decide))

theorem escapeTo7bit_no_semicolon (s : QString) (h : 59 ∉ s) : 59 ∉ _escapeTo7bit s := by
  induction s with
  | nil => simp [_escapeTo7bit]
  | cons u rest ih =>
    have hu : u ≠ 59 := fun e => h (e ▸ List.mem_cons_self _ _)
    have hrest : 59 ∉ rest := fun m => h (List.mem_cons_of_mem _ m)
    show 59 ∉ escapeChar u ++ _escapeTo7bit rest
    rw [List.mem_append, not_or]
    refine ⟨?_, ih hrest⟩
    unfold escapeChar
    split
    · simp only [List.mem_cons, List.mem_singleton, List.not_mem_nil, or_false, not_or]
      exact ⟨by decide, (toHex_ne_semicolon _).symm, (toHex_ne_semicolon _).symm,
        (toHex_ne_semicolon _).symm, (toHex_ne_semicolon _).symm⟩
    · simp only [List.mem_singleton]
      exact fun e => hu e.symm

theorem splitUnits_single (u : QString) (h : 59 ∉ u) : splitUnits (u ++ [59]) = ([u], []) := by
  unfold splitUnits
  rw [splitAcc_shift u [] [59] h]
  simp [splitAcc]

/-- Support for C2: the only payloads the transport breaks are those holding `';'`.  For a
string `s` of UTF-16 code units without `';'`, a server with empty pending send paths that
parses `"SEND:" + _escapeTo7bit(s) + ";"` recognises exactly one unit, a SEND whose decoded
payload is `s`, and retains nothing. -/
theorem send_path_survives (g : Globals) (s : QString) (st : ReadState) (hs : IsUtf16 s)
    (h59 : 59 ∉ s) (hg : g.cSendPaths = []) :
    readClient g (sendCommand s) [] st =
      some ([], { st with
        units := st.units ++ [(Prefix.SEND, _escapeTo7bit s)]
        toSend := st.toSend ++ [s] }) := by
  have hbytes : sendCommand s = (qSEND ++ _escapeTo7bit s) ++ [59] := by
    unfold sendCommand
    apply toLatin1_of_le
    intro c hc
    rcases List.mem_append.mp hc with h | h
    · rcases List.mem_append.mp h with h | h
      · have : ∀ x ∈ qSEND, x ≤ 255 := by decide
        exact this c h
      · have := (escapeTo7bit_range s c h).2
        omega
    · have : c = 59 := by simpa using h
      omega
  have hno : 59 ∉ qSEND ++ _escapeTo7bit s := by
    rw [List.mem_append, not_or]
    exact ⟨by decide, escapeTo7bit_no_semicolon s h59⟩
  have hnul : 0 ∉ [] ++ sendCommand s := by
    rw [List.nil_append, hbytes]
    intro hm
    rcases List.mem_append.mp hm with h | h
    · rcases List.mem_append.mp h with h | h
      · exact absurd h (by decide)
      · have := (escapeTo7bit_range s 0 h).1
        omega
    · simp at h
  rw [readClient_of_not_mem g _ [] st hnul, List.nil_append, hbytes, splitUnits_single _ hno]
  simp only [List.foldl_cons, List.foldl_nil]
  have e1 : startsWith (qSEND ++ _escapeTo7bit s) qCMD = false := by
    simp [startsWith, qSEND, qCMD, List.isPrefixOf]
  have e2 : startsWith (qSEND ++ _escapeTo7bit s) qSEND = true := by
    simp [startsWith, qSEND, List.isPrefixOf]
  have e3 : (qSEND ++ _escapeTo7bit s).drop 5 = _escapeTo7bit s := by
    simp [qSEND]
  unfold applyUnit
  simp only [e1, e2, e3, hg, Bool.false_eq_true, if_false, if_true, List.isEmpty_nil,
    escapeFrom7bit_escapeTo7bit s hs]

/-- C2, at the failing input: for the path `a;b` the client writes `SEND:a;b;`, because
`_escapeTo7bit` leaves the delimiter `';'` as it is; a server with empty pending send paths
recognises two units, a SEND with payload `a` and an unknown unit `b`, and forwards the
path `a`. -/
theorem send_path_with_semicolon_is_split :
    sendCommand [97, 59, 98] = [83, 69, 78, 68, 58, 97, 59, 98, 59] ∧
    readClient ⟨[], [], 7⟩ (sendCommand [97, 59, 98]) [] ReadState.init =
      some ([], { ReadState.init with
        toSend := [[97]]
        unknownLog := [[98]]
        units := [(Prefix.SEND, [97]), (Prefix.unknown, [98])] }) := by
  decide

/-! ### Lemmas on the dialogs cursor -/

theorem loadDialogs_inflight (env : Env) (w : DialogsWidget) (h : w.dlgPreloading ≠ 0) :
    loadDialogs env w = w := by
  unfold loadDialogs
  rw [if_pos h]

theorem loadDialogs_terminal (env : Env) (w : DialogsWidget) (h : w.dlgPreloading = 0)
    (ht : terminal w) : loadDialogs env w = loadConfig w := by
  unfold loadDialogs
  rw [if_neg (by simpa using h),
    if_pos (show w.dlgCount ≥ 0 ∧ w.dlgOffset ≥ w.dlgCount from ht)]

theorem loadDialogs_send (env : Env) (w : DialogsWidget) (h : w.dlgPreloading = 0)
    (ht : ¬ terminal w) :
    loadDialogs env w =
      { w with
        sent := w.sent ++ [MTPRequest.messages_GetDialogs w.dlgOffset 0 (loadCount env w)]
        pending := w.pending ++
          [(env.requestId w.sent.length,
            MTPRequest.messages_GetDialogs w.dlgOffset 0 (loadCount env w))]
        dlgPreloading := env.requestId w.sent.length } := by
  unfold loadDialogs
  rw [if_neg (by simpa using h),
    if_neg (show ¬ (w.dlgCount ≥ 0 ∧ w.dlgOffset ≥ w.dlgCount) from ht)]
  rfl

theorem dialogsReceived_eq (env : Env) (dialogs : MTPmessages_Dialogs) (nearEnd : Bool)
    (w : DialogsWidget) (h : w.dlgPreloading ≠ 0) :
    dialogsReceived env dialogs nearEnd w = loadDialogs env (pageHandled env dialogs w) := by
  unfold dialogsReceived pageHandled requestContacts onListScroll MTP.send
  rcases dialogs with v | ⟨c, v⟩ <;> cases nearEnd <;>
    by_cases hc : w.contactsRequest = 0 <;> by_cases hv : v = [] <;>
    simp [hc, hv, h, loadDialogs_inflight, MTPmessages_Dialogs.vdialogs, statedCount]

theorem loadConfig_fields (w : DialogsWidget) :
    (loadConfig w).dlgOffset = w.dlgOffset ∧ (loadConfig w).dlgCount = w.dlgCount ∧
      (loadConfig w).dlgPreloading = w.dlgPreloading ∧ (loadConfig w).sent = w.sent ∧
      (loadConfig w).pending = w.pending ∧ (loadConfig w).contactsRequest = w.contactsRequest ∧
      (loadConfig w).dialogs = w.dialogs := by
  unfold loadConfig
  split <;> simp

theorem cursorInv_loadConfig (env : Env) (w : DialogsWidget) (h : CursorInv env w) :
    CursorInv env (loadConfig w) := by
  obtain ⟨e1, e2, e3, _, e5, _, _⟩ := loadConfig_fields w
  unfold CursorInv outstandingDialogs terminal loadCount at *
  rw [e1, e2, e3, e5]
  exact h

theorem outstanding_requestContacts (env : Env) (w : DialogsWidget) :
    outstandingDialogs (requestContacts env w) = outstandingDialogs w := by
  unfold requestContacts outstandingDialogs
  split
  · simp [List.filter_append, MTPRequest.isGetDialogs]
  · rfl

theorem outstanding_pageHandled (env : Env) (dialogs : MTPmessages_Dialogs)
    (w : DialogsWidget) :
    outstandingDialogs (pageHandled env dialogs w) = outstandingDialogs w := by
  rw [← outstanding_requestContacts env w]
  rfl

theorem sentDialogs_pageHandled (env : Env) (dialogs : MTPmessages_Dialogs)
    (w : DialogsWidget) :
    sentDialogs (pageHandled env dialogs w) = sentDialogs w := by
  unfold pageHandled requestContacts sentDialogs
  split
  · simp [List.filter_append, MTPRequest.isGetDialogs]
  · rfl

theorem pending_answered (env : Env) (w : DialogsWidget) (h : CursorInv env w) (id : Int)
    (request : MTPRequest) (hp : (id, request) ∈ w.pending)
    (hr : request.isGetDialogs = true) :
    w.dlgPreloading ≠ 0 ∧ id = w.dlgPreloading ∧
      request = MTPRequest.messages_GetDialogs w.dlgOffset 0 (loadCount env w) ∧
      outstandingDialogs (MTP.answered id request w) = [] := by
  obtain ⟨_, h2, _⟩ := h
  have hmem : (id, request) ∈ outstandingDialogs w := by
    unfold outstandingDialogs
    exact List.mem_filter.mpr ⟨hp, hr⟩
  by_cases h0 : w.dlgPreloading = 0
  · rw [h2, if_pos h0] at hmem
    cases hmem
  · rw [if_neg h0] at h2
    rw [h2, List.mem_singleton, Prod.mk.injEq] at hmem
    refine ⟨h0, hmem.1, hmem.2, ?_⟩
    have he : outstandingDialogs (MTP.answered id request w)
        = (outstandingDialogs w).erase (id, request) := by
      unfold outstandingDialogs MTP.answered
      exact (List.erase_filter _ _).symm
    rw [he, h2, hmem.1, hmem.2]
    simp

theorem cursorInv_loadDialogs_idle (env : Env) (hid : ∀ k, env.requestId k ≠ 0)
    (w : DialogsWidget) (h0 : 0 ≤ w.dlgOffset) (hp : w.dlgPreloading = 0)
    (ho : outstandingDialogs w = []) :
    CursorInv env (loadDialogs env w) ∧
      ((loadDialogs env w).dlgPreloading = 0 ↔ terminal w) := by
  by_cases ht : terminal w
  · rw [loadDialogs_terminal env w hp ht]
    obtain ⟨e1, e2, e3, _, e5, _, _⟩ := loadConfig_fields w
    refine ⟨cursorInv_loadConfig env w ⟨h0, ?_, fun hne => absurd hp hne⟩, ?_⟩
    · rw [ho, if_pos hp]
    · rw [e3]; exact ⟨fun _ => ht, fun _ => hp⟩
  · rw [loadDialogs_send env w hp ht]
    have hne := hid w.sent.length
    refine ⟨⟨h0, ?_, fun _ => ht⟩, ?_⟩
    · have : outstandingDialogs
          { w with
            sent := w.sent ++ [MTPRequest.messages_GetDialogs w.dlgOffset 0 (loadCount env w)]
            pending := w.pending ++
              [(env.requestId w.sent.length,
                MTPRequest.messages_GetDialogs w.dlgOffset 0 (loadCount env w))]
            dlgPreloading := env.requestId w.sent.length }
          = outstandingDialogs w ++ [(env.requestId w.sent.length,
              MTPRequest.messages_GetDialogs w.dlgOffset 0 (loadCount env w))] := by
        unfold outstandingDialogs
        simp [List.filter_append, MTPRequest.isGetDialogs]
      rw [this, ho]
      simp only [hne, if_false, List.nil_append]
      rfl
    · exact ⟨fun e => absurd e hne, fun t => absurd t ht⟩

theorem cursorInv_loadDialogs (env : Env) (hid : ∀ k, env.requestId k ≠ 0)
    (w : DialogsWidget) (h : CursorInv env w) : CursorInv env (loadDialogs env w) := by
  by_cases hp : w.dlgPreloading = 0
  · have ho : outstandingDialogs w = [] := by rw [h.2.1, if_pos hp]
    exact (cursorInv_loadDialogs_idle env hid w h.1 hp ho).1
  · rw [loadDialogs_inflight env w hp]
    exact h

theorem loadDialogs_fields (env : Env) (w : DialogsWidget) :
    (loadDialogs env w).dlgOffset = w.dlgOffset ∧ (loadDialogs env w).dlgCount = w.dlgCount ∧
      (loadDialogs env w).dialogs = w.dialogs := by
  by_cases hp : w.dlgPreloading = 0
  · by_cases ht : terminal w
    · rw [loadDialogs_terminal env w hp ht]
      obtain ⟨e1, e2, _, _, _, _, e7⟩ := loadConfig_fields w
      exact ⟨e1, e2, e7⟩
    · rw [loadDialogs_send env w hp ht]
      exact ⟨rfl, rfl, rfl⟩
  · rw [loadDialogs_inflight env w hp]
    exact ⟨rfl, rfl, rfl⟩

theorem terminal_loadDialogs (env : Env) (w : DialogsWidget) :
    terminal (loadDialogs env w) ↔ terminal w := by
  obtain ⟨e1, e2, _⟩ := loadDialogs_fields env w
  unfold terminal
  rw [e1, e2]

/-- What a handled page leaves behind, from a state that satisfies the invariant. -/
theorem afterPage_facts (env : Env) (hid : ∀ k, env.requestId k ≠ 0) (w : DialogsWidget)
    (h : CursorInv env w) (id : Int) (request : MTPRequest) (hp : (id, request) ∈ w.pending)
    (hr : request.isGetDialogs = true) (result : MTPmessages_Dialogs) (nearEnd : Bool) :
    CursorInv env (afterPage env w id request result nearEnd) ∧
      ((afterPage env w id request result nearEnd).dlgPreloading = 0 ↔
        terminal (afterPage env w id request result nearEnd)) ∧
      (afterPage env w id request result nearEnd).dlgOffset
        = w.dlgOffset + result.vdialogs.length ∧
      (afterPage env w id request result nearEnd).dlgCount
        = (if result.vdialogs.length ≠ 0 then statedCount result else w.dlgOffset) ∧
      sentDialogs (afterPage env w id request result nearEnd)
        = sentDialogs (loadDialogs env (pageHandled env result (MTP.answered id request w))) := by
  obtain ⟨hne, _, _, hout⟩ := pending_answered env w h id request hp hr
  have hpre : (MTP.answered id request w).dlgPreloading ≠ 0 := hne
  have heq : afterPage env w id request result nearEnd
      = loadDialogs env (pageHandled env result (MTP.answered id request w)) :=
    dialogsReceived_eq env result nearEnd _ hpre
  have hoff : (pageHandled env result (MTP.answered id request w)).dlgOffset
      = w.dlgOffset + result.vdialogs.length := rfl
  have hcnt : (pageHandled env result (MTP.answered id request w)).dlgCount
      = (if result.vdialogs.length ≠ 0 then statedCount result else w.dlgOffset) := rfl
  have h0 : 0 ≤ (pageHandled env result (MTP.answered id request w)).dlgOffset := by
    rw [hoff]
    have := h.1
    omega
  have hz : (pageHandled env result (MTP.answered id request w)).dlgPreloading = 0 := rfl
  have ho : outstandingDialogs (pageHandled env result (MTP.answered id request w)) = [] := by
    rw [outstanding_pageHandled, hout]
  obtain ⟨hinv, hiff⟩ := cursorInv_loadDialogs_idle env hid _ h0 hz ho
  obtain ⟨e1, e2, _⟩ := loadDialogs_fields env (pageHandled env result (MTP.answered id request w))
  rw [heq]
  refine ⟨hinv, ?_, ?_, ?_, rfl⟩
  · rw [terminal_loadDialogs]; exact hiff
  · rw [e1, hoff]
  · rw [e2, hcnt]

theorem cursorInv_afterFailure (env : Env) (w : DialogsWidget) (h : CursorInv env w) (id : Int)
    (request : MTPRequest) (hp : (id, request) ∈ w.pending)
    (hr : request.isGetDialogs = true) :
    CursorInv env (afterFailure w id request) := by
  obtain ⟨_, _, _, hout⟩ := pending_answered env w h id request hp hr
  refine ⟨h.1, ?_, fun hne => absurd rfl hne⟩
  have : outstandingDialogs (afterFailure w id request)
      = outstandingDialogs (MTP.answered id request w) := rfl
  rw [this, hout]
  rfl

theorem cursorInv_step (env : Env) (hid : ∀ k, env.requestId k ≠ 0) (w w' : DialogsWidget)
    (e : Event) (hs : step env w e = some w') (h : CursorInv env w) : CursorInv env w' := by
  cases e with
  | loadDialogs =>
    simp only [step, Option.some.injEq] at hs
    subst hs
    exact cursorInv_loadDialogs env hid w h
  | dialogsDone id request result nearEnd =>
    simp only [step] at hs
    split at hs
    · rename_i hc
      simp only [Option.some.injEq] at hs
      subst hs
      exact (afterPage_facts env hid w h id request hc.1 hc.2 result nearEnd).1
    · cases hs
  | dialogsFail id request =>
    simp only [step] at hs
    split at hs
    · rename_i hc
      simp only [Option.some.injEq] at hs
      subst hs
      exact cursorInv_afterFailure env w h id request hc.1 hc.2
    · cases hs

theorem cursorInv_init (env : Env) : CursorInv env DialogsWidget.init := by
  refine ⟨by decide, ?_, fun hne => absurd rfl hne⟩
  rfl

theorem cursorInv_reachableFrom (env : Env) (hid : ∀ k, env.requestId k ≠ 0)
    (w w' : DialogsWidget) (hr : ReachableFrom env w w') (h : CursorInv env w) :
    CursorInv env w' := by
  induction hr with
  | refl => exact h
  | next w₁ w₂ e _ hs ih => exact cursorInv_step env hid w₁ w₂ e hs ih

theorem cursorInv_reachable (env : Env) (hid : ∀ k, env.requestId k ≠ 0) (w : DialogsWidget)
    (hr : Reachable env w) : CursorInv env w :=
  cursorInv_reachableFrom env hid _ w hr (cursorInv_init env)

theorem env50_ids (k : Nat) : env50.requestId k ≠ 0 := by
  show (k : Int) + 1 ≠ 0
  omega

theorem firstRequested_reachable : Reachable env50 firstRequested :=
  ReachableFrom.next _ _ Event.loadDialogs ReachableFrom.refl rfl

theorem terminal_stable (env : Env) (a w' : DialogsWidget) (hr : ReachableFrom env a w')
    (hp : a.dlgPreloading = 0) (ht : terminal a) (ho : outstandingDialogs a = []) :
    w'.dlgPreloading = 0 ∧ w'.dlgOffset = a.dlgOffset ∧ w'.dlgCount = a.dlgCount ∧
      outstandingDialogs w' = [] ∧ w'.sent = a.sent ∧ w'.pending = a.pending := by
  induction hr with
  | refl => exact ⟨hp, rfl, rfl, ho, rfl, rfl⟩
  | next w₁ w₂ e _ hs ih =>
    obtain ⟨i1, i2, i3, i4, i5, i6⟩ := ih
    have ht₁ : terminal w₁ := by
      unfold terminal at *
      rw [i2, i3]; exact ht
    cases e with
    | loadDialogs =>
      simp only [step, Option.some.injEq] at hs
      subst hs
      rw [loadDialogs_terminal env w₁ i1 ht₁]
      obtain ⟨e1, e2, e3, e4, e5, _, _⟩ := loadConfig_fields w₁
      refine ⟨e3.trans i1, e1.trans i2, e2.trans i3, ?_, e4.trans i5, e5.trans i6⟩
      unfold outstandingDialogs at *
      rw [e5]; exact i4
    | dialogsDone id request result nearEnd =>
      simp only [step] at hs
      split at hs
      · rename_i hc
        have : (id, request) ∈ outstandingDialogs w₁ := List.mem_filter.mpr ⟨hc.1, hc.2⟩
        rw [i4] at this
        cases this
      · cases hs
    | dialogsFail id request =>
      simp only [step] at hs
      split at hs
      · rename_i hc
        have : (id, request) ∈ outstandingDialogs w₁ := List.mem_filter.mpr ⟨hc.1, hc.2⟩
        rw [i4] at this
        cases this
      · cases hs

/-- C6: single-flight for the dialogs cursor.  When the request ids returned by `MTP::send`
are non-zero, in every state reachable through `loadDialogs`, `dialogsReceived` and
`dialogsFailed` at most one dialogs request is outstanding, `dlgPreloading` is non-zero
exactly when one is outstanding, and a `loadDialogs` call made while `dlgPreloading` is
non-zero changes nothing: it issues no request and leaves every cursor field as it is. -/
theorem dialogs_single_flight (env : Env) (hid : ∀ k, env.requestId k ≠ 0)
    (w : DialogsWidget) (hw : Reachable env w) :
    (outstandingDialogs w).length ≤ 1 ∧
      (w.dlgPreloading ≠ 0 ↔ (outstandingDialogs w).length = 1) ∧
      (w.dlgPreloading ≠ 0 → loadDialogs env w = w) := by
  obtain ⟨_, h2, _⟩ := cursorInv_reachable env hid w hw
  refine ⟨?_, ?_, loadDialogs_inflight env w⟩
  · rw [h2]; split <;> simp
  · rw [h2]
    by_cases h0 : w.dlgPreloading = 0
    · simp [h0]
    · simp [h0]

/-- Witness for C6: the state with the first request in flight. -/
theorem dialogs_single_flight_witness :
    (∀ k, env50.requestId k ≠ 0) ∧ Reachable env50 firstRequested ∧
      firstRequested.dlgPreloading ≠ 0 ∧
      (outstandingDialogs firstRequested).length ≤ 1 ∧
      (firstRequested.dlgPreloading ≠ 0 ↔ (outstandingDialogs firstRequested).length = 1) ∧
      (firstRequested.dlgPreloading ≠ 0 → loadDialogs env50 firstRequested = firstRequested) :=
  ⟨env50_ids, firstRequested_reachable, by decide,
    dialogs_single_flight env50 env50_ids firstRequested firstRequested_reachable⟩

/-- C7: an empty page is terminal.  Handling a dialogs page with zero entries sets
`dlgCount` equal to the current `dlgOffset`, whatever count the response itself states,
issues no dialogs request, and in every state reached from then on a `loadDialogs` call
issues no request: nothing is sent and nothing becomes pending. -/
theorem empty_page_is_terminal (env : Env) (hid : ∀ k, env.requestId k ≠ 0)
    (w : DialogsWidget) (hw : Reachable env w) (id : Int) (request : MTPRequest)
    (hp : (id, request) ∈ w.pending) (hr : request.isGetDialogs = true)
    (result : MTPmessages_Dialogs) (hempty : result.vdialogs = []) (nearEnd : Bool)
    (w' : DialogsWidget)
    (hfut : ReachableFrom env (afterPage env w id request result nearEnd) w') :
    (afterPage env w id request result nearEnd).dlgCount = w.dlgOffset ∧
      (afterPage env w id request result nearEnd).dlgOffset = w.dlgOffset ∧
      sentDialogs (afterPage env w id request result nearEnd) = sentDialogs w ∧
      w'.dlgCount = w'.dlgOffset ∧
      w'.sent = (afterPage env w id request result nearEnd).sent ∧
      (loadDialogs env w').sent = w'.sent ∧
      (loadDialogs env w').pending = w'.pending := by
  have hinv := cursorInv_reachable env hid w hw
  obtain ⟨ainv, aiff, aoff, acnt, asent⟩ :=
    afterPage_facts env hid w hinv id request hp hr result nearEnd
  rw [hempty] at aoff acnt
  simp only [List.length_nil, Nat.cast_zero, add_zero, ne_eq, not_true_eq_false,
    if_false] at aoff acnt
  have hterm : terminal (afterPage env w id request result nearEnd) := by
    unfold terminal
    rw [aoff, acnt]
    exact ⟨hinv.1, le_refl _⟩
  have hz := aiff.mpr hterm
  have hout : outstandingDialogs (afterPage env w id request result nearEnd) = [] := by
    rw [ainv.2.1, if_pos hz]
  obtain ⟨s1, s2, s3, _, s5, _⟩ := terminal_stable env _ w' hfut hz hterm hout
  have hterm' : terminal w' := by
    unfold terminal at *
    rw [s2, s3]; exact hterm
  have hpz : (pageHandled env result (MTP.answered id request w)).dlgPreloading = 0 := rfl
  have hpt : terminal (pageHandled env result (MTP.answered id request w)) := by
    have : afterPage env w id request result nearEnd
        = loadDialogs env (pageHandled env result (MTP.answered id request w)) := by
      obtain ⟨hne, _, _, _⟩ := pending_answered env w hinv id request hp hr
      exact dialogsReceived_eq env result nearEnd _ hne
    rw [this, terminal_loadDialogs] at hterm
    exact hterm
  refine ⟨acnt, aoff, ?_, ?_, s5, ?_, ?_⟩
  · rw [asent, loadDialogs_terminal env _ hpz hpt]
    have := (loadConfig_fields (pageHandled env result (MTP.answered id request w))).2.2.2.1
    unfold sentDialogs at *
    rw [this]
    exact sentDialogs_pageHandled env result (MTP.answered id request w)
  · rw [s3, s2, acnt, aoff]
  · rw [loadDialogs_terminal env w' s1 hterm']
    exact (loadConfig_fields w').2.2.2.1
  · rw [loadDialogs_terminal env w' s1 hterm']
    exact (loadConfig_fields w').2.2.2.2.1

/-- Witness for C7: the first request of `env50` is answered by an empty slice that states
the count 100; the later state is the one after one more `loadDialogs` call. -/
theorem empty_page_is_terminal_witness :
    (∀ k, env50.requestId k ≠ 0) ∧ Reachable env50 firstRequested ∧
      (1, firstRequest) ∈ firstRequested.pending ∧ firstRequest.isGetDialogs = true ∧
      (MTPmessages_Dialogs.messages_dialogsSlice 100 []).vdialogs = [] ∧
      (afterPage env50 firstRequested 1 firstRequest
        (MTPmessages_Dialogs.messages_dialogsSlice 100 []) true).dlgCount = 0 ∧
      (loadDialogs env50 (loadDialogs env50 (afterPage env50 firstRequested 1 firstRequest
        (MTPmessages_Dialogs.messages_dialogsSlice 100 []) true))).sent
        = (loadDialogs env50 (afterPage env50 firstRequested 1 firstRequest
            (MTPmessages_Dialogs.messages_dialogsSlice 100 []) true)).sent :=
  have h := empty_page_is_terminal env50 env50_ids firstRequested firstRequested_reachable 1
    firstRequest (by decide) rfl (MTPmessages_Dialogs.messages_dialogsSlice 100 []) rfl true
    (loadDialogs env50 (afterPage env50 firstRequested 1 firstRequest
      (MTPmessages_Dialogs.messages_dialogsSlice 100 []) true))
    (ReachableFrom.next _ _ Event.loadDialogs ReachableFrom.refl rfl)
  ⟨env50_ids, firstRequested_reachable, by decide, rfl, rfl, h.1, h.2.2.2.2.2.1⟩

/-- C8: dialogs page failure.  When the pending dialogs request fails, `dialogsFailed` clears
the in-flight marker, leaves `dlgOffset` and `dlgCount` unchanged and issues no request
itself; the next `loadDialogs` call issues exactly one request, with the same offset and
the same page size as the failed one. -/
theorem dialogs_failure_retries_same_page (env : Env) (hid : ∀ k, env.requestId k ≠ 0)
    (w : DialogsWidget) (hw : Reachable env w) (id offset max_id limit : Int)
    (hp : (id, MTPRequest.messages_GetDialogs offset max_id limit) ∈ w.pending) :
    (afterFailure w id (MTPRequest.messages_GetDialogs offset max_id limit)).dlgPreloading = 0 ∧
      (afterFailure w id (MTPRequest.messages_GetDialogs offset max_id limit)).dlgOffset
        = w.dlgOffset ∧
      (afterFailure w id (MTPRequest.messages_GetDialogs offset max_id limit)).dlgCount
        = w.dlgCount ∧
      (afterFailure w id (MTPRequest.messages_GetDialogs offset max_id limit)).sent = w.sent ∧
      outstandingDialogs (afterFailure w id (MTPRequest.messages_GetDialogs offset max_id limit))
        = [] ∧
      (loadDialogs env
          (afterFailure w id (MTPRequest.messages_GetDialogs offset max_id limit))).sent
        = w.sent ++ [MTPRequest.messages_GetDialogs offset max_id limit] := by
  have hinv := cursorInv_reachable env hid w hw
  obtain ⟨hne, _, hreq, hout⟩ := pending_answered env w hinv id _ hp rfl
  have hnt : ¬ terminal w := hinv.2.2 hne
  have hz : (afterFailure w id (MTPRequest.messages_GetDialogs offset max_id limit)).dlgPreloading
      = 0 := rfl
  have hnt' : ¬ terminal (afterFailure w id (MTPRequest.messages_GetDialogs offset max_id limit)) :=
    hnt
  refine ⟨rfl, rfl, rfl, rfl, hout, ?_⟩
  rw [loadDialogs_send env _ hz hnt', hreq]
  rfl

/-- Witness for C8: the first request of `env50` fails. -/
theorem dialogs_failure_retries_same_page_witness :
    (∀ k, env50.requestId k ≠ 0) ∧ Reachable env50 firstRequested ∧
      (1, MTPRequest.messages_GetDialogs 0 0 50) ∈ firstRequested.pending ∧
      (loadDialogs env50
          (afterFailure firstRequested 1 (MTPRequest.messages_GetDialogs 0 0 50))).sent
        = firstRequested.sent ++ [MTPRequest.messages_GetDialogs 0 0 50] :=
  ⟨env50_ids, firstRequested_reachable, by decide,
    (dialogs_failure_retries_same_page env50 env50_ids firstRequested firstRequested_reachable
      1 0 0 50 (by decide)).2.2.2.2.2⟩

theorem toInt32_of_range (x : Int) (h1 : INT32_MIN ≤ x) (h2 : x ≤ INT32_MAX) :
    toInt32 x = x := by
  unfold toInt32
  unfold INT32_MIN at h1
  unfold INT32_MAX at h2
  omega

/-- C9 (as amended): on a successful dialogs page carrying `n` entries, from a state whose
offset is an `int32` and for which the sum `dlgOffset + n` does not exceed `INT32_MAX`, the
offset advances by exactly `n`, the number of entries received, while only the entries of
type `mtpc_dialog` are merged into the list: `dlgOffset` after `= dlgOffset` before `+ n`,
which is also the `int32` the statement `dlgOffset += dlgList->size()` stores.  On such a
page the offset does not decrease; `loadDialogs` and `dialogsFailed` leave it as it is. -/
theorem dialogs_offset_advances (env : Env) (result : MTPmessages_Dialogs) (nearEnd : Bool)
    (w : DialogsWidget) (hmin : INT32_MIN ≤ w.dlgOffset)
    (hmax : w.dlgOffset + result.vdialogs.length ≤ INT32_MAX) :
    (dialogsReceived env result nearEnd w).dlgOffset = w.dlgOffset + result.vdialogs.length ∧
      (dialogsReceived env result nearEnd w).dlgOffset
        = advanceOffset w.dlgOffset result.vdialogs.length ∧
      (dialogsReceived env result nearEnd w).dialogs
        = DialogsListWidget.dialogsReceived env result.vdialogs w.dialogs ∧
      w.dlgOffset ≤ (dialogsReceived env result nearEnd w).dlgOffset ∧
      (loadDialogs env w).dlgOffset = w.dlgOffset ∧
      (dialogsFailed w).dlgOffset = w.dlgOffset := by
  have hwrap : advanceOffset w.dlgOffset result.vdialogs.length
      = w.dlgOffset + result.vdialogs.length := by
    unfold advanceOffset
    exact toInt32_of_range _ (by omega) hmax
  have key : (dialogsReceived env result nearEnd w).dlgOffset
        = w.dlgOffset + result.vdialogs.length ∧
      (dialogsReceived env result nearEnd w).dialogs
        = DialogsListWidget.dialogsReceived env result.vdialogs w.dialogs := by
    unfold dialogsReceived onListScroll MTP.send
    rcases result with v | ⟨c, v⟩ <;> cases nearEnd <;>
      by_cases hc : w.contactsRequest = 0 <;> by_cases hv : v = [] <;>
      simp [hc, hv, loadDialogs_fields, MTPmessages_Dialogs.vdialogs]
  refine ⟨key.1, key.1.trans hwrap.symm, key.2, ?_, (loadDialogs_fields env w).1, rfl⟩
  rw [key.1]
  omega

/-- Witness for C9 as amended: the first page of 50 entries, stating the count 200, arrives
at offset 0. -/
theorem dialogs_offset_advances_witness :
    INT32_MIN ≤ firstRequested.dlgOffset ∧
      firstRequested.dlgOffset
          + (MTPmessages_Dialogs.messages_dialogsSlice 200 (page 50)).vdialogs.length
        ≤ INT32_MAX ∧
      (dialogsReceived env50 (MTPmessages_Dialogs.messages_dialogsSlice 200 (page 50)) false
        firstRequested).dlgOffset = 50 :=
  ⟨by decide, by decide,
    (dialogs_offset_advances env50 (MTPmessages_Dialogs.messages_dialogsSlice 200 (page 50))
      false firstRequested (by decide) (by decide)).1.trans (by decide)⟩

/-- C9 as stated fails: `dlgOffset` is an `int32`.  At the offset `2147483646` a page of 3
entries makes `dlgOffset += dlgList->size()` pass `INT32_MAX`; the value stored is
`-2147483647`, which is not `2147483646 + 3` and is lower than the offset before. -/
theorem offset_wraps_at_int32_max :
    INT32_MIN ≤ 2147483646 ∧ (2147483646 : Int) ≤ INT32_MAX ∧
      advanceOffset 2147483646 (page 3).length = -2147483647 ∧
      advanceOffset 2147483646 (page 3).length ≠ 2147483646 + ((page 3).length : Int) ∧
      advanceOffset 2147483646 (page 3).length < 2147483646 := by
  decide

/-- C10 (as amended): after a successful dialogs page has been handled, `dialogsReceived`
has cleared the in-flight marker and then called `loadDialogs` itself.  When it returns, the
offset has advanced by the number of entries received, and the cursor is not in flight (and
no dialogs request is outstanding) exactly when the terminal test
`dlgCount >= 0 && dlgOffset >= dlgCount` holds; otherwise exactly one dialogs request, the
one for the page at the new offset, is already outstanding. -/
theorem page_success_chains_next_load (env : Env) (hid : ∀ k, env.requestId k ≠ 0)
    (w : DialogsWidget) (hw : Reachable env w) (id : Int) (request : MTPRequest)
    (hp : (id, request) ∈ w.pending) (hr : request.isGetDialogs = true)
    (result : MTPmessages_Dialogs) (nearEnd : Bool) :
    (afterPage env w id request result nearEnd).dlgOffset
        = w.dlgOffset + result.vdialogs.length ∧
      ((afterPage env w id request result nearEnd).dlgPreloading = 0 ↔
        terminal (afterPage env w id request result nearEnd)) ∧
      outstandingDialogs (afterPage env w id request result nearEnd) =
        (if terminal (afterPage env w id request result nearEnd) then []
         else [((afterPage env w id request result nearEnd).dlgPreloading,
            MTPRequest.messages_GetDialogs
              (afterPage env w id request result nearEnd).dlgOffset 0
              (loadCount env (afterPage env w id request result nearEnd)))]) := by
  have hinv := cursorInv_reachable env hid w hw
  obtain ⟨ainv, aiff, aoff, _, _⟩ :=
    afterPage_facts env hid w hinv id request hp hr result nearEnd
  refine ⟨aoff, aiff, ?_⟩
  rw [ainv.2.1]
  by_cases hz : (afterPage env w id request result nearEnd).dlgPreloading = 0
  · rw [if_pos hz, if_pos (aiff.mp hz)]
  · rw [if_neg hz, if_neg (fun t => hz (aiff.mpr t))]

/-- Witness for C10 as amended: 50 entries arrive at offset 0 in a slice that states the
count 100. -/
theorem page_success_chains_next_load_witness :
    (∀ k, env50.requestId k ≠ 0) ∧ Reachable env50 firstRequested ∧
      (1, firstRequest) ∈ firstRequested.pending ∧ firstRequest.isGetDialogs = true ∧
      ((afterPage env50 firstRequested 1 firstRequest
          (MTPmessages_Dialogs.messages_dialogsSlice 100 (page 50)) false).dlgPreloading = 0 ↔
        terminal (afterPage env50 firstRequested 1 firstRequest
          (MTPmessages_Dialogs.messages_dialogsSlice 100 (page 50)) false)) :=
  ⟨env50_ids, firstRequested_reachable, by decide, rfl,
    (page_success_chains_next_load env50 env50_ids firstRequested firstRequested_reachable 1
      firstRequest (by decide) rfl (MTPmessages_Dialogs.messages_dialogsSlice 100 (page 50))
      false).2.1⟩

/-- C10 as stated fails: with pages of 50, the first request (offset 0) is answered by a
slice of 50 entries that states the count 100.  When `dialogsReceived` returns, the offset is
50, `dlgPreloading` is the id 3 of a new request and that request, for the page at offset
50, is outstanding, although no caller has triggered anything. -/
theorem full_page_leaves_request_in_flight :
    step env50 firstRequested
        (Event.dialogsDone 1 firstRequest
          (MTPmessages_Dialogs.messages_dialogsSlice 100 (page 50)) false)
        = some (afterPage env50 firstRequested 1 firstRequest
            (MTPmessages_Dialogs.messages_dialogsSlice 100 (page 50)) false) ∧
      (afterPage env50 firstRequested 1 firstRequest
        (MTPmessages_Dialogs.messages_dialogsSlice 100 (page 50)) false).dlgOffset = 50 ∧
      ¬ ((afterPage env50 firstRequested 1 firstRequest
        (MTPmessages_Dialogs.messages_dialogsSlice 100 (page 50)) false).dlgPreloading = 0) ∧
      outstandingDialogs (afterPage env50 firstRequested 1 firstRequest
        (MTPmessages_Dialogs.messages_dialogsSlice 100 (page 50)) false)
        = [(3, MTPRequest.messages_GetDialogs 50 0 50)] := by
  decide

theorem secondRequested_reachable : Reachable env50 secondRequested :=
  ReachableFrom.next _ _
    (Event.dialogsDone 1 firstRequest (MTPmessages_Dialogs.messages_dialogsSlice 200 (page 50))
      false)
    firstRequested_reachable (by decide)

/-- C11 (as amended): when a successful dialogs page carries a non-zero number of entries,
fewer than were requested or not, `dlgCount` becomes the count the response states (the
length of the list for `messages_dialogs`, `vcount` for `messages_dialogsSlice`), not the new
offset, and the offset advances by the number of entries.  The cursor is then terminal, with
nothing in flight and no request issued by the next trigger, exactly when that count is
non-negative and not above the new offset; otherwise `dialogsReceived` has already sent the
request for the page at the new offset. -/
theorem short_page_takes_stated_count (env : Env) (hid : ∀ k, env.requestId k ≠ 0)
    (w : DialogsWidget) (hw : Reachable env w) (id : Int) (request : MTPRequest)
    (hp : (id, request) ∈ w.pending) (hr : request.isGetDialogs = true)
    (result : MTPmessages_Dialogs) (hn : result.vdialogs.length ≠ 0) (nearEnd : Bool) :
    (afterPage env w id request result nearEnd).dlgOffset
        = w.dlgOffset + result.vdialogs.length ∧
      (afterPage env w id request result nearEnd).dlgCount = statedCount result ∧
      ((afterPage env w id request result nearEnd).dlgPreloading = 0 ↔
        (0 ≤ statedCount result ∧ statedCount result ≤ w.dlgOffset + result.vdialogs.length)) ∧
      (loadDialogs env (afterPage env w id request result nearEnd)).sent
        = (afterPage env w id request result nearEnd).sent ∧
      sentDialogs (afterPage env w id request result nearEnd) =
        (if 0 ≤ statedCount result ∧ statedCount result ≤ w.dlgOffset + result.vdialogs.length
         then sentDialogs w
         else sentDialogs w ++
          [MTPRequest.messages_GetDialogs (w.dlgOffset + result.vdialogs.length) 0
            env.DialogsPerPage]) := by
  have hinv := cursorInv_reachable env hid w hw
  obtain ⟨_, aiff, aoff, acnt, asent⟩ :=
    afterPage_facts env hid w hinv id request hp hr result nearEnd
  rw [if_pos hn] at acnt
  have hterm : terminal (afterPage env w id request result nearEnd) ↔
      (0 ≤ statedCount result ∧ statedCount result ≤ w.dlgOffset + result.vdialogs.length) := by
    unfold terminal
    rw [aoff, acnt]
  have hpz : (pageHandled env result (MTP.answered id request w)).dlgPreloading = 0 := rfl
  have hpt : terminal (pageHandled env result (MTP.answered id request w)) ↔
      (0 ≤ statedCount result ∧ statedCount result ≤ w.dlgOffset + result.vdialogs.length) := by
    unfold terminal pageHandled
    simp only [hn, ne_eq, not_false_eq_true, if_true]
    exact Iff.rfl
  refine ⟨aoff, acnt, aiff.trans hterm, ?_, ?_⟩
  · by_cases hz : (afterPage env w id request result nearEnd).dlgPreloading = 0
    · rw [loadDialogs_terminal env _ hz (aiff.mp hz)]
      exact (loadConfig_fields _).2.2.2.1
    · rw [loadDialogs_inflight env _ hz]
  · rw [asent]
    by_cases ht : 0 ≤ statedCount result ∧
        statedCount result ≤ w.dlgOffset + result.vdialogs.length
    · rw [if_pos ht, loadDialogs_terminal env _ hpz (hpt.mpr ht)]
      have := (loadConfig_fields (pageHandled env result (MTP.answered id request w))).2.2.2.1
      unfold sentDialogs at *
      rw [this]
      exact sentDialogs_pageHandled env result (MTP.answered id request w)
    · rw [if_neg ht, loadDialogs_send env _ hpz (fun t => ht (hpt.mp t))]
      have hs := sentDialogs_pageHandled env result (MTP.answered id request w)
      have hoff : (pageHandled env result (MTP.answered id request w)).dlgOffset
          = w.dlgOffset + result.vdialogs.length := rfl
      have hlc : loadCount env (pageHandled env result (MTP.answered id request w))
          = env.DialogsPerPage := by
        unfold loadCount
        rw [hoff, if_pos]
        have := hinv.1
        have : (0 : Int) < result.vdialogs.length := by
          have := Nat.pos_of_ne_zero hn
          omega
        omega
      unfold sentDialogs at *
      simp only [List.filter_append, hs, hoff, hlc]
      rfl

/-- Witness for C11 as amended: at offset 50, three entries arrive in a slice that states
the count 53. -/
theorem short_page_takes_stated_count_witness :
    (∀ k, env50.requestId k ≠ 0) ∧ Reachable env50 secondRequested ∧
      (3, secondRequest) ∈ secondRequested.pending ∧ secondRequest.isGetDialogs = true ∧
      (MTPmessages_Dialogs.messages_dialogsSlice 53 (page 3)).vdialogs.length ≠ 0 ∧
      (afterPage env50 secondRequested 3 secondRequest
        (MTPmessages_Dialogs.messages_dialogsSlice 53 (page 3)) false).dlgCount = 53 :=
  ⟨env50_ids, secondRequested_reachable, by decide, rfl, by decide,
    (short_page_takes_stated_count env50 env50_ids secondRequested secondRequested_reachable 3
      secondRequest (by decide) rfl (MTPmessages_Dialogs.messages_dialogsSlice 53 (page 3))
      (by decide) false).2.1⟩

/-- C11 as stated fails: at offset 50 the request for 50 entries is answered with 3.  As a
`messages_dialogs` list the count becomes 3; as a slice that states the count 200 the count
becomes 200 and the request for the page at offset 53 is sent.  In neither case does
`dlgCount` become the new offset 53. -/
theorem short_page_count_is_not_offset :
    (3, secondRequest) ∈ secondRequested.pending ∧
      secondRequested.dlgOffset = 50 ∧
      (afterPage env50 secondRequested 3 secondRequest
        (MTPmessages_Dialogs.messages_dialogs (page 3)) false).dlgOffset = 53 ∧
      (afterPage env50 secondRequested 3 secondRequest
        (MTPmessages_Dialogs.messages_dialogs (page 3)) false).dlgCount = 3 ∧
      (afterPage env50 secondRequested 3 secondRequest
        (MTPmessages_Dialogs.messages_dialogsSlice 200 (page 3)) false).dlgOffset = 53 ∧
      (afterPage env50 secondRequested 3 secondRequest
        (MTPmessages_Dialogs.messages_dialogsSlice 200 (page 3)) false).dlgCount = 200 ∧
      outstandingDialogs (afterPage env50 secondRequested 3 secondRequest
        (MTPmessages_Dialogs.messages_dialogsSlice 200 (page 3)) false)
        = [(4, MTPRequest.messages_GetDialogs 53 0 50)] := by
  decide

theorem requestContacts_config (env : Env) (w : DialogsWidget) :
    (requestContacts env w)._configLoaded = w._configLoaded ∧
      (requestContacts env w).configLoads = w.configLoads := by
  unfold requestContacts
  split <;> exact ⟨rfl, rfl⟩

theorem configInv_init : ConfigInv DialogsWidget.init := by
  refine ⟨rfl, ?_⟩
  unfold idleTerminal terminal
  decide

theorem configInv_loadDialogs_fresh (env : Env) (hid : ∀ k, env.requestId k ≠ 0)
    (v : DialogsWidget) (hl : v._configLoaded = false) (hc : v.configLoads = 0)
    (hz : v.dlgPreloading = 0) : ConfigInv (loadDialogs env v) := by
  by_cases ht : terminal v
  · rw [loadDialogs_terminal env v hz ht]
    obtain ⟨e1, e2, e3, _, _, _, _⟩ := loadConfig_fields v
    have hload : (loadConfig v)._configLoaded = true ∧ (loadConfig v).configLoads = 1 := by
      unfold loadConfig
      simp [hl, hc]
    refine ⟨by rw [hload.1, hload.2]; rfl, fun _ => ?_, fun _ => hload.1⟩
    unfold idleTerminal terminal
    rw [e1, e2, e3]
    exact ⟨hz, ht⟩
  · rw [loadDialogs_send env v hz ht]
    refine ⟨?_, fun h => ?_, fun h => ?_⟩
    · show v.configLoads = if v._configLoaded = true then 1 else 0
      rw [hl, hc]; rfl
    · have : v._configLoaded = true := h
      rw [hl] at this
      cases this
    · exact absurd h.1 (hid v.sent.length)

theorem configInv_loadDialogs (env : Env) (hid : ∀ k, env.requestId k ≠ 0)
    (w : DialogsWidget) (h : ConfigInv w) : ConfigInv (loadDialogs env w) := by
  by_cases hz : w.dlgPreloading = 0
  · by_cases hl : w._configLoaded = true
    · have hit := h.2.mp hl
      rw [loadDialogs_terminal env w hz hit.2]
      have : loadConfig w = w := by
        unfold loadConfig
        simp [hl]
      rw [this]
      exact h
    · have hl' : w._configLoaded = false := by simpa using hl
      have hc : w.configLoads = 0 := by rw [h.1, hl']; rfl
      exact configInv_loadDialogs_fresh env hid w hl' hc hz
  · rw [loadDialogs_inflight env w hz]
    exact h

theorem configInv_inflight (w : DialogsWidget) (h : ConfigInv w) (hne : w.dlgPreloading ≠ 0) :
    w._configLoaded = false ∧ w.configLoads = 0 := by
  have hl : w._configLoaded = false := by
    by_cases hl : w._configLoaded = true
    · exact absurd (h.2.mp hl).1 hne
    · simpa using hl
  exact ⟨hl, by rw [h.1, hl]; rfl⟩

theorem configInv_step (env : Env) (hid : ∀ k, env.requestId k ≠ 0) (w w' : DialogsWidget)
    (e : Event) (hs : step env w e = some w') (hc : CursorInv env w) (h : ConfigInv w) :
    ConfigInv w' := by
  cases e with
  | loadDialogs =>
    simp only [step, Option.some.injEq] at hs
    subst hs
    exact configInv_loadDialogs env hid w h
  | dialogsDone id request result nearEnd =>
    simp only [step] at hs
    split at hs
    · rename_i hm
      simp only [Option.some.injEq] at hs
      subst hs
      obtain ⟨hne, _, _, _⟩ := pending_answered env w hc id request hm.1 hm.2
      obtain ⟨hl, hcl⟩ := configInv_inflight w h hne
      rw [dialogsReceived_eq env result nearEnd (MTP.answered id request w) hne]
      obtain ⟨r1, r2⟩ := requestContacts_config env (MTP.answered id request w)
      exact configInv_loadDialogs_fresh env hid _ (r1.trans hl) (r2.trans hcl) rfl
    · cases hs
  | dialogsFail id request =>
    simp only [step] at hs
    split at hs
    · rename_i hm
      simp only [Option.some.injEq] at hs
      subst hs
      obtain ⟨hne, _, _, _⟩ := pending_answered env w hc id request hm.1 hm.2
      obtain ⟨hl, hcl⟩ := configInv_inflight w h hne
      have hnt : ¬ terminal w := hc.2.2 hne
      refine ⟨?_, fun t => ?_, fun t => ?_⟩
      · show w.configLoads = if w._configLoaded = true then 1 else 0
        rw [hl, hcl]; rfl
      · have : w._configLoaded = true := t
        rw [hl] at this
        cases this
      · exact absurd t.2 hnt
    · cases hs

theorem configInv_reachable (env : Env) (hid : ∀ k, env.requestId k ≠ 0) (w : DialogsWidget)
    (hr : Reachable env w) : ConfigInv w := by
  have key : ∀ v, ReachableFrom env DialogsWidget.init v → CursorInv env v ∧ ConfigInv v := by
    intro v hv
    induction hv with
    | refl => exact ⟨cursorInv_init env, configInv_init⟩
    | next w₁ w₂ e _ hs ih =>
      exact ⟨cursorInv_step env hid w₁ w₂ e hs ih.1, configInv_step env hid w₁ w₂ e hs ih.1 ih.2⟩
  exact (key w hr).2

theorem loadDialogs_idleTerminal (env : Env) (v : DialogsWidget) (h : idleTerminal v) :
    (loadDialogs env v).sent = v.sent ∧ (loadDialogs env v).pending = v.pending ∧
      (loadDialogs env v).dlgOffset = v.dlgOffset ∧ (loadDialogs env v).dlgCount = v.dlgCount ∧
      (loadDialogs env v).dlgPreloading = v.dlgPreloading ∧
      (loadDialogs env v)._configLoaded = true ∧
      (loadDialogs env v).configLoads
        = (if v._configLoaded = true then v.configLoads else v.configLoads + 1) := by
  rw [loadDialogs_terminal env v h.1 h.2]
  obtain ⟨e1, e2, e3, e4, e5, _, _⟩ := loadConfig_fields v
  refine ⟨e4, e5, e1, e2, e3, ?_, ?_⟩
  · unfold loadConfig
    by_cases hl : v._configLoaded = true <;> simp [hl]
  · unfold loadConfig
    by_cases hl : v._configLoaded = true <;> simp [hl]

/-- C12: the terminal trigger.  When nothing is in flight, `dlgCount` is known and
`dlgOffset >= dlgCount`, a `loadDialogs` call issues no request and leaves `dlgOffset`,
`dlgCount` and `dlgPreloading` unchanged; it starts the config load if and only if
`_configLoaded` is not yet set, and sets it.  Over the reachable states the config load has
happened at most once, and it has happened exactly when the cursor is idle and terminal: the
first `loadDialogs` call that finds the cursor terminal starts it and no later call does. -/
theorem terminal_trigger_loads_config_once (env : Env) (hid : ∀ k, env.requestId k ≠ 0)
    (w : DialogsWidget) (hw : Reachable env w) :
    w.configLoads ≤ 1 ∧
      (w.configLoads = 1 ↔ idleTerminal w) ∧
      (∀ v : DialogsWidget, idleTerminal v →
        (loadDialogs env v).sent = v.sent ∧ (loadDialogs env v).pending = v.pending ∧
        (loadDialogs env v).dlgOffset = v.dlgOffset ∧
        (loadDialogs env v).dlgCount = v.dlgCount ∧
        (loadDialogs env v).dlgPreloading = v.dlgPreloading ∧
        (loadDialogs env v)._configLoaded = true ∧
        (loadDialogs env v).configLoads
          = (if v._configLoaded = true then v.configLoads else v.configLoads + 1)) ∧
      (idleTerminal w → (loadDialogs env w).configLoads = 1) := by
  obtain ⟨h1, h2⟩ := configInv_reachable env hid w hw
  refine ⟨?_, ?_, loadDialogs_idleTerminal env, ?_⟩
  · rw [h1]; split <;> omega
  · rw [h1, ← h2]
    by_cases hl : w._configLoaded = true <;> simp [hl]
  · intro hit
    have hl := h2.mpr hit
    rw [(loadDialogs_idleTerminal env w hit).2.2.2.2.2.2, if_pos hl, h1, if_pos hl]

/-- Witness for C12: the first request of `env50` was answered by an empty slice; the
closing `loadDialogs` call of `dialogsReceived` found the cursor terminal and started the
config load, and one more trigger does not start it again. -/
theorem terminal_trigger_loads_config_once_witness :
    (∀ k, env50.requestId k ≠ 0) ∧ Reachable env50 emptyAnswered ∧
      idleTerminal emptyAnswered ∧ emptyAnswered.configLoads = 1 ∧
      (loadDialogs env50 emptyAnswered).configLoads = 1 :=
  have hr : Reachable env50 emptyAnswered :=
    ReachableFrom.next _ _
      (Event.dialogsDone 1 firstRequest (MTPmessages_Dialogs.messages_dialogsSlice 100 []) true)
      firstRequested_reachable (by decide)
  have h := terminal_trigger_loads_config_once env50 env50_ids emptyAnswered hr
  ⟨env50_ids, hr, by decide, h.2.1.mpr (by decide), h.2.2.2 (by decide)⟩

/-- C13, at the failing input: with `env50` the first dialogs page sends the contacts
request (id 2).  That request fails: `contactsFailed` leaves `contactsRequest` at 2 although
no contacts request is pending any more.  The next dialogs page is handled, and since
`contactsRequest` is not `0` no contacts request is sent again: the one of the first page
remains the only one ever sent. -/
theorem contacts_failure_is_never_retried :
    (2, MTPRequest.contacts_GetContacts) ∈ secondRequested.pending ∧
      (afterContactsFailure secondRequested 2).contactsRequest = 2 ∧
      outstandingContacts (afterContactsFailure secondRequested 2) = [] ∧
      (3, secondRequest) ∈ (afterContactsFailure secondRequested 2).pending ∧
      (afterPage env50 (afterContactsFailure secondRequested 2) 3 secondRequest
        (MTPmessages_Dialogs.messages_dialogsSlice 200 (page 50)) false).contactsRequest = 2 ∧
      sentContacts (afterPage env50 (afterContactsFailure secondRequested 2) 3 secondRequest
        (MTPmessages_Dialogs.messages_dialogsSlice 200 (page 50)) false)
        = [MTPRequest.contacts_GetContacts] ∧
      outstandingContacts (afterPage env50 (afterContactsFailure secondRequested 2) 3
        secondRequest (MTPmessages_Dialogs.messages_dialogsSlice 200 (page 50)) false) = [] := by
  decide

theorem loadDialogs_contacts (env : Env) (v : DialogsWidget) :
    (loadDialogs env v).contactsRequest = v.contactsRequest ∧
      sentContacts (loadDialogs env v) = sentContacts v := by
  by_cases hp : v.dlgPreloading = 0
  · by_cases ht : terminal v
    · rw [loadDialogs_terminal env v hp ht]
      obtain ⟨_, _, _, e4, _, e6, _⟩ := loadConfig_fields v
      refine ⟨e6, ?_⟩
      unfold sentContacts
      rw [e4]
    · rw [loadDialogs_send env v hp ht]
      refine ⟨rfl, ?_⟩
      unfold sentContacts
      simp [List.filter_append, MTPRequest.isGetDialogs]
  · rw [loadDialogs_inflight env v hp]
    exact ⟨rfl, rfl⟩

/-- Support for C13: whatever the state, once `contactsRequest` is not `0` neither
`contactsFailed` nor a handled dialogs page sends a contacts request or clears it. -/
theorem contacts_request_sent_once (env : Env) (result : MTPmessages_Dialogs) (nearEnd : Bool)
    (w : DialogsWidget) (h : w.contactsRequest ≠ 0) :
    (contactsFailed w).contactsRequest = w.contactsRequest ∧
      (dialogsReceived env result nearEnd w).contactsRequest = w.contactsRequest ∧
      sentContacts (dialogsReceived env result nearEnd w) = sentContacts w := by
  refine ⟨rfl, ?_, ?_⟩
  · unfold dialogsReceived onListScroll
    rcases result with v | ⟨c, v⟩ <;> cases nearEnd <;> by_cases hv : v = [] <;>
      simp [h, hv, (loadDialogs_contacts env _).1]
  · unfold dialogsReceived onListScroll
    rcases result with v | ⟨c, v⟩ <;> cases nearEnd <;> by_cases hv : v = [] <;>
      simp [h, hv, (loadDialogs_contacts env _).2] <;>
      first
        | rfl
        | (show sentContacts (loadDialogs env _) = _
           rw [(loadDialogs_contacts env _).2]; rfl)

/-! ### Lemmas on `readClients` -/

theorem applyUnit_toSend (g : Globals) (st : ReadState) (u : QString) :
    (applyUnit g st u).toSend
      = st.toSend ++ (if g.cSendPaths.isEmpty = true then sendOf u else []) := by
  unfold applyUnit sendOf
  by_cases h1 : startsWith u qCMD = true <;> by_cases h2 : startsWith u qSEND = true <;>
    by_cases h3 : startsWith u qOPEN = true <;>
    by_cases hg : g.cSendPaths.isEmpty = true <;>
    by_cases hu : g.cStartUrl.isEmpty = true <;>
    simp [classify, h1, h2, h3, hg, hu]

theorem applyUnit_startUrl (g : Globals) (st : ReadState) (u : QString) :
    (applyUnit g st u).startUrl
      = (if g.cStartUrl.isEmpty = true then openOf st.startUrl u else st.startUrl) := by
  unfold applyUnit openOf
  by_cases h1 : startsWith u qCMD = true <;> by_cases h2 : startsWith u qSEND = true <;>
    by_cases h3 : startsWith u qOPEN = true <;>
    by_cases hg : g.cSendPaths.isEmpty = true <;>
    by_cases hu : g.cStartUrl.isEmpty = true <;>
    simp [classify, h1, h2, h3, hg, hu]

theorem foldl_applyUnit_toSend (g : Globals) (us : List QString) : ∀ st : ReadState,
    (us.foldl (applyUnit g) st).toSend
      = st.toSend ++ (if g.cSendPaths.isEmpty = true then sendPayloads us else []) := by
  induction us with
  | nil => intro st; simp [sendPayloads]
  | cons u us ih =>
    intro st
    rw [List.foldl_cons, ih, applyUnit_toSend]
    by_cases hg : g.cSendPaths.isEmpty = true <;> simp [hg, sendPayloads]

theorem foldl_applyUnit_startUrl (g : Globals) (us : List QString) : ∀ st : ReadState,
    (us.foldl (applyUnit g) st).startUrl
      = (if g.cStartUrl.isEmpty = true then us.foldl openOf st.startUrl else st.startUrl) := by
  induction us with
  | nil => intro st; simp
  | cons u us ih =>
    intro st
    rw [List.foldl_cons, ih, applyUnit_startUrl]
    by_cases hu : g.cStartUrl.isEmpty = true <;> simp [hu]

/-- The loop over the clients in closed form: it always returns, every client keeps what
its pass retains, and the loop body has been applied to the units of all clients in
order. -/
theorem readClientsLoop_eq (g : Globals) (cs : List LocalClient) : ∀ st : ReadState,
    readClientsLoop g cs st =
      some (cs.map (fun c =>
          { readable := [], second := retainedOf (c.second ++ c.readable) }),
        (allUnits cs).foldl (applyUnit g) st) := by
  induction cs with
  | nil => intro st; rfl
  | cons c cs ih =>
    intro st
    simp only [readClientsLoop, readClient_eq, ih, List.map_cons, allUnits, List.foldl_append]

theorem readClients_eq (app : Application) :
    readClients app =
      some ({ _localClients := app._localClients.map (fun c =>
                { readable := [], second := retainedOf (c.second ++ c.readable) })
              globals := { app.globals with
                cSendPaths :=
                  if app.globals.cSendPaths.isEmpty = true then
                    sendPayloads (allUnits app._localClients)
                  else app.globals.cSendPaths
                cStartUrl :=
                  if app.globals.cStartUrl.isEmpty = true then
                    (allUnits app._localClients).foldl openOf []
                  else app.globals.cStartUrl } },
        (allUnits app._localClients).foldl (applyUnit app.globals) ReadState.init) := by
  unfold readClients
  rw [readClientsLoop_eq]
  simp only [foldl_applyUnit_toSend, foldl_applyUnit_startUrl, ReadState.init, List.nil_append]
  by_cases hg : app.globals.cSendPaths.isEmpty = true <;>
    by_cases hu : app.globals.cStartUrl.isEmpty = true
  · have hg' : app.globals.cSendPaths = [] := List.isEmpty_iff.mp hg
    have hu' : app.globals.cStartUrl = [] := List.isEmpty_iff.mp hu
    simp only [hg, hu, if_true, hg', hu', List.nil_append]
    by_cases h1 : sendPayloads (allUnits app._localClients) = [] <;>
      by_cases h2 : (allUnits app._localClients).foldl openOf [] = [] <;>
      simp [h1, h2]
  · have hg' : app.globals.cSendPaths = [] := List.isEmpty_iff.mp hg
    simp only [hg, hu, if_true, hg', List.nil_append]
    by_cases h1 : sendPayloads (allUnits app._localClients) = [] <;>
      by_cases h2 : app.globals.cStartUrl = [] <;>
      simp [h1, h2]
  · have hu' : app.globals.cStartUrl = [] := List.isEmpty_iff.mp hu
    simp only [hg, hu, if_true, hu']
    by_cases h2 : (allUnits app._localClients).foldl openOf [] = [] <;>
      simp [h2]
  · simp only [hg, hu]
    by_cases h2 : app.globals.cStartUrl = [] <;> simp [h2]

theorem foldl_openOf (us : List QString) : ∀ url : QString,
    us.foldl openOf url = url ∨
      ∃ u ∈ us, (classify u).1 = Prefix.OPEN ∧
        us.foldl openOf url = mid (_escapeFrom7bit (classify u).2) 0 8192 := by
  induction us with
  | nil => intro url; exact Or.inl rfl
  | cons v vs ih =>
    intro url
    rw [List.foldl_cons]
    rcases ih (openOf url v) with h | ⟨u, hu, ho, he⟩
    · by_cases hv : (classify v).1 = Prefix.OPEN
      · right
        refine ⟨v, List.mem_cons_self _ _, hv, ?_⟩
        rw [h]
        unfold openOf
        rw [if_pos hv]
      · left
        rw [h]
        unfold openOf
        rw [if_neg hv]
    · exact Or.inr ⟨u, List.mem_cons_of_mem _ hu, ho, he⟩

/-- C17 (as amended): in a `readClients` call the SEND units (resp. the OPEN units) change
the pending send paths (resp. the pending start URL) only if that state is empty when the
call runs; a state that is already non-empty is left unchanged.  Into empty send paths the
decoded payloads of all SEND units of the call are taken, in order; an empty start URL
stays empty or becomes the decoded payload, cut to 8192 characters, of an OPEN unit of the
call.  The units of the call are those of the text before the first NUL byte of each
client's buffer. -/
theorem pending_state_taken_when_empty (app : Application) :
    ∃ app' st, readClients app = some (app', st) ∧
      app'.globals.cSendPaths =
        (if app.globals.cSendPaths.isEmpty = true then
          sendPayloads (allUnits app._localClients)
         else app.globals.cSendPaths) ∧
      (app.globals.cStartUrl.isEmpty = false →
        app'.globals.cStartUrl = app.globals.cStartUrl) ∧
      (app.globals.cStartUrl.isEmpty = true →
        app'.globals.cStartUrl = [] ∨
          ∃ u ∈ allUnits app._localClients, (classify u).1 = Prefix.OPEN ∧
            app'.globals.cStartUrl = mid (_escapeFrom7bit (classify u).2) 0 8192) := by
  refine ⟨_, _, readClients_eq app, rfl, ?_, ?_⟩
  · intro h
    simp [h]
  · intro h
    simp only [h, if_true]
    exact foldl_openOf _ []

/-- C17 as stated fails: a server with empty pending state reads `SEND:a;SEND:b;OPEN:x;OPEN:y;`
from one client.  Both paths `a` and `b` become pending, not only the first, and the pending
start URL is `y`, the later OPEN unit having replaced `x`. -/
theorem later_units_are_merged_or_overwrite :
    readClients (serverWith
        (qSEND ++ [97, 59] ++ qSEND ++ [98, 59] ++ qOPEN ++ [120, 59] ++ qOPEN ++ [121, 59]))
      = some (
        { _localClients := [{ readable := [], second := [] }]
          globals := { cSendPaths := [[97], [98]], cStartUrl := [121], applicationPid := 7 } },
        { ReadState.init with
          startUrl := [121]
          toSend := [[97], [98]]
          units := [(Prefix.SEND, [97]), (Prefix.SEND, [98]), (Prefix.OPEN, [120]),
            (Prefix.OPEN, [121])] }) := by
  decide

theorem startsWith_qOPEN (u : QString) (h : startsWith u qOPEN = true) :
    startsWith u qCMD = false ∧ startsWith u qSEND = false := by
  obtain ⟨t, ht⟩ := List.isPrefixOf_iff_prefix.mp h
  subst ht
  constructor <;> simp [startsWith, qOPEN, qCMD, qSEND, List.isPrefixOf]

theorem mid_zero (s : QString) (n : Nat) : mid s 0 (n : Int) = s.take n := by
  unfold mid
  rw [if_neg (by omega)]
  simp

/-- C19: the OPEN length limit.  When the pending start URL is empty, the start URL the loop
body takes from an OPEN unit `cmds[from, to)` is `_escapeFrom7bit` of its payload cut to the
first 8192 characters: the limit applies to the unescaped text.  It is never longer than
8192 characters, and it is the whole unescaped payload whenever that has at most 8192
characters. -/
theorem open_url_limit (g : Globals) (cmds : QString) (frm : Nat) (upto : Int)
    (st : ReadState) (ho : startsWith (mid cmds frm (upto - frm)) qOPEN = true)
    (hg : g.cStartUrl = []) :
    (processUnit g cmds frm upto st).startUrl
        = (_escapeFrom7bit (mid cmds (frm + 5) (upto - frm - 5))).take 8192 ∧
      (processUnit g cmds frm upto st).startUrl.length ≤ 8192 ∧
      ((_escapeFrom7bit (mid cmds (frm + 5) (upto - frm - 5))).length ≤ 8192 →
        (processUnit g cmds frm upto st).startUrl
          = _escapeFrom7bit (mid cmds (frm + 5) (upto - frm - 5))) := by
  obtain ⟨h1, h2⟩ := startsWith_qOPEN _ ho
  have key : (processUnit g cmds frm upto st).startUrl
      = (_escapeFrom7bit (mid cmds (frm + 5) (upto - frm - 5))).take 8192 := by
    unfold processUnit
    simp only [h1, h2, ho, hg, Bool.false_eq_true, if_false, if_true, List.isEmpty_nil]
    exact mid_zero _ 8192
  refine ⟨key, ?_, fun hl => ?_⟩
  · rw [key, List.length_take]
    exact Nat.min_le_left _ _
  · rw [key]
    exact List.take_of_length_le hl

/-- Witness for C19: the unit `OPEN:%0041b` inside the buffer `x;OPEN:%0041b;`. -/
theorem open_url_limit_witness :
    startsWith (mid ([120, 59] ++ qOPEN ++ [37, 48, 48, 52, 49, 98, 59]) 2 ((13 : Int) - (2 : Nat)))
        qOPEN = true ∧
      (processUnit ⟨[], [], 7⟩ ([120, 59] ++ qOPEN ++ [37, 48, 48, 52, 49, 98, 59]) 2 13
        ReadState.init).startUrl = [65, 98] :=
  ⟨by decide,
    (open_url_limit ⟨[], [], 7⟩ ([120, 59] ++ qOPEN ++ [37, 48, 48, 52, 49, 98, 59]) 2 13
      ReadState.init (by decide) rfl).1.trans (by decide)⟩

/-- Support for C19: a URL of at most 8192 code units without `';'` arrives whole, although
its escaped form may be up to five times as long. -/
theorem open_url_survives (g : Globals) (s : QString) (st : ReadState) (hs : IsUtf16 s)
    (hl : s.length ≤ 8192) (hg : g.cStartUrl = []) :
    (applyUnit g st (qOPEN ++ _escapeTo7bit s)).startUrl = s := by
  have e1 : startsWith (qOPEN ++ _escapeTo7bit s) qCMD = false := by
    simp [startsWith, qOPEN, qCMD, List.isPrefixOf]
  have e2 : startsWith (qOPEN ++ _escapeTo7bit s) qSEND = false := by
    simp [startsWith, qOPEN, qSEND, List.isPrefixOf]
  have e3 : startsWith (qOPEN ++ _escapeTo7bit s) qOPEN = true := by
    simp [startsWith, qOPEN, List.isPrefixOf]
  have e4 : (qOPEN ++ _escapeTo7bit s).drop 5 = _escapeTo7bit s := by
    simp [qOPEN]
  unfold applyUnit
  simp only [e1, e2, e3, e4, hg, Bool.false_eq_true, if_false, if_true, List.isEmpty_nil,
    escapeFrom7bit_escapeTo7bit s hs]
  exact (mid_zero s 8192).trans (List.take_of_length_le hl)

theorem joinUnits_append (a b : List QString) :
    joinUnits (a ++ b) = joinUnits a ++ joinUnits b := by
  induction a with
  | nil => rfl
  | cons v vs ih =>
    show v ++ [59] ++ joinUnits (vs ++ b) = v ++ [59] ++ joinUnits vs ++ joinUnits b
    rw [ih]
    simp

/-- The loop body only appends to the logs of the state, and what it appends does not depend
on the state. -/
theorem applyUnit_appends (g : Globals) (v : QString) :
    ∃ (f : QString → QString) (a b : List QString) (c : List QByteArray) (d : List QString)
      (e : List (Prefix × QString)),
      ∀ st : ReadState, applyUnit g st v =
        { startUrl := f st.startUrl, toSend := st.toSend ++ a, executed := st.executed ++ b,
          written := st.written ++ c, unknownLog := st.unknownLog ++ d,
          units := st.units ++ e } := by
  by_cases h1 : startsWith v qCMD = true
  · exact ⟨id, [], [v.drop 4], [toLatin1 (qRES ++ decimal g.applicationPid ++ [59])], [],
      [(Prefix.CMD, v.drop 4)], fun st => by simp [applyUnit, h1]⟩
  · by_cases h2 : startsWith v qSEND = true
    · by_cases hg : g.cSendPaths.isEmpty = true
      · exact ⟨id, [_escapeFrom7bit (v.drop 5)], [], [], [], [(Prefix.SEND, v.drop 5)],
          fun st => by simp [applyUnit, h1, h2, hg]⟩
      · exact ⟨id, [], [], [], [], [(Prefix.SEND, v.drop 5)],
          fun st => by simp [applyUnit, h1, h2, hg]⟩
    · by_cases h3 : startsWith v qOPEN = true
      · by_cases hu : g.cStartUrl.isEmpty = true
        · exact ⟨fun _ => mid (_escapeFrom7bit (v.drop 5)) 0 8192, [], [], [], [],
            [(Prefix.OPEN, v.drop 5)], fun st => by simp [applyUnit, h1, h2, h3, hu]⟩
        · exact ⟨id, [], [], [], [], [(Prefix.OPEN, v.drop 5)],
            fun st => by simp [applyUnit, h1, h2, h3, hu]⟩
      · exact ⟨id, [], [], [], [v], [(Prefix.unknown, v)],
          fun st => by simp [applyUnit, h1, h2, h3]⟩

theorem sameButReport_applyUnit (g : Globals) (u v : QString) (st₁ st₂ : ReadState)
    (h : SameButReport u st₁ st₂) :
    SameButReport u (applyUnit g st₁ v) (applyUnit g st₂ v) := by
  obtain ⟨f, a, b, c, d, e, hv⟩ := applyUnit_appends g v
  obtain ⟨e1, e2, e3, e4, l₁, l₂, k₁, k₂, hl2, hl1, hk2, hk1⟩ := h
  rw [hv st₁, hv st₂]
  refine ⟨by simp [e1], by simp [e2], by simp [e3], by simp [e4], l₁, l₂ ++ d, k₁, k₂ ++ e,
    ?_, ?_, ?_, ?_⟩
  · simp [hl2]
  · simp [hl1]
  · simp [hk2]
  · simp [hk1]

theorem sameButReport_foldl (g : Globals) (u : QString) (us : List QString) :
    ∀ st₁ st₂ : ReadState, SameButReport u st₁ st₂ →
      SameButReport u (us.foldl (applyUnit g) st₁) (us.foldl (applyUnit g) st₂) := by
  induction us with
  | nil => intro st₁ st₂ h; exact h
  | cons v us ih =>
    intro st₁ st₂ h
    exact ih _ _ (sameButReport_applyUnit g u v st₁ st₂ h)

/-- C18 (as amended): unknown prefixes are skipped, not fatal.  For every buffer without a
NUL byte that holds, after the complete units `before`, a complete unit `u` whose text
starts with none of `CMD:`, `SEND:`, `OPEN:`, the pass returns; `u` is reported as unknown
and consumed; and compared with the pass over the same buffer without `u;` the retained
buffer, the local `startUrl` and `toSend`, the executed commands and the responses written
are the same, the log of unknown commands and the trace of units differing only by `u`: the
units before and after `u` are processed exactly as if it were absent. -/
theorem unknown_unit_is_skipped (g : Globals) (before : List QString) (u rest : QString)
    (st : ReadState) (hb : ∀ v ∈ before, 59 ∉ v) (hu : 59 ∉ u)
    (h1 : startsWith u qCMD = false) (h2 : startsWith u qSEND = false)
    (h3 : startsWith u qOPEN = false)
    (h0 : 0 ∉ joinUnits before ++ (u ++ [59]) ++ rest) :
    ∃ retained st₁ st₂,
      readClient g (joinUnits before ++ (u ++ [59]) ++ rest) [] st = some (retained, st₁) ∧
      readClient g (joinUnits before ++ rest) [] st = some (retained, st₂) ∧
      59 ∉ retained ∧
      SameButReport u st₁ st₂ := by
  have hbu : ∀ v ∈ before ++ [u], 59 ∉ v := by
    intro v hv
    rcases List.mem_append.mp hv with h | h
    · exact hb v h
    · rw [List.mem_singleton.mp h]; exact hu
  have ej : joinUnits before ++ (u ++ [59]) = joinUnits (before ++ [u]) := by
    rw [joinUnits_append]
    simp [joinUnits]
  have s1 : splitUnits (joinUnits before ++ (u ++ [59]) ++ rest)
      = (before ++ [u] ++ (splitUnits rest).1, (splitUnits rest).2) := by
    rw [ej, splitUnits_joinUnits_append _ _ hbu]
  have s2 : splitUnits (joinUnits before ++ rest)
      = (before ++ (splitUnits rest).1, (splitUnits rest).2) :=
    splitUnits_joinUnits_append _ _ hb
  refine ⟨(splitUnits rest).2,
    (before ++ [u] ++ (splitUnits rest).1).foldl (applyUnit g) st,
    (before ++ (splitUnits rest).1).foldl (applyUnit g) st, ?_, ?_, ?_, ?_⟩
  · rw [readClient_of_not_mem g _ [] st (by rw [List.nil_append]; exact h0),
      List.nil_append, s1]
  · have h0' : 0 ∉ [] ++ (joinUnits before ++ rest) := by
      rw [List.nil_append]
      intro hm
      apply h0
      rcases List.mem_append.mp hm with h | h
      · exact List.mem_append_left _ (List.mem_append_left _ h)
      · exact List.mem_append_right _ h
    rw [readClient_of_not_mem g _ [] st h0', List.nil_append, s2]
  · exact (splitAcc_spec rest [] (by simp)).2.2
  · simp only [List.foldl_append, List.foldl_cons, List.foldl_nil]
    apply sameButReport_foldl
    have hunit : applyUnit g (before.foldl (applyUnit g) st) u =
        { before.foldl (applyUnit g) st with
          unknownLog := (before.foldl (applyUnit g) st).unknownLog ++ [u]
          units := (before.foldl (applyUnit g) st).units ++ [(Prefix.unknown, u)] } := by
      simp [applyUnit, h1, h2, h3]
    rw [hunit]
    exact ⟨rfl, rfl, rfl, rfl, (before.foldl (applyUnit g) st).unknownLog, [],
      (before.foldl (applyUnit g) st).units, [], by simp, by simp, by simp, by simp⟩

/-- Witness for C18: the buffer `CMD:a;zz;SEND:b;c` with the unknown unit `zz`. -/
theorem unknown_unit_is_skipped_witness :
    (∀ v ∈ [qCMD ++ [97]], 59 ∉ v) ∧ 59 ∉ [122, 122] ∧
      0 ∉ joinUnits [qCMD ++ [97]] ++ ([122, 122] ++ [59]) ++ (qSEND ++ [98, 59, 99]) ∧
      ∃ retained st₁ st₂,
        readClient ⟨[], [], 7⟩
          (joinUnits [qCMD ++ [97]] ++ ([122, 122] ++ [59]) ++ (qSEND ++ [98, 59, 99])) []
          ReadState.init = some (retained, st₁) ∧
        readClient ⟨[], [], 7⟩ (joinUnits [qCMD ++ [97]] ++ (qSEND ++ [98, 59, 99])) []
          ReadState.init = some (retained, st₂) ∧
        59 ∉ retained ∧
        SameButReport [122, 122] st₁ st₂ :=
  ⟨by decide, by decide, by decide,
    unknown_unit_is_skipped ⟨[], [], 7⟩ [qCMD ++ [97]] [122, 122] (qSEND ++ [98, 59, 99])
      ReadState.init (by decide) (by decide) (by decide) (by decide) (by decide)
      (by decide)⟩

/-- C18 as stated fails: the buffer `CMD:a;z\0z;SEND:b;c` holds the complete unit `z\0z`,
which has no `';'` and starts with none of the prefixes.  The text the pass sees ends at the
NUL byte: `CMD:a` is executed, the unit `z\0z` is neither reported nor consumed, `SEND:b` is
not processed, and everything from `z` on is retained.  Over the same buffer without the
unit the pass takes `SEND:b` and retains `c`. -/
theorem nul_in_unit_stops_the_pass :
    59 ∉ [122, 0, 122] ∧ startsWith [122, 0, 122] qCMD = false ∧
      startsWith [122, 0, 122] qSEND = false ∧ startsWith [122, 0, 122] qOPEN = false ∧
      readClient ⟨[], [], 7⟩
          (joinUnits [qCMD ++ [97]] ++ ([122, 0, 122] ++ [59]) ++ (qSEND ++ [98, 59, 99])) []
          ReadState.init
        = some ([122, 0, 122, 59] ++ qSEND ++ [98, 59, 99],
            { ReadState.init with
              executed := [[97]]
              written := [resResponse 7]
              units := [(Prefix.CMD, [97])] }) ∧
      readClient ⟨[], [], 7⟩ (joinUnits [qCMD ++ [97]] ++ (qSEND ++ [98, 59, 99])) []
          ReadState.init
        = some ([99],
            { ReadState.init with
              toSend := [[98]]
              executed := [[97]]
              written := [resResponse 7]
              units := [(Prefix.CMD, [97]), (Prefix.SEND, [98])] }) := by
  decide

/-! ### Lemmas on the acknowledgment -/

theorem digitsValue_append (l₁ l₂ : QString) : ∀ acc : Nat,
    digitsValue acc (l₁ ++ l₂) = digitsValue (digitsValue acc l₁) l₂ := by
  induction l₁ with
  | nil => intro acc; rfl
  | cons c cs ih => intro acc; exact ih _

theorem digitChar_toNat : ∀ k < 10, (Nat.digitChar k).toNat = 48 + k := by
  decide

/-- The digits `Nat.toDigits` produces: a non-empty string of decimal digits whose value is
the number. -/
theorem toDigitsCore_spec (fuel : Nat) : ∀ (n : Nat) (ds : List Char), n < fuel →
    ∃ l : QString, (Nat.toDigitsCore 10 fuel n ds).map Char.toNat = l ++ ds.map Char.toNat ∧
      l ≠ [] ∧ l.all isDigit = true ∧ digitsValue 0 l = n := by
  induction fuel with
  | zero => intro n ds h; omega
  | succ fuel ih =>
    intro n ds h
    have hd : (Nat.digitChar (n % 10)).toNat = 48 + n % 10 :=
      digitChar_toNat _ (Nat.mod_lt _ (by decide))
    have hdig : isDigit (48 + n % 10) = true := by
      have := Nat.mod_lt n (show 0 < 10 by decide)
      simp only [isDigit, Bool.and_eq_true, decide_eq_true_eq]
      omega
    have e : Nat.toDigitsCore 10 (fuel + 1) n ds =
        if n / 10 = 0 then Nat.digitChar (n % 10) :: ds
        else Nat.toDigitsCore 10 fuel (n / 10) (Nat.digitChar (n % 10) :: ds) := rfl
    have hv1 : ∀ a d : Nat, digitsValue a [48 + d] = a * 10 + d := by
      intro a d
      show a * 10 + (48 + d - 48) = a * 10 + d
      omega
    have hrec : n / 10 * 10 + n % 10 = n := by omega
    by_cases h0 : n / 10 = 0
    · refine ⟨[48 + n % 10], ?_, List.cons_ne_nil _ _, ?_, ?_⟩
      · rw [e, if_pos h0, List.map_cons, hd]
        rfl
      · rw [List.all_cons, hdig]; rfl
      · rw [hv1]
        omega
    · have hlt : n / 10 < fuel := by omega
      obtain ⟨l, hl, _, hall, hval⟩ := ih (n / 10) (Nat.digitChar (n % 10) :: ds) hlt
      refine ⟨l ++ [48 + n % 10], ?_, ?_, ?_, ?_⟩
      · rw [e, if_neg h0, hl, List.map_cons, hd, List.append_assoc]
        rfl
      · intro hnil
        have := congrArg List.length hnil
        simp at this
      · rw [List.all_append, hall, List.all_cons, hdig]; rfl
      · rw [digitsValue_append, hval, hv1, hrec]

theorem decimal_spec (n : Nat) :
    decimal n ≠ [] ∧ (decimal n).all isDigit = true ∧ digitsValue 0 (decimal n) = n := by
  obtain ⟨l, hl, h1, h2, h3⟩ := toDigitsCore_spec (n + 1) n [] (by omega)
  have : decimal n = l := by
    unfold decimal Nat.toDigits
    rw [hl]
    simp
  rw [this]
  exact ⟨h1, h2, h3⟩

theorem not_mem_of_all_isDigit (l : QString) (h : l.all isDigit = true) : 59 ∉ l := by
  intro hm
  have := List.all_eq_true.mp h 59 hm
  simp [isDigit] at this

theorem resResponse_eq (pid : Nat) : resResponse pid = qRES ++ decimal pid ++ [59] := by
  unfold resResponse
  apply toLatin1_of_le
  intro c hc
  obtain ⟨_, hall, _⟩ := decimal_spec pid
  rcases List.mem_append.mp hc with h | h
  · rcases List.mem_append.mp h with h | h
    · have : ∀ x ∈ qRES, x ≤ 255 := by decide
      exact this c h
    · have := List.all_eq_true.mp hall c h
      simp only [isDigit, Bool.and_eq_true, decide_eq_true_eq] at this
      omega
  · have : c = 59 := List.mem_singleton.mp h
    omega

theorem mem_of_mem_dropWhile (p : Nat → Bool) (x : Nat) (l : QString)
    (h : x ∈ l.dropWhile p) : x ∈ l := by
  induction l with
  | nil => simp at h
  | cons c cs ih =>
    rw [List.dropWhile_cons] at h
    split at h
    · exact List.mem_cons_of_mem _ (ih h)
    · exact h

theorem matchResHere_semicolon (s : QString) (h : matchResHere s = true) : 59 ∈ s := by
  unfold matchResHere at h
  split at h
  · rename_i d rest
    simp only [Bool.and_eq_true, decide_eq_true_eq] at h
    have hm : 59 ∈ rest.dropWhile isDigit := by
      cases hdw : rest.dropWhile isDigit with
      | nil => rw [hdw] at h; simp at h
      | cons y ys =>
        rw [hdw] at h
        simp only [List.head?_cons, Option.some.injEq] at h
        rw [h.2]
        exact List.mem_cons_self _ _
    have := mem_of_mem_dropWhile isDigit 59 rest hm
    simp [this]
  · cases h

theorem hasMatchRes_semicolon (s : QString) (h : hasMatchRes s = true) : 59 ∈ s := by
  induction s with
  | nil => cases h
  | cons c cs ih =>
    simp only [hasMatchRes, Bool.or_eq_true] at h
    rcases h with h | h
    · exact matchResHere_semicolon _ h
    · exact List.mem_cons_of_mem _ (ih h)

theorem dropWhile_digits_semicolon (l : QString) (h : l.all isDigit = true) :
    (l ++ [59]).dropWhile isDigit = [59] := by
  induction l with
  | nil => simp [List.dropWhile, isDigit]
  | cons c cs ih =>
    simp only [List.all_cons, Bool.and_eq_true] at h
    simp [List.dropWhile, h.1, ih h.2]

theorem hasMatchRes_reply (pid : Nat) : hasMatchRes (qRES ++ decimal pid ++ [59]) = true := by
  obtain ⟨hne, hall, _⟩ := decimal_spec pid
  cases hd : decimal pid with
  | nil => exact absurd hd hne
  | cons d ds =>
    rw [hd] at hall
    simp only [List.all_cons, Bool.and_eq_true] at hall
    have : matchResHere (qRES ++ (d :: ds) ++ [59]) = true := by
      show matchResHere (82 :: 69 :: 83 :: 58 :: d :: (ds ++ [59])) = true
      simp [matchResHere, hall.1, dropWhile_digits_semicolon ds hall.2]
    show hasMatchRes (82 :: (69 :: 83 :: 58 :: d :: (ds ++ [59]))) = true
    rw [hasMatchRes]
    have e : (82 :: (69 :: 83 :: 58 :: d :: (ds ++ [59]))) = qRES ++ (d :: ds) ++ [59] := rfl
    rw [e, this]
    rfl

theorem reply_no_semicolon (pid : Nat) : 59 ∉ qRES ++ decimal pid := by
  rw [List.mem_append, not_or]
  exact ⟨by decide, not_mem_of_all_isDigit _ (decimal_spec pid).2.1⟩

theorem toULongLong_reply (pid : Nat) (hp : pid < 2 ^ 64) :
    toULongLong (mid (qRES ++ decimal pid ++ [59]) 4
      (((qRES ++ decimal pid ++ [59]).length : Int) - 5)) = pid := by
  obtain ⟨hne, hall, hval⟩ := decimal_spec pid
  have hm : mid (qRES ++ decimal pid ++ [59]) 4
      (((qRES ++ decimal pid ++ [59]).length : Int) - 5) = decimal pid := by
    unfold mid
    have hlen : (((qRES ++ decimal pid ++ [59]).length : Int) - 5) = ((decimal pid).length : Int) := by
      simp only [List.length_append, qRES, List.length_cons, List.length_nil]
      push_cast
      omega
    rw [hlen, if_neg (by omega), Int.toNat_ofNat]
    show ((qRES ++ decimal pid ++ [59]).drop (qRES.length)).take (decimal pid).length = decimal pid
    rw [List.append_assoc, List.drop_left, List.take_left]
  rw [hm]
  unfold toULongLong
  rw [if_pos ⟨hne, hall, by rw [hval]; exact hp⟩, hval]

theorem reply_no_nul (pid : Nat) : 0 ∉ qRES ++ decimal pid ++ [59] := by
  intro hm
  rcases List.mem_append.mp hm with h | h
  · rcases List.mem_append.mp h with h | h
    · exact absurd h (by decide)
    · have := List.all_eq_true.mp (decimal_spec pid).2.1 0 h
      simp [isDigit] at this
  · simp at h

theorem joinChunks_append (a b : List QByteArray) :
    joinChunks (a ++ b) = joinChunks a ++ joinChunks b := by
  induction a with
  | nil => rfl
  | cons c cs ih =>
    show c ++ joinChunks (cs ++ b) = c ++ joinChunks cs ++ joinChunks b
    rw [ih, List.append_assoc]

theorem socketReading_no_semicolon (chunk : QByteArray) (c : SecondInstance)
    (hc : c.connected = true) (h : 59 ∉ c._localSocketReadData ++ chunk) :
    socketReading chunk c = { c with _localSocketReadData := c._localSocketReadData ++ chunk } := by
  have hm : hasMatchRes (fromLatin1 (c._localSocketReadData ++ chunk)) = false := by
    by_cases hh : hasMatchRes (fromLatin1 (c._localSocketReadData ++ chunk)) = true
    · exact absurd ((List.takeWhile_prefix _).subset (hasMatchRes_semicolon _ hh)) h
    · simpa using hh
  unfold socketReading
  simp [hc, hm]

theorem readChunks_no_semicolon (chunks : List QByteArray) : ∀ c : SecondInstance,
    c.connected = true → 59 ∉ c._localSocketReadData ++ joinChunks chunks →
    readChunks chunks c =
      { c with _localSocketReadData := c._localSocketReadData ++ joinChunks chunks } := by
  induction chunks with
  | nil => intro c _ _; simp [readChunks, joinChunks]
  | cons x xs ih =>
    intro c hc h
    have h1 : 59 ∉ c._localSocketReadData ++ x := by
      intro hm
      apply h
      rcases List.mem_append.mp hm with hm | hm
      · exact List.mem_append_left _ hm
      · exact List.mem_append_right _ (List.mem_append_left _ hm)
    have hstep := socketReading_no_semicolon x c hc h1
    have h2 : 59 ∉ (c._localSocketReadData ++ x) ++ joinChunks xs := by
      rw [List.append_assoc]; exact h
    rw [show readChunks (x :: xs) c = readChunks xs (socketReading x c) from rfl, hstep,
      ih { c with _localSocketReadData := c._localSocketReadData ++ x } hc h2]
    simp [joinChunks, List.append_assoc]

/-- C20: the acknowledgment round trip.  For every process id `pid` below `2 ^ 64`, the
response the server writes for a CMD unit is exactly the bytes `RES:`, the decimal digits of
`pid`, `;`.  A connected client whose chunks of read data add up to exactly that reply, in
any chunking that ends with a non-empty chunk, extracts `pid` from it, activates that process
and quits once; and while the data read so far is a proper prefix of the reply it neither
activates nor quits. -/
theorem acknowledgment_round_trip (g : Globals) (hp : g.applicationPid < 2 ^ 64)
    (cmds : QString) (frm : Nat) (upto : Int) (st : ReadState)
    (hc : startsWith (mid cmds frm (upto - frm)) qCMD = true) :
    (processUnit g cmds frm upto st).written
        = st.written ++ [qRES ++ decimal g.applicationPid ++ [59]] ∧
      (∀ (chunks : List QByteArray) (last : QByteArray), last ≠ [] →
        joinChunks chunks ++ last = qRES ++ decimal g.applicationPid ++ [59] →
        readChunks (chunks ++ [last]) SecondInstance.init =
          { SecondInstance.init with
            _localSocketReadData := qRES ++ decimal g.applicationPid ++ [59]
            activated := [g.applicationPid]
            quits := 1 }) ∧
      (∀ (chunks : List QByteArray) (rest : QByteArray), rest ≠ [] →
        joinChunks chunks ++ rest = qRES ++ decimal g.applicationPid ++ [59] →
        (readChunks chunks SecondInstance.init).activated = [] ∧
          (readChunks chunks SecondInstance.init).quits = 0) := by
  have hnosemi := reply_no_semicolon g.applicationPid
  have hprefix : ∀ (pre rest : QByteArray), rest ≠ [] →
      pre ++ rest = qRES ++ decimal g.applicationPid ++ [59] →
      ∃ rest', rest = rest' ++ [59] ∧ pre ++ rest' = qRES ++ decimal g.applicationPid := by
    intro pre rest hne heq
    rcases List.eq_nil_or_concat rest with rfl | ⟨rest', x, rfl⟩
    · exact absurd rfl hne
    · rw [List.concat_eq_append] at heq ⊢
      rw [← List.append_assoc] at heq
      obtain ⟨e1, e2⟩ := List.append_inj' heq rfl
      have hx : x = 59 := by simpa using e2
      exact ⟨rest', by rw [hx], e1⟩
  refine ⟨?_, ?_, ?_⟩
  · unfold processUnit
    simp only [hc, if_true]
    conv_rhs => rw [← resResponse_eq]
    rfl
  · intro cs last hlast hjoin
    obtain ⟨last', hl, hpre⟩ := hprefix _ _ hlast hjoin
    have hcs : 59 ∉ SecondInstance.init._localSocketReadData ++ joinChunks cs := by
      intro hm
      apply hnosemi
      rw [← hpre]
      exact List.mem_append_left _ (by simpa [SecondInstance.init] using hm)
    have hfold : readChunks (cs ++ [last]) SecondInstance.init
        = socketReading last (readChunks cs SecondInstance.init) := by
      simp [readChunks, List.foldl_append]
    rw [hfold, readChunks_no_semicolon cs _ rfl hcs]
    unfold socketReading
    simp only [SecondInstance.init, List.nil_append, hjoin,
      fromLatin1_of_not_mem _ (reply_no_nul g.applicationPid),
      hasMatchRes_reply g.applicationPid, if_true, toULongLong_reply g.applicationPid hp]
    rfl
  · intro chunks rest hne heq
    obtain ⟨rest', _, hpre⟩ := hprefix _ _ hne heq
    have hcs : 59 ∉ SecondInstance.init._localSocketReadData ++ joinChunks chunks := by
      intro hm
      apply hnosemi
      rw [← hpre]
      exact List.mem_append_left _ (by simpa [SecondInstance.init] using hm)
    rw [readChunks_no_semicolon chunks _ rfl hcs]
    exact ⟨rfl, rfl⟩

/-- Witness for C20: the server has process id 4242 and meets the unit `CMD:show`; the
client reads the reply in the chunks `RE`, `S:42`, `42;`. -/
theorem acknowledgment_round_trip_witness :
    (4242 : Nat) < 2 ^ 64 ∧
      startsWith (mid (qCMD ++ [115, 104, 111, 119, 59]) 0 ((8 : Int) - (0 : Nat))) qCMD = true ∧
      (processUnit ⟨[], [], 4242⟩ (qCMD ++ [115, 104, 111, 119, 59]) 0 8 ReadState.init).written
        = [[82, 69, 83, 58, 52, 50, 52, 50, 59]] ∧
      readChunks [[82, 69], [83, 58, 52, 50], [52, 50, 59]] SecondInstance.init =
        { SecondInstance.init with
          _localSocketReadData := [82, 69, 83, 58, 52, 50, 52, 50, 59]
          activated := [4242]
          quits := 1 } :=
  have h := acknowledgment_round_trip ⟨[], [], 4242⟩ (by decide)
    (qCMD ++ [115, 104, 111, 119, 59]) 0 8 ReadState.init (by decide)
  ⟨by decide, by decide, h.1, h.2.1 [[82, 69], [83, 58, 52, 50]] [52, 50, 59] (by decide) rfl⟩

/-! ### Lemmas on filtering -/

theorem photosWhile_mem (dlgHeight yTo : Int) (rows : List DialogRow) : ∀ (pos : Nat)
    (e : Effect), e ∈ photosWhile dlgHeight yTo pos rows →
    ∃ row ∈ rows, e = Effect.photoLoad row.peer := by
  induction rows with
  | nil => intro pos e h; cases h
  | cons r rs ih =>
    intro pos e h
    rw [photosWhile] at h
    split at h
    · rcases List.mem_cons.mp h with rfl | h
      · exact ⟨r, List.mem_cons_self _ _, rfl⟩
      · obtain ⟨row, hr, he⟩ := ih _ e h
        exact ⟨row, List.mem_cons_of_mem _ hr, he⟩
    · cases h

theorem peerPhotoLoads_mem (env : FilterEnv) (yFrom : Int) (w : DialogsListWidget)
    (e : Effect) (he : e ∈ peerPhotoLoads env yFrom w) :
    ∃ row ∈ w.filtered ++ w.dialogs.list ++ w.contactsNoDialogs.list,
      e = Effect.photoLoad row.peer := by
  unfold peerPhotoLoads at he
  by_cases hf : w.filter.isEmpty = true
  · simp only [hf, if_true] at he
    rcases List.mem_append.mp he with h | h
    · by_cases hc : yFrom < (w.dialogs.list.length : Int) * env.dlgHeight
      · rw [if_pos hc] at h
        obtain ⟨row, hr, hrow⟩ := photosWhile_mem _ _ _ _ e h
        exact ⟨row, List.mem_append_left _
          (List.mem_append_right _ (List.mem_of_mem_drop hr)), hrow⟩
      · rw [if_neg hc] at h
        cases h
    · by_cases hc : yFrom + env.parentHeight * 5 - (w.dialogs.list.length : Int) * env.dlgHeight > 0
      · rw [if_pos hc] at h
        obtain ⟨row, hr, hrow⟩ := photosWhile_mem _ _ _ _ e h
        exact ⟨row, List.mem_append_right _ (List.mem_of_mem_drop hr), hrow⟩
      · rw [if_neg hc] at h
        cases h
  · simp only [hf, Bool.false_eq_true, if_false] at he
    by_cases hc : (if Int.tdiv yFrom env.dlgHeight < 0 then 0 else Int.tdiv yFrom env.dlgHeight)
        < (w.filtered.length : Int)
    · rw [if_pos hc] at he
      obtain ⟨row, hr, hrow⟩ := List.mem_map.mp he
      exact ⟨row, List.mem_append_left _ (List.mem_append_left _
        (List.mem_of_mem_drop (List.mem_of_mem_take hr))), hrow.symm⟩
    · rw [if_neg hc] at he
      cases he

/-- `refresh` only appends effects and touches no other field; a photo is loaded only for a
row of the filtered sequence or of the lists. -/
theorem refresh_spec (env : FilterEnv) (toTop : Bool) (w : DialogsListWidget) :
    ∃ new : List Effect,
      DialogsListWidget.refresh env toTop w = { w with effects := w.effects ++ new } ∧
      (∀ p, Effect.photoLoad p ∈ new →
        ∃ row ∈ w.filtered ++ w.dialogs.list ++ w.contactsNoDialogs.list, row.peer = p) ∧
      (toTop = true → Effect.mustScrollTo 0 0 ∈ new ∧ Effect.clearLoaderPriorities ∈ new ∧
        ∀ e ∈ peerPhotoLoads env 0 w, e ∈ new) := by
  cases toTop with
  | false =>
    refine ⟨[Effect.resize ((if w.filter.isEmpty = true then
            (w.dialogs.list.length : Int) + (w.contactsNoDialogs.list.length : Int)
            else (w.filtered.length : Int)) * env.dlgHeight), Effect.parentUpdate],
      ?_, ?_, ?_⟩
    · simp [DialogsListWidget.refresh]
    · intro p hp; simp at hp
    · intro h; cases h
  | true =>
    have hsame : ∀ x : List Effect,
        peerPhotoLoads env 0 { w with effects := x } = peerPhotoLoads env 0 w := fun _ => rfl
    refine ⟨[Effect.resize ((if w.filter.isEmpty = true then
            (w.dialogs.list.length : Int) + (w.contactsNoDialogs.list.length : Int)
            else (w.filtered.length : Int)) * env.dlgHeight), Effect.mustScrollTo 0 0,
        Effect.clearLoaderPriorities] ++ peerPhotoLoads env 0 w ++ [Effect.parentUpdate],
      ?_, ?_, ?_⟩
    · simp only [DialogsListWidget.refresh, DialogsListWidget.loadPeerPhotos, if_true, hsame]
      simp
    · intro p hp
      simp only [List.mem_append, List.mem_cons, List.mem_singleton, List.not_mem_nil,
        or_false, reduceCtorEq, false_or] at hp
      obtain ⟨row, hr, he⟩ := peerPhotoLoads_mem env 0 w _ hp
      exact ⟨row, hr, by injection he with he; exact he.symm⟩
    · intro _
      refine ⟨by simp, by simp, fun e he => ?_⟩
      simp [he]

theorem setMouseSel_fields (msel toTop : Bool) (w : DialogsListWidget) :
    (DialogsListWidget.setMouseSel msel toTop w).filter = w.filter ∧
      (DialogsListWidget.setMouseSel msel toTop w).filtered = w.filtered ∧
      (DialogsListWidget.setMouseSel msel toTop w).effects = w.effects ∧
      (DialogsListWidget.setMouseSel msel toTop w).dialogs = w.dialogs ∧
      (DialogsListWidget.setMouseSel msel toTop w).contactsNoDialogs = w.contactsNoDialogs ∧
      (DialogsListWidget.setMouseSel msel toTop w).contacts = w.contacts := by
  unfold DialogsListWidget.setMouseSel
  cases msel <;> cases toTop <;> by_cases hf : w.filter.isEmpty = true <;> simp [hf]

theorem onFilterUpdate_same (env : FilterEnv) (newFilter : QString) (w : DialogsListWidget)
    (h : foldedFilter env newFilter = w.filter) :
    DialogsListWidget.onFilterUpdate env newFilter w = w := by
  unfold DialogsListWidget.onFilterUpdate
  unfold foldedFilter at h
  simp [h]

theorem onFilterUpdate_changed (env : FilterEnv) (newFilter : QString) (w : DialogsListWidget)
    (h : foldedFilter env newFilter ≠ w.filter) :
    DialogsListWidget.onFilterUpdate env newFilter w =
      DialogsListWidget.setMouseSel false true
        (DialogsListWidget.refresh env true (filterCore env newFilter w)) := by
  unfold DialogsListWidget.onFilterUpdate filterCore normalisedFilter normalisedTokens
  unfold foldedFilter at *
  simp only [ne_eq, h, not_false_eq_true, if_true]
  by_cases he : (env.textAccentFold (env.toLower (env.trimmed newFilter))).isEmpty = true
  · simp [he]
  · simp only [he, Bool.not_false, if_true, Bool.false_eq_true, if_false]
    by_cases hn : joinWords (filterTokens env
        (env.textAccentFold (env.toLower (env.trimmed newFilter)))) = w.filter
    · simp [hn]
    · simp only [hn, not_false_eq_true, if_true]
      by_cases hj : (joinWords (filterTokens env
          (env.textAccentFold (env.toLower (env.trimmed newFilter))))).isEmpty = true
      · simp [hj]
      · simp only [hj, Bool.not_false, if_true, Bool.false_eq_true, if_false]
        by_cases ht : (filterTokens env
            (env.textAccentFold (env.toLower (env.trimmed newFilter)))).isEmpty = true
        · simp [ht]
        · simp [ht]

theorem filterCore_filter (env : FilterEnv) (newFilter : QString) (w : DialogsListWidget) :
    (filterCore env newFilter w).filter = normalisedFilter env newFilter ∧
      (filterCore env newFilter w).dialogs = w.dialogs ∧
      (filterCore env newFilter w).contactsNoDialogs = w.contactsNoDialogs ∧
      (filterCore env newFilter w).contacts = w.contacts ∧
      (filterCore env newFilter w).effects = w.effects := by
  unfold filterCore
  by_cases hn : normalisedFilter env newFilter = w.filter
  · simp [hn]
  · simp [hn]

theorem filterCore_idem (env : FilterEnv) (newFilter : QString) (w : DialogsListWidget)
    (h : w.filter = normalisedFilter env newFilter) : filterCore env newFilter w = w := by
  unfold filterCore
  simp [h]

/-- The fields `onFilterUpdate` leaves behind, whether it recomputes or not. -/
theorem onFilterUpdate_fields (env : FilterEnv) (newFilter : QString) (w : DialogsListWidget)
    (h : foldedFilter env newFilter ≠ w.filter) :
    (DialogsListWidget.onFilterUpdate env newFilter w).filter
        = (filterCore env newFilter w).filter ∧
      (DialogsListWidget.onFilterUpdate env newFilter w).filtered
        = (filterCore env newFilter w).filtered := by
  rw [onFilterUpdate_changed env newFilter w h]
  obtain ⟨new, hr, _⟩ := refresh_spec env true (filterCore env newFilter w)
  obtain ⟨s1, s2, _⟩ := setMouseSel_fields false true
    (DialogsListWidget.refresh env true (filterCore env newFilter w))
  rw [s1, s2, hr]
  exact ⟨rfl, rfl⟩

/-- C15: re-filtering is idempotent.  For every filter text and every list state, calling
`onFilterUpdate` twice in a row with the same text leaves the stored filter and the filtered
sequence, in the same order, after the second call exactly as they were after the first. -/
theorem refilter_is_idempotent (env : FilterEnv) (newFilter : QString)
    (w : DialogsListWidget) :
    (DialogsListWidget.onFilterUpdate env newFilter
        (DialogsListWidget.onFilterUpdate env newFilter w)).filter
        = (DialogsListWidget.onFilterUpdate env newFilter w).filter ∧
      (DialogsListWidget.onFilterUpdate env newFilter
        (DialogsListWidget.onFilterUpdate env newFilter w)).filtered
        = (DialogsListWidget.onFilterUpdate env newFilter w).filtered := by
  by_cases h : foldedFilter env newFilter = w.filter
  · rw [onFilterUpdate_same env newFilter w h, onFilterUpdate_same env newFilter w h]
    exact ⟨rfl, rfl⟩
  · obtain ⟨f1, _⟩ := onFilterUpdate_fields env newFilter w h
    have hfilter : (DialogsListWidget.onFilterUpdate env newFilter w).filter
        = normalisedFilter env newFilter := by
      rw [f1]; exact (filterCore_filter env newFilter w).1
    by_cases h' : foldedFilter env newFilter
        = (DialogsListWidget.onFilterUpdate env newFilter w).filter
    · rw [onFilterUpdate_same env newFilter _ h']
      exact ⟨rfl, rfl⟩
    · obtain ⟨g1, g2⟩ := onFilterUpdate_fields env newFilter _ h'
      rw [g1, g2, filterCore_idem env newFilter _ hfilter]
      exact ⟨rfl, rfl⟩

theorem rowMatches_iff (f : List QString) (row : DialogRow) :
    rowMatches f row = true ↔ MatchesAll f row := by
  unfold rowMatches MatchesAll
  simp only [List.all_eq_true, List.any_eq_true, List.isPrefixOf_iff_prefix]

theorem normalisedTokens_ne_nil (env : FilterEnv) (newFilter : QString) :
    ∀ t ∈ normalisedTokens env newFilter, t ≠ [] := by
  intro t ht
  unfold normalisedTokens at ht
  split at ht
  · unfold filterTokens at ht
    have := (List.mem_filter.mp ht).2
    intro e
    rw [e] at this
    simp at this
  · cases ht

theorem hasNameStarting_of_matches (f : List QString) (row : DialogRow) (t : QString)
    (ht : t ∈ f) (hne : t ≠ []) (hm : rowMatches f row = true) :
    hasNameStarting (t.headD 0) row = true := by
  obtain ⟨name, hname, hpre⟩ := (rowMatches_iff f row).mp hm t ht
  unfold hasNameStarting
  rw [List.any_eq_true]
  refine ⟨name, hname, ?_⟩
  obtain ⟨s, hs⟩ := hpre
  cases t with
  | nil => exact absurd rfl hne
  | cons c cs =>
    rw [← hs]
    simp

theorem chooseBucket_cons_some (index : List (Nat × List DialogRow)) (fi : QString)
    (rest : List QString) (acc : Option (List DialogRow)) (bucket : List DialogRow)
    (hl : index.lookup (fi.headD 0) = some bucket) :
    chooseBucket index (fi :: rest) acc =
      chooseBucket index rest
        (match acc with
         | none => some bucket
         | some chosen =>
           if chosen.length > bucket.length then some bucket else some chosen) := by
  rw [chooseBucket, hl]

theorem chooseBucket_spec (d : DialogsIndexed) (hd : IndexOk d) (F : List QString)
    (rest : List QString) : ∀ acc : Option (List DialogRow), (∀ t ∈ rest, t ∈ F) →
    (acc = none ∨ ∃ t ∈ F, acc = some (d.list.filter (hasNameStarting (t.headD 0)))) →
    (∀ b, chooseBucket d.index rest acc = some b →
      ∃ t ∈ F, b = d.list.filter (hasNameStarting (t.headD 0))) ∧
    (chooseBucket d.index rest acc = none →
      (acc = none ∧ rest = []) ∨
        ∃ t ∈ F, d.list.filter (hasNameStarting (t.headD 0)) = []) := by
  induction rest with
  | nil =>
    intro acc _ hacc
    refine ⟨fun b hb => ?_, fun hn => Or.inl ⟨hn, rfl⟩⟩
    rw [chooseBucket] at hb
    rcases hacc with h | ⟨t, ht, h⟩
    · rw [h] at hb; cases hb
    · rw [h] at hb
      injection hb with hb
      exact ⟨t, ht, hb.symm⟩
  | cons fi rest ih =>
    intro acc hrest hacc
    have hfi : fi ∈ F := hrest fi (List.mem_cons_self _ _)
    have hrest' : ∀ t ∈ rest, t ∈ F := fun t ht => hrest t (List.mem_cons_of_mem _ ht)
    have hidx := hd (fi.headD 0)
    cases hl : d.index.lookup (fi.headD 0) with
    | none =>
      rw [hl] at hidx
      have hcb : chooseBucket d.index (fi :: rest) acc = none := by
        rw [chooseBucket, hl]
      rw [hcb]
      exact ⟨fun b hb => (by cases hb), fun _ => Or.inr ⟨fi, hfi, hidx⟩⟩
    | some bucket =>
      rw [hl] at hidx
      have hb : bucket = d.list.filter (hasNameStarting (fi.headD 0)) := hidx
      have hstep : ∀ a : Option (List DialogRow),
          (a = none ∨ ∃ t ∈ F, a = some (d.list.filter (hasNameStarting (t.headD 0)))) →
          ∃ t ∈ F,
          (match a with
           | none => some bucket
           | some chosen => if chosen.length > bucket.length then some bucket else some chosen)
            = some (d.list.filter (hasNameStarting (t.headD 0))) := by
        intro a ha
        cases a with
        | none => exact ⟨fi, hfi, (by rw [hb])⟩
        | some chosen =>
          rcases ha with h | ⟨t, ht, h⟩
          · cases h
          · injection h with h
            by_cases hc : chosen.length > bucket.length
            · exact ⟨fi, hfi, (by simp only [hc, if_true]; rw [hb])⟩
            · exact ⟨t, ht, (by simp only [hc, if_false]; rw [h])⟩
      have hacc' := hstep acc hacc
      rw [chooseBucket_cons_some d.index fi rest acc bucket hl]
      obtain ⟨i1, i2⟩ := ih _ hrest' (Or.inr hacc')
      refine ⟨i1, fun hn => ?_⟩
      rcases i2 hn with ⟨h, _⟩ | h
      · obtain ⟨t, _, ht⟩ := hacc'
        rw [h] at ht
        cases ht
      · exact Or.inr h

/-- With the index in order, the rows a list contributes through the smallest first-letter
bucket are exactly its rows that match every token. -/
theorem filteredOf_eq (d : DialogsIndexed) (hd : IndexOk d) (f : List QString)
    (hf : f ≠ []) (hne : ∀ t ∈ f, t ≠ []) :
    filteredOf d f = d.list.filter (rowMatches f) := by
  have himp : ∀ t ∈ f, ∀ row, rowMatches f row = true →
      hasNameStarting (t.headD 0) row = true :=
    fun t ht row hm => hasNameStarting_of_matches f row t ht (hne t ht) hm
  unfold filteredOf
  by_cases hz : d.list.length = 0
  · have : d.list = [] := List.length_eq_zero.mp hz
    simp [hz, this]
  · simp only [ne_eq, hz, not_false_eq_true, if_true]
    obtain ⟨s1, s2⟩ := chooseBucket_spec d hd f f none (fun t ht => ht) (Or.inl rfl)
    cases hcb : chooseBucket d.index f none with
    | none =>
      rcases s2 hcb with ⟨_, h⟩ | ⟨t, ht, h⟩
      · exact absurd h hf
      · symm
        rw [List.filter_eq_nil_iff]
        intro row hrow hm
        have : row ∈ d.list.filter (hasNameStarting (t.headD 0)) :=
          List.mem_filter.mpr ⟨hrow, himp t ht row hm⟩
        rw [h] at this
        cases this
    | some b =>
      obtain ⟨t, ht, hb⟩ := s1 b hcb
      have hfilter : b.filter (rowMatches f) = d.list.filter (rowMatches f) := by
        rw [hb, List.filter_filter]
        apply List.filter_congr
        intro row _
        by_cases hm : rowMatches f row = true
        · have hh := himp t ht row hm
          rw [hm, hh]
          rfl
        · simp [hm]
      by_cases hbz : b.length = 0
      · have hbn : b = [] := List.length_eq_zero.mp hbz
        simp only [hbz, ne_eq, not_true_eq_false, if_false]
        rw [← hfilter, hbn]
        rfl
      · simp only [hbz, ne_eq, not_false_eq_true, if_true]
        exact hfilter

theorem joinWords_ne_nil (f : List QString) (hf : f ≠ []) (hne : ∀ t ∈ f, t ≠ []) :
    joinWords f ≠ [] := by
  match f with
  | [] => exact absurd rfl hf
  | [x] => exact hne x (List.mem_cons_self _ _)
  | x :: y :: rest =>
    intro h
    have := congrArg List.length h
    simp [joinWords] at this

theorem naiveFiltered_eq (w : DialogsListWidget) (f : List QString) :
    naiveFiltered w f =
      w.dialogs.list.filter (rowMatches f) ++ w.contactsNoDialogs.list.filter (rowMatches f) := by
  unfold naiveFiltered
  rw [← List.filter_append]
  apply List.filter_congr
  intro row _
  by_cases hm : rowMatches f row = true
  · simp [hm, (rowMatches_iff f row).mp hm]
  · have : ¬ MatchesAll f row := fun h => hm ((rowMatches_iff f row).mpr h)
    simp [hm, this]

/-- C14 (as amended): for every filter text that normalises to a non-empty token list and
differs, folded and normalised, from the stored filter, and every state in which each index
bucket of the dialogs list and of the contacts-without-dialogs list holds exactly the rows of
that list that have a name component starting with its letter, the filtered sequence
`onFilterUpdate` computes through the smallest first-letter bucket consists of exactly the
rows of the dialogs list followed by the rows of the contacts-without-dialogs list for which
every token is a prefix of at least one name component. -/
theorem filtered_equals_naive (env : FilterEnv) (newFilter : QString) (w : DialogsListWidget)
    (hf : normalisedTokens env newFilter ≠ []) (hd : IndexOk w.dialogs)
    (hc : IndexOk w.contactsNoDialogs) (h1 : foldedFilter env newFilter ≠ w.filter)
    (h2 : normalisedFilter env newFilter ≠ w.filter) :
    (DialogsListWidget.onFilterUpdate env newFilter w).filtered
      = naiveFiltered w (normalisedTokens env newFilter) := by
  have hne := normalisedTokens_ne_nil env newFilter
  have hfold : (foldedFilter env newFilter).isEmpty = false := by
    by_cases he : (foldedFilter env newFilter).isEmpty = true
    · exfalso
      apply hf
      unfold normalisedTokens
      simp [he]
    · simpa using he
  have hnorm : normalisedFilter env newFilter = joinWords (normalisedTokens env newFilter) := by
    unfold normalisedFilter
    simp [hfold]
  have hnn : (normalisedFilter env newFilter).isEmpty = false := by
    have := joinWords_ne_nil _ hf hne
    rw [← hnorm] at this
    cases hx : normalisedFilter env newFilter with
    | nil => exact absurd hx this
    | cons _ _ => rfl
  have htok : (normalisedTokens env newFilter).isEmpty = false := by
    cases hx : normalisedTokens env newFilter with
    | nil => exact absurd hx hf
    | cons _ _ => rfl
  rw [(onFilterUpdate_fields env newFilter w h1).2, naiveFiltered_eq,
    ← filteredOf_eq w.dialogs hd _ hf hne, ← filteredOf_eq w.contactsNoDialogs hc _ hf hne]
  unfold filterCore
  simp [h2, hnn, htok]

theorem indexOk_twoDialogs : IndexOk twoDialogs.dialogs := by
  intro c
  by_cases h1 : c = 106
  · subst h1
    exact (rfl : [john] = [john])
  · by_cases h2 : c = 97
    · subst h2
      exact (rfl : [alex] = [alex])
    · have e1 : (106 == c) = false := by simpa using fun e => h1 e.symm
      have e2 : (97 == c) = false := by simpa using fun e => h2 e.symm
      have e3 : (c == 106) = false := by simpa using h1
      have e4 : (c == 97) = false := by simpa using h2
      simp [twoDialogs, john, alex, List.lookup, hasNameStarting, e1, e2, e3, e4]

theorem indexOk_empty : IndexOk twoDialogs.contactsNoDialogs := by
  intro c
  simp [twoDialogs, List.lookup]

/-- Witness for C14 as amended: with the dialogs `john` and `alex` and no filter, the text
`jo` keeps `john` and excludes `alex`. -/
theorem filtered_equals_naive_witness :
    normalisedTokens envPlain [106, 111] ≠ [] ∧ IndexOk twoDialogs.dialogs ∧
      IndexOk twoDialogs.contactsNoDialogs ∧
      foldedFilter envPlain [106, 111] ≠ twoDialogs.filter ∧
      normalisedFilter envPlain [106, 111] ≠ twoDialogs.filter ∧
      (DialogsListWidget.onFilterUpdate envPlain [106, 111] twoDialogs).filtered = [john] :=
  ⟨by decide, indexOk_twoDialogs, indexOk_empty, by decide, by decide,
    (filtered_equals_naive envPlain [106, 111] twoDialogs (by decide) indexOk_twoDialogs
      indexOk_empty (by decide) (by decide)).trans (by decide)⟩

/-- C14 as stated fails: the filter `jo` was stored while there were no rows, and the
dialogs `john` and `alex` arrived afterwards, correctly indexed.  For the text `jo`, which
normalises to the one token `jo`, `onFilterUpdate` finds the stored filter unchanged and
leaves the filtered sequence empty, although `john` matches the token. -/
theorem same_filter_is_not_recomputed :
    staleJo.filter = [106, 111] ∧ normalisedTokens envPlain [106, 111] = [[106, 111]] ∧
      IndexOk staleJo.dialogs ∧ IndexOk staleJo.contactsNoDialogs ∧
      (DialogsListWidget.onFilterUpdate envPlain [106, 111] staleJo).filtered = [] ∧
      naiveFiltered staleJo (normalisedTokens envPlain [106, 111]) = [john] :=
  ⟨by decide, by decide, indexOk_twoDialogs, indexOk_empty, by decide, by decide⟩

/-! ### Lemmas on decoding arbitrary input -/

theorem escapeFrom7bit_short (t : QString) (h : t.length < 4) :
    _escapeFrom7bit (37 :: t) = 37 :: _escapeFrom7bit t := by
  match t, h with
  | [], _ => simp [_escapeFrom7bit]
  | [_], _ => simp [_escapeFrom7bit]
  | [_, _], _ => simp [_escapeFrom7bit]
  | [_, _, _], _ => simp [_escapeFrom7bit]
  | _ :: _ :: _ :: _ :: _, h => simp at h; omega

theorem escapeFrom7bit_length : ∀ (n : Nat) (str : QString), str.length ≤ n →
    (_escapeFrom7bit str).length ≤ str.length := by
  intro n
  induction n with
  | zero =>
    intro str h
    have : str = [] := List.length_eq_zero.mp (Nat.le_zero.mp h)
    subst this
    simp [_escapeFrom7bit]
  | succ n ih =>
    intro str h
    match str, h with
    | [], _ => simp [_escapeFrom7bit]
    | ch :: t, h =>
      have ht : t.length ≤ n := by simpa using h
      by_cases hc : ch = 37
      · subst hc
        match t, ht with
        | a :: b :: c :: d :: rest, ht =>
          rw [escapeFrom7bit_escaped]
          have hr : rest.length ≤ n := by simp at ht; omega
          have := ih rest hr
          simp only [List.length_cons]
          omega
        | [], ht => simp [_escapeFrom7bit]
        | [a], ht =>
          rw [escapeFrom7bit_short _ (by simp)]
          have := ih [a] ht
          simp only [List.length_cons] at this ⊢
          omega
        | [a, b], ht =>
          rw [escapeFrom7bit_short _ (by simp)]
          have := ih [a, b] ht
          simp only [List.length_cons] at this ⊢
          omega
        | [a, b, c], ht =>
          rw [escapeFrom7bit_short _ (by simp)]
          have := ih [a, b, c] ht
          simp only [List.length_cons] at this ⊢
          omega
      · rw [escapeFrom7bit_cons_ne ch t hc]
        have := ih t ht
        simp only [List.length_cons]
        omega

theorem drop_eq_charAt_cons (str : QString) (i : Nat) (h : i < str.length) :
    ∃ ch, charAt str i = some ch ∧ str.drop i = ch :: str.drop (i + 1) := by
  refine ⟨str.get ⟨i, h⟩, ?_, ?_⟩
  · unfold charAt
    exact List.get?_eq_get h
  · exact List.drop_eq_getElem_cons h

/-- The index loop reads inside the string only and decodes the text from `i` on. -/
theorem escapeFrom7bitLoop_eq (str : QString) : ∀ (fuel i : Nat) (result : QString),
    i ≤ str.length → str.length - i < fuel →
    escapeFrom7bitLoop str fuel i result = some (result ++ _escapeFrom7bit (str.drop i)) := by
  intro fuel
  induction fuel with
  | zero => intro i result _ h; omega
  | succ fuel ih =>
    intro i result hi hfuel
    rw [escapeFrom7bitLoop]
    by_cases hl : i = str.length
    · simp [hl, _escapeFrom7bit]
    · have hlt : i < str.length := by omega
      obtain ⟨ch, hch, hdrop⟩ := drop_eq_charAt_cons str i hlt
      simp only [hl, if_false, hch]
      by_cases hc : ch = 37 ∧ i + 4 < str.length
      · obtain ⟨a, ha, hda⟩ := drop_eq_charAt_cons str (i + 1) (by omega)
        obtain ⟨b, hb, hdb⟩ := drop_eq_charAt_cons str (i + 2) (by omega)
        obtain ⟨c, hcc, hdc⟩ := drop_eq_charAt_cons str (i + 3) (by omega)
        obtain ⟨d, hd, hdd⟩ := drop_eq_charAt_cons str (i + 4) (by omega)
        simp only [hc, and_self, if_true, ha, hb, hcc, hd]
        rw [ih (i + 4 + 1) _ (by omega) (by omega), hdrop, hda, hdb, hdc, hdd, hc.1,
          escapeFrom7bit_escaped]
        simp
      · simp only [hc, if_false]
        rw [ih (i + 1) _ (by omega) (by omega), hdrop]
        by_cases h37 : ch = 37
        · have hshort : (str.drop (i + 1)).length < 4 := by
            rw [List.length_drop]
            have : ¬ i + 4 < str.length := fun h => hc ⟨h37, h⟩
            omega
          rw [h37, escapeFrom7bit_short _ hshort]
          simp
        · rw [escapeFrom7bit_cons_ne ch _ h37]
          simp

/-- C23: decoding is total on every input.  For every string `str`, well formed or not, the
loop of `_escapeFrom7bit`, run with reads that have no value outside the string, returns, and
from every index `i ≤ l` it returns the result so far followed by the decoding of the text
from `i` on; so no read falls outside the string.  Where the loop stands on a `'%'` with
fewer than four characters after it (`i + 4 ≥ l`), the `'%'` is copied and decoding goes on
at `i + 1`; where it stands on a `'%'` with at least four characters after it, it appends the
one code unit made from `str.at(i + 1)` ... `str.at(i + 4)` and goes on at `i + 5`.  The
result is never longer than the input. -/
theorem escapeFrom7bit_total (str : QString) :
    escapeFrom7bitRun str = some (_escapeFrom7bit str) ∧
      (∀ i result, i ≤ str.length →
        escapeFrom7bitLoop str (str.length - i + 1) i result
          = some (result ++ _escapeFrom7bit (str.drop i))) ∧
      (∀ i, charAt str i = some 37 → str.length ≤ i + 4 →
        _escapeFrom7bit (str.drop i) = 37 :: _escapeFrom7bit (str.drop (i + 1))) ∧
      (∀ i, charAt str i = some 37 → i + 4 < str.length →
        ∃ a b c d, charAt str (i + 1) = some a ∧ charAt str (i + 2) = some b ∧
          charAt str (i + 3) = some c ∧ charAt str (i + 4) = some d ∧
          _escapeFrom7bit (str.drop i)
            = unescapeChar a b c d :: _escapeFrom7bit (str.drop (i + 4 + 1))) ∧
      (_escapeFrom7bit str).length ≤ str.length := by
  refine ⟨?_, ?_, ?_, ?_, escapeFrom7bit_length str.length str (Nat.le_refl _)⟩
  · unfold escapeFrom7bitRun
    rw [escapeFrom7bitLoop_eq str _ 0 [] (Nat.zero_le _) (by omega)]
    simp
  · intro i result hi
    exact escapeFrom7bitLoop_eq str _ i result hi (by omega)
  · intro i hch hl
    have hi : i < str.length := by
      unfold charAt at hch
      exact (List.get?_eq_some.mp hch).1
    obtain ⟨ch, hch2, hdrop⟩ := drop_eq_charAt_cons str i hi
    rw [hch] at hch2
    injection hch2 with hch2
    rw [hdrop, ← hch2]
    apply escapeFrom7bit_short
    rw [List.length_drop]
    omega
  · intro i hch hl
    obtain ⟨ch, hch2, hdrop⟩ := drop_eq_charAt_cons str i (by omega)
    obtain ⟨a, ha, hda⟩ := drop_eq_charAt_cons str (i + 1) (by omega)
    obtain ⟨b, hb, hdb⟩ := drop_eq_charAt_cons str (i + 2) (by omega)
    obtain ⟨c, hc, hdc⟩ := drop_eq_charAt_cons str (i + 3) (by omega)
    obtain ⟨d, hd, hdd⟩ := drop_eq_charAt_cons str (i + 4) (by omega)
    rw [hch] at hch2
    injection hch2 with hch2
    refine ⟨a, b, c, d, ha, hb, hc, hd, ?_⟩
    rw [hdrop, hda, hdb, hdc, hdd, ← hch2, escapeFrom7bit_escaped]

/-- Witness for C23: the input `%41` ends three characters after its `'%'`; the loop returns
and copies it as it is. -/
theorem escapeFrom7bit_total_witness :
    escapeFrom7bitRun [37, 52, 49] = some [37, 52, 49] :=
  (escapeFrom7bit_total [37, 52, 49]).1.trans (by decide)

/-! ### Lemmas on choosing the role -/

theorem socketError_first (env : StartEnv) (e : LocalSocketError) (s : Instance)
    (hq : s.quitting = false) (h2 : s._secondInstance = false) :
    Instance.socketError env e s =
      if env.listen = false then
        { s with log := s.log ++ [errorLine e, LogLine.listenFailed]
                 socketCloses := s.socketCloses + 1
                 listenCalls := s.listenCalls + 1
                 quits := s.quits + 1 }
      else if env.cNoStartUpdate = false ∧ env.checkReadyUpdate = true then
        { s with log := s.log ++ [errorLine e]
                 socketCloses := s.socketCloses + 1
                 listenCalls := s.listenCalls + 1
                 listening := true
                 cRestartingUpdate := true
                 quits := s.quits + 1 }
      else
        { s with log := s.log ++ [errorLine e]
                 socketCloses := s.socketCloses + 1
                 listenCalls := s.listenCalls + 1
                 listening := true
                 instanceChecked := s.instanceChecked + 1 } := by
  unfold Instance.socketError errorLine
  cases hl : env.listen <;> cases hn : env.cNoStartUpdate <;> cases hu : env.checkReadyUpdate <;>
    by_cases he : e = LocalSocketError.ServerNotFoundError <;>
    simp [hq, h2, he]

/-- C21 (as amended): what `socketError` does depends on whether the instance has connected,
not on the error.  While the application is quitting it does nothing.  After
`socketConnected` (a second instance) every error makes it quit, and it neither closes the
socket nor calls `listen`.  Before that, every error, `ServerNotFoundError` or another,
makes it close the socket and call `listen` once, and only the log line differs between the
errors; when `listen` succeeds the server is listening, and the application is started
unless a ready update is installed instead, which quits; when `listen` fails it quits
without starting. -/
theorem socket_error_role (env : StartEnv) (e : LocalSocketError) (s : Instance) :
    (s.quitting = true → Instance.socketError env e s = s) ∧
      (s.quitting = false → s._secondInstance = true →
        Instance.socketError env e s
          = { s with log := s.log ++ [LogLine.couldNotWrite e], quits := s.quits + 1 }) ∧
      (s.quitting = false → s._secondInstance = false →
        (Instance.socketError env e s).socketCloses = s.socketCloses + 1 ∧
        (Instance.socketError env e s).listenCalls = s.listenCalls + 1 ∧
        { Instance.socketError env e s with log := [] }
          = { Instance.socketError env LocalSocketError.ServerNotFoundError s with log := [] } ∧
        (env.listen = true →
          (Instance.socketError env e s).listening = true ∧
          (Instance.socketError env e s).log = s.log ++ [errorLine e] ∧
          (env.cNoStartUpdate = false ∧ env.checkReadyUpdate = true →
            (Instance.socketError env e s).quits = s.quits + 1 ∧
            (Instance.socketError env e s).instanceChecked = s.instanceChecked) ∧
          (¬ (env.cNoStartUpdate = false ∧ env.checkReadyUpdate = true) →
            (Instance.socketError env e s).quits = s.quits ∧
            (Instance.socketError env e s).instanceChecked = s.instanceChecked + 1)) ∧
        (env.listen = false →
          (Instance.socketError env e s).listening = s.listening ∧
          (Instance.socketError env e s).log
            = s.log ++ [errorLine e, LogLine.listenFailed] ∧
          (Instance.socketError env e s).quits = s.quits + 1 ∧
          (Instance.socketError env e s).instanceChecked = s.instanceChecked)) := by
  refine ⟨fun hq => ?_, fun hq h2 => ?_, fun hq h2 => ?_⟩
  · unfold Instance.socketError
    simp [hq]
  · unfold Instance.socketError
    simp [hq, h2]
  · rw [socketError_first env e s hq h2,
      socketError_first env LocalSocketError.ServerNotFoundError s hq h2]
    cases hl : env.listen
    · simp
    · by_cases hu : env.cNoStartUpdate = false ∧ env.checkReadyUpdate = true
      · simp [hu]
      · simp [hu]

/-- Witness for C21 as amended: the first instance finds no server, `listen` succeeds and no
update is waiting; it closes the socket, listens and starts the application. -/
theorem socket_error_role_witness :
    Instance.socketError envListen LocalSocketError.ServerNotFoundError Instance.init
      = { Instance.init with log := [LogLine.onlyInstance], socketCloses := 1,
                             listenCalls := 1, listening := true, instanceChecked := 1 } ∧
    (Instance.socketError envListen LocalSocketError.ServerNotFoundError
        Instance.init).listening = true :=
  ⟨by decide,
    ((socket_error_role envListen LocalSocketError.ServerNotFoundError Instance.init).2.2
      rfl rfl).2.2.2.1 rfl |>.1⟩

/-- C21 as stated fails: the connection is refused (`ConnectionRefusedError`, not
`ServerNotFoundError`) before the instance has connected; `listen` succeeds and no update is
waiting.  `socketError` does not quit: it closes the socket, starts listening and starts the
application, exactly as for `ServerNotFoundError` but for the log line. -/
theorem other_error_starts_listening :
    Instance.socketError envListen LocalSocketError.ConnectionRefusedError Instance.init
      = { Instance.init with
            log := [LogLine.connectError LocalSocketError.ConnectionRefusedError],
            socketCloses := 1, listenCalls := 1, listening := true, instanceChecked := 1 } ∧
    (Instance.socketError envListen LocalSocketError.ConnectionRefusedError
        Instance.init).quits = 0 ∧
    (Instance.socketError envListen LocalSocketError.ConnectionRefusedError
        Instance.init).listening = true := by
  decide

/-! ### Lemmas on the neighbours of a peer -/

theorem constFind_none (p : Nat) : ∀ l : List DialogRow, constFind l p = none →
    ∀ r ∈ l, r.peer ≠ p := by
  intro l
  induction l with
  | nil => intro _ r hr; cases hr
  | cons row rest ih =>
    intro h r hr
    rw [constFind] at h
    by_cases hp : row.peer = p
    · simp [hp] at h
    · simp only [hp, if_false, Option.map_eq_none'] at h
      rcases List.mem_cons.mp hr with e | hm
      · rw [e]; exact hp
      · exact ih h r hm

theorem constFind_some (p : Nat) : ∀ (l : List DialogRow) (pos : Nat),
    constFind l p = some pos →
    ∃ pre row post, l = pre ++ row :: post ∧ pre.length = pos ∧ row.peer = p ∧
      ∀ r ∈ pre, r.peer ≠ p := by
  intro l
  induction l with
  | nil => intro pos h; cases h
  | cons row rest ih =>
    intro pos h
    rw [constFind] at h
    by_cases hp : row.peer = p
    · simp only [hp, if_true, Option.some.injEq] at h
      exact ⟨[], row, rest, rfl, h, hp, (fun r hr => by cases hr)⟩
    · simp only [hp, if_false, Option.map_eq_some'] at h
      obtain ⟨pos', hf, hpos⟩ := h
      obtain ⟨pre, row', post, hl, hlen, hrow, hpre⟩ := ih pos' hf
      refine ⟨row :: pre, row', post, (by rw [hl]; rfl), (by simp [hlen, hpos]), hrow, ?_⟩
      intro r hr
      rcases List.mem_cons.mp hr with e | hm
      · rw [e]; exact hp
      · exact hpre r hm

theorem rowNext_at (row : DialogRow) (post : List DialogRow) : ∀ pre : List DialogRow,
    rowNext (pre ++ row :: post) pre.length = post.head? := by
  intro pre
  induction pre with
  | nil => cases post <;> simp [rowNext]
  | cons a pre ih =>
    unfold rowNext at ih ⊢
    simpa using ih

theorem get_before_last (row : DialogRow) (post : List DialogRow) :
    ∀ (pre : List DialogRow) (a : DialogRow),
    (a :: pre ++ row :: post).get? pre.length = (a :: pre).getLast? := by
  intro pre
  induction pre with
  | nil => intro a; simp
  | cons b pre ih =>
    intro a
    have := ih b
    simp only [List.cons_append, List.length_cons, List.get?_cons_succ,
      List.getLast?_cons_cons] at this ⊢
    exact this

theorem rowPrev_at (row : DialogRow) (post : List DialogRow) (pre : List DialogRow) :
    rowPrev (pre ++ row :: post) pre.length = pre.getLast? := by
  cases pre with
  | nil => simp [rowPrev]
  | cons a pre =>
    unfold rowPrev
    simp only [List.length_cons, Nat.add_one_ne_zero, if_false, Nat.add_sub_cancel]
    exact get_before_last row post pre a

theorem afterLoop_first (p : Nat) (row : DialogRow) (post : List DialogRow)
    (hrow : row.peer = p) : ∀ pre : List DialogRow, (∀ r ∈ pre, r.peer ≠ p) →
    afterLoop p (pre ++ row :: post) = post.head?.map DialogRow.peer := by
  intro pre
  induction pre with
  | nil =>
    intro _
    cases post <;> simp [afterLoop, hrow]
  | cons a pre ih =>
    intro h
    have ha : a.peer ≠ p := h a (List.mem_cons_self _ _)
    have := ih (fun r hr => h r (List.mem_cons_of_mem _ hr))
    simp only [List.cons_append, afterLoop, ha, if_false]
    exact this

theorem afterLoop_absent (p : Nat) : ∀ l : List DialogRow, (∀ r ∈ l, r.peer ≠ p) →
    afterLoop p l = none := by
  intro l
  induction l with
  | nil => intro _; rfl
  | cons a l ih =>
    intro h
    have ha : a.peer ≠ p := h a (List.mem_cons_self _ _)
    simp only [afterLoop, ha, if_false]
    exact ih (fun r hr => h r (List.mem_cons_of_mem _ hr))

theorem beforeLoop_first (p : Nat) (row : DialogRow) (post : List DialogRow)
    (hrow : row.peer = p) : ∀ (pre : List DialogRow) (j : DialogRow),
    (∀ r ∈ pre, r.peer ≠ p) →
    beforeLoop p j (pre ++ row :: post) = (j :: pre).getLast?.map DialogRow.peer := by
  intro pre
  induction pre with
  | nil =>
    intro j _
    simp [beforeLoop, hrow]
  | cons a pre ih =>
    intro j h
    have ha : a.peer ≠ p := h a (List.mem_cons_self _ _)
    have := ih a (fun r hr => h r (List.mem_cons_of_mem _ hr))
    simp only [List.cons_append, beforeLoop, ha, if_false, List.getLast?_cons_cons]
    exact this

theorem beforeLoop_absent (p : Nat) : ∀ (l : List DialogRow) (j : DialogRow),
    (∀ r ∈ l, r.peer ≠ p) → beforeLoop p j l = none := by
  intro l
  induction l with
  | nil => intro _ _; rfl
  | cons a l ih =>
    intro j h
    have ha : a.peer ≠ p := h a (List.mem_cons_self _ _)
    simp only [beforeLoop, ha, if_false]
    exact ih a (fun r hr => h r (List.mem_cons_of_mem _ hr))

theorem beforeIn_first (p : Nat) (row : DialogRow) (post : List DialogRow)
    (hrow : row.peer = p) (pre : List DialogRow) (h : ∀ r ∈ pre, r.peer ≠ p) :
    beforeIn p (pre ++ row :: post) = pre.getLast?.map DialogRow.peer := by
  cases pre with
  | nil => simp [beforeIn, hrow]
  | cons a pre =>
    have ha : a.peer ≠ p := h a (List.mem_cons_self _ _)
    simp only [List.cons_append, beforeIn, ha, if_false]
    exact beforeLoop_first p row post hrow pre a (fun r hr => h r (List.mem_cons_of_mem _ hr))

theorem beforeIn_absent (p : Nat) (l : List DialogRow) (h : ∀ r ∈ l, r.peer ≠ p) :
    beforeIn p l = none := by
  cases l with
  | nil => rfl
  | cons a l =>
    have ha : a.peer ≠ p := h a (List.mem_cons_self _ _)
    simp only [beforeIn, ha, if_false]
    exact beforeLoop_absent p l a (fun r hr => h r (List.mem_cons_of_mem _ hr))

/-- In both modes `peerAfter` is the walk along the shown sequence. -/
theorem peerAfter_shown (w : DialogsListWidget) (p : Nat) :
    DialogsListWidget.peerAfter w p = afterLoop p (shown w) := by
  unfold DialogsListWidget.peerAfter shown
  by_cases hf : w.filter.isEmpty = true
  · simp only [hf, Bool.not_true, Bool.false_eq_true, if_false]
    cases hd : constFind w.dialogs.list p with
    | none =>
      have hnd := constFind_none p _ hd
      cases hc : constFind w.contactsNoDialogs.list p with
      | none =>
        have hnc := constFind_none p _ hc
        symm
        apply afterLoop_absent
        intro r hr
        rcases List.mem_append.mp hr with h | h
        · exact hnd r h
        · exact hnc r h
      | some pos =>
        obtain ⟨pre, row, post, hl, hlen, hrow, hpre⟩ := constFind_some p _ pos hc
        have hnext : rowNext w.contactsNoDialogs.list pos = post.head? := by
          rw [hl, ← hlen]; exact rowNext_at row post pre
        have hwalk : afterLoop p (w.dialogs.list ++ w.contactsNoDialogs.list)
            = post.head?.map DialogRow.peer := by
          rw [hl, ← List.append_assoc]
          apply afterLoop_first p row post hrow
          intro r hr
          rcases List.mem_append.mp hr with h | h
          · exact hnd r h
          · exact hpre r h
        rw [hwalk]
        simp only [hnext]
        cases post <;> rfl
    | some pos =>
      obtain ⟨pre, row, post, hl, hlen, hrow, hpre⟩ := constFind_some p _ pos hd
      have hnext : rowNext w.dialogs.list pos = post.head? := by
        rw [hl, ← hlen]; exact rowNext_at row post pre
      have hwalk : afterLoop p (w.dialogs.list ++ w.contactsNoDialogs.list)
          = (post ++ w.contactsNoDialogs.list).head?.map DialogRow.peer := by
        rw [hl, List.append_assoc, List.cons_append]
        exact afterLoop_first p row _ hrow pre hpre
      rw [hwalk]
      simp only [hnext]
      cases post with
      | nil =>
        cases hcl : w.contactsNoDialogs.list with
        | nil => simp
        | cons c cs => simp
      | cons n ns => rfl
  · simp [hf]

/-- In both modes `peerBefore` is the walk along the shown sequence. -/
theorem peerBefore_shown (w : DialogsListWidget) (p : Nat) :
    DialogsListWidget.peerBefore w p = beforeIn p (shown w) := by
  unfold DialogsListWidget.peerBefore shown
  by_cases hf : w.filter.isEmpty = true
  · simp only [hf, Bool.not_true, Bool.false_eq_true, if_false]
    cases hd : constFind w.dialogs.list p with
    | none =>
      have hnd := constFind_none p _ hd
      cases hc : constFind w.contactsNoDialogs.list p with
      | none =>
        have hnc := constFind_none p _ hc
        symm
        apply beforeIn_absent
        intro r hr
        rcases List.mem_append.mp hr with h | h
        · exact hnd r h
        · exact hnc r h
      | some pos =>
        obtain ⟨pre, row, post, hl, hlen, hrow, hpre⟩ := constFind_some p _ pos hc
        have hprev : rowPrev w.contactsNoDialogs.list pos = pre.getLast? := by
          rw [hl, ← hlen]; exact rowPrev_at row post pre
        have hwalk : beforeIn p (w.dialogs.list ++ w.contactsNoDialogs.list)
            = (w.dialogs.list ++ pre).getLast?.map DialogRow.peer := by
          rw [hl, ← List.append_assoc]
          apply beforeIn_first p row post hrow
          intro r hr
          rcases List.mem_append.mp hr with h | h
          · exact hnd r h
          · exact hpre r h
        rw [hwalk]
        simp only [hprev]
        rcases List.eq_nil_or_concat pre with hn | ⟨init, last, hcat⟩
        · subst hn
          cases hdl : w.dialogs.list with
          | nil => simp
          | cons d ds => simp
        · rw [List.concat_eq_append] at hcat
          subst hcat
          simp [← List.append_assoc]
    | some pos =>
      obtain ⟨pre, row, post, hl, hlen, hrow, hpre⟩ := constFind_some p _ pos hd
      have hprev : rowPrev w.dialogs.list pos = pre.getLast? := by
        rw [hl, ← hlen]; exact rowPrev_at row post pre
      have hwalk : beforeIn p (w.dialogs.list ++ w.contactsNoDialogs.list)
          = pre.getLast?.map DialogRow.peer := by
        rw [hl, List.append_assoc, List.cons_append]
        exact beforeIn_first p row _ hrow pre hpre
      rw [hwalk]
      simp only [hprev]
      cases pre.getLast? <;> rfl
  · have hne : (!w.filter.isEmpty) = true := by simp [hf]
    simp only [hne, if_true]
    cases w.filtered <;> rfl

theorem split_at_get (s : List DialogRow) (k : Nat) (row : DialogRow)
    (h : s.get? k = some row) : s = s.take k ++ row :: s.drop (k + 1) := by
  obtain ⟨hk, hrow⟩ := List.get?_eq_some.mp h
  have h1 : s.drop k = row :: s.drop (k + 1) := by
    rw [List.drop_eq_getElem_cons hk]
    congr 1
  conv_lhs => rw [← List.take_append_drop k s, h1]

theorem nodup_before (s pre post : List DialogRow) (row : DialogRow)
    (hs : s = pre ++ row :: post) (hd : (s.map DialogRow.peer).Nodup) :
    ∀ r ∈ pre, r.peer ≠ row.peer := by
  intro r hr he
  rw [hs, List.map_append, List.map_cons] at hd
  have hdis := (List.nodup_append.mp hd).2.2
  exact hdis (List.mem_map_of_mem DialogRow.peer hr) (by rw [he]; exact List.mem_cons_self _ _)

theorem head_drop_succ (s : List DialogRow) (k : Nat) :
    (s.drop (k + 1)).head? = s.get? (k + 1) := by
  induction s generalizing k with
  | nil => simp
  | cons a s ih =>
    cases k with
    | zero => cases s <;> simp
    | succ k =>
      have := ih k
      simp only [List.drop_succ_cons, List.get?_cons_succ]
      exact this

theorem getLast_take (s : List DialogRow) (k : Nat) (hk : k < s.length) :
    (s.take k).getLast? = if k = 0 then none else s.get? (k - 1) := by
  induction s generalizing k with
  | nil => simp at hk
  | cons a s ih =>
    cases k with
    | zero => simp
    | succ k =>
      have hk2 : k < s.length := by simpa using hk
      have := ih k hk2
      cases k with
      | zero => simp
      | succ k =>
        simp only [Nat.add_one_ne_zero, if_false, Nat.add_sub_cancel] at this
        cases s with
        | nil => simp at hk2
        | cons b s =>
          simp only [List.take_succ_cons, List.getLast?_cons_cons, Nat.add_one_ne_zero,
            if_false, Nat.add_sub_cancel, List.get?_cons_succ]
          simp only [List.take_succ_cons] at this
          exact this

/-- Along a sequence of rows with distinct peers, the walks find the neighbours by
position. -/
theorem walks_at (s : List DialogRow) (hd : (s.map DialogRow.peer).Nodup) (k : Nat)
    (row : DialogRow) (h : s.get? k = some row) :
    afterLoop row.peer s = (s.get? (k + 1)).map DialogRow.peer ∧
      beforeIn row.peer s = if k = 0 then none else (s.get? (k - 1)).map DialogRow.peer := by
  have hs := split_at_get s k row h
  have hpre := nodup_before s _ _ row hs hd
  have hk := (List.get?_eq_some.mp h).1
  constructor
  · conv_lhs => rw [hs]
    rw [afterLoop_first row.peer row _ rfl _ hpre, head_drop_succ]
  · conv_lhs => rw [hs]
    rw [beforeIn_first row.peer row _ rfl _ hpre, getLast_take s k hk]
    by_cases h0 : k = 0 <;> simp [h0]

/-- C22: `peerBefore` and `peerAfter` are mutually inverse neighbours over the shown
sequence, the filtered rows when a filter is set and otherwise the dialogs rows followed by
the contacts-without-dialogs rows, when all its peers are distinct.  For the row at position
`k`, `peerAfter` gives the peer of the row at `k + 1`, across the end of the dialogs into the
contacts, and none at the end; `peerBefore` gives the peer of the row at `k - 1`, and none
at the start; for a peer that is not shown both give none.  Hence
`peerBefore(peerAfter(p)) = p` whenever `peerAfter(p)` exists and
`peerAfter(peerBefore(p)) = p` whenever `peerBefore(p)` exists. -/
theorem peer_neighbours (w : DialogsListWidget) (hd : (shownPeers w).Nodup) :
    (∀ k row, (shown w).get? k = some row →
      DialogsListWidget.peerAfter w row.peer
          = ((shown w).get? (k + 1)).map DialogRow.peer ∧
        DialogsListWidget.peerBefore w row.peer
          = if k = 0 then none else ((shown w).get? (k - 1)).map DialogRow.peer) ∧
      (∀ p, p ∉ shownPeers w →
        DialogsListWidget.peerAfter w p = none ∧ DialogsListWidget.peerBefore w p = none) ∧
      (∀ p q, DialogsListWidget.peerAfter w p = some q →
        DialogsListWidget.peerBefore w q = some p) ∧
      (∀ p q, DialogsListWidget.peerBefore w p = some q →
        DialogsListWidget.peerAfter w q = some p) := by
  have hpos : ∀ k row, (shown w).get? k = some row →
      DialogsListWidget.peerAfter w row.peer
          = ((shown w).get? (k + 1)).map DialogRow.peer ∧
        DialogsListWidget.peerBefore w row.peer
          = if k = 0 then none else ((shown w).get? (k - 1)).map DialogRow.peer := by
    intro k row h
    rw [peerAfter_shown, peerBefore_shown]
    exact walks_at (shown w) hd k row h
  have habsent : ∀ p, p ∉ shownPeers w →
      DialogsListWidget.peerAfter w p = none ∧ DialogsListWidget.peerBefore w p = none := by
    intro p hp
    have hno : ∀ r ∈ shown w, r.peer ≠ p :=
      fun r hr he => hp (List.mem_map.mpr ⟨r, hr, he⟩)
    rw [peerAfter_shown, peerBefore_shown]
    exact ⟨afterLoop_absent p _ hno, beforeIn_absent p _ hno⟩
  have hfind : ∀ p, p ∈ shownPeers w → ∃ k row, (shown w).get? k = some row ∧ row.peer = p := by
    intro p hp
    obtain ⟨row, hrow, he⟩ := List.mem_map.mp hp
    obtain ⟨k, hk⟩ := List.mem_iff_get?.mp hrow
    exact ⟨k, row, hk, he⟩
  refine ⟨hpos, habsent, ?_, ?_⟩
  · intro p q h
    by_cases hp : p ∈ shownPeers w
    · obtain ⟨k, row, hk, he⟩ := hfind p hp
      subst he
      rw [(hpos k row hk).1] at h
      obtain ⟨next, hnext, hq⟩ := Option.map_eq_some'.mp h
      subst hq
      rw [(hpos (k + 1) next hnext).2]
      simp only [Nat.add_one_ne_zero, if_false, Nat.add_sub_cancel]
      rw [hk]
      rfl
    · rw [(habsent p hp).1] at h
      cases h
  · intro p q h
    by_cases hp : p ∈ shownPeers w
    · obtain ⟨k, row, hk, he⟩ := hfind p hp
      subst he
      rw [(hpos k row hk).2] at h
      by_cases h0 : k = 0
      · simp [h0] at h
      · simp only [h0, if_false] at h
        obtain ⟨prev, hprev, hq⟩ := Option.map_eq_some'.mp h
        subst hq
        rw [(hpos (k - 1) prev hprev).1]
        have : k - 1 + 1 = k := by omega
        rw [this, hk]
        rfl
    · rw [(habsent p hp).2] at h
      cases h

/-- Witness for C22: with the dialogs `john` and `alex`, the contact `bob` and no filter,
the peer after `alex`, the last dialog, is `bob`, the first contact, and the peer before
`bob` is `alex`. -/
theorem peer_neighbours_witness :
    (shownPeers withContact).Nodup ∧
      DialogsListWidget.peerAfter withContact alex.peer = some bob.peer ∧
      DialogsListWidget.peerBefore withContact bob.peer = some alex.peer :=
  ⟨by decide,
    ((peer_neighbours withContact (by decide)).1 1 alex rfl).1.trans rfl,
    (peer_neighbours withContact (by decide)).2.2.1 alex.peer bob.peer (by decide)⟩

/-! ### Lemmas on the list inside `DialogsWidget` -/

theorem triggered_refl (env : Env) (a : DialogsWidget) : Triggered env a a :=
  ⟨rfl, rfl, rfl, [], by simp, (fun r hr => by cases hr), (fun _ => rfl), (fun _ => rfl),
    (fun _ => ⟨by simp, fun h => absurd rfl h⟩), Or.inl ⟨rfl, rfl⟩⟩

theorem triggered_trans (env : Env) (a b c : DialogsWidget) (h1 : Triggered env a b)
    (h2 : Triggered env b c) : Triggered env a c := by
  obtain ⟨o1, c1, r1, n1, s1, p1, f1, t1, k1, g1⟩ := h1
  obtain ⟨o2, c2, r2, n2, s2, p2, f2, t2, k2, g2⟩ := h2
  have hreq : pageRequest env b = pageRequest env a := by
    unfold pageRequest loadCount
    rw [o1]
  have htb : terminal a → terminal b := by
    intro h
    unfold terminal at h ⊢
    rw [o1, c1]
    exact h
  have hta : terminal b → terminal a := by
    intro h
    unfold terminal at h ⊢
    rw [o1, c1] at h
    exact h
  refine ⟨o2.trans o1, c2.trans c1, r2.trans r1, n1 ++ n2, ?_, ?_, ?_, ?_, ?_, ?_⟩
  · rw [s2, s1, List.append_assoc]
  · intro r hr
    rcases List.mem_append.mp hr with h | h
    · exact p1 r h
    · rw [p2 r h, hreq]
  · intro h
    have hb := f1 h
    subst hb
    exact f2 h
  · intro h
    rw [t1 h, t2 (htb h)]
    rfl
  · intro hid
    obtain ⟨l1, m1⟩ := k1 hid
    obtain ⟨l2, m2⟩ := k2 hid
    by_cases hn : n1 = []
    · subst hn
      simp only [List.nil_append]
      exact ⟨l2, m2⟩
    · have hb := m1 hn
      have hcb := f2 hb
      have hn2 : n2 = [] := by
        rw [hcb] at s2
        exact List.append_right_eq_self.mp s2.symm
      subst hn2
      rw [hcb]
      simp only [List.append_nil]
      exact ⟨l1, fun _ => hb⟩
  · rcases g1 with ⟨e1, e2⟩ | ⟨x1, x2, x3, x4, x5⟩
    · rcases g2 with ⟨e3, e4⟩ | ⟨y1, y2, y3, y4, y5⟩
      · exact Or.inl ⟨e3.trans e1, e4.trans e2⟩
      · right
        have ha0 : a.dlgPreloading = 0 := by
          by_cases h : a.dlgPreloading = 0
          · exact h
          · rw [f1 h] at y2
            exact y2
        exact ⟨hta y1, ha0, by rw [← e2]; exact y3, by rw [y4, e1], y5⟩
    · rcases g2 with ⟨e3, e4⟩ | ⟨_, _, y3, _, _⟩
      · exact Or.inr ⟨x1, x2, x3, by rw [e3, x4], by rw [e4, x5]⟩
      · rw [x5] at y3
        cases y3

theorem triggered_loadDialogs (env : Env) (a : DialogsWidget) :
    Triggered env a (loadDialogs env a) := by
  by_cases hp : a.dlgPreloading = 0
  · by_cases ht : terminal a
    · rw [loadDialogs_terminal env a hp ht]
      unfold loadConfig
      by_cases hc : a._configLoaded = true
      · simp only [hc, Bool.not_true, Bool.false_eq_true, if_false]
        exact triggered_refl env a
      · simp only [hc, Bool.not_false, if_true]
        exact ⟨rfl, rfl, rfl, [], by simp, (fun r hr => by cases hr),
          (fun h => absurd hp h), (fun _ => rfl),
          (fun _ => ⟨by simp, fun h => absurd rfl h⟩),
          Or.inr ⟨ht, hp, by simpa using hc, rfl, rfl⟩⟩
    · rw [loadDialogs_send env a hp ht]
      refine ⟨rfl, rfl, rfl, [pageRequest env a], rfl, ?_, (fun h => absurd hp h),
        (fun h => absurd h ht), ?_, Or.inl ⟨rfl, rfl⟩⟩
      · intro r hr
        exact List.mem_singleton.mp hr
      · intro hid
        exact ⟨by simp, fun _ => hid _⟩
  · rw [loadDialogs_inflight env a hp]
    exact triggered_refl env a

theorem triggered_onListScroll (env : Env) (nearEnd : Bool) (a : DialogsWidget) :
    Triggered env a (onListScroll env nearEnd a) := by
  unfold onListScroll
  cases nearEnd
  · exact triggered_refl env a
  · exact triggered_loadDialogs env a

theorem quiet_refl (a : DialogsListWidget) : Quiet a a :=
  ⟨rfl, rfl, rfl, rfl, rfl, [], by simp, fun p hp => by cases hp⟩

theorem quiet_trans (a b c : DialogsListWidget) (h1 : Quiet a b) (h2 : Quiet b c) :
    Quiet a c := by
  obtain ⟨d1, n1, c1, f1, g1, new1, e1, p1⟩ := h1
  obtain ⟨d2, n2, c2, f2, g2, new2, e2, p2⟩ := h2
  refine ⟨d2.trans d1, n2.trans n1, c2.trans c1, f2.trans f1, g2.trans g1, new1 ++ new2,
    ?_, ?_⟩
  · rw [e2, e1, List.append_assoc]
  · intro peer hp
    rcases List.mem_append.mp hp with h | h
    · exact p1 peer h
    · have := p2 peer h
      rw [g1, d1, n1] at this
      exact this

theorem quiet_effects (a : DialogsListWidget) (new : List Effect)
    (h : ∀ peer, Effect.photoLoad peer ∈ new →
      ∃ row ∈ a.filtered ++ a.dialogs.list ++ a.contactsNoDialogs.list, row.peer = peer) :
    Quiet a { a with effects := a.effects ++ new } :=
  ⟨rfl, rfl, rfl, rfl, rfl, new, rfl, h⟩

theorem quiet_loadPeerPhotos (env : FilterEnv) (yFrom : Int) (a : DialogsListWidget) :
    Quiet a (DialogsListWidget.loadPeerPhotos env yFrom a) := by
  unfold DialogsListWidget.loadPeerPhotos
  rw [List.append_assoc]
  apply quiet_effects
  intro peer hp
  rcases List.mem_append.mp hp with h | h
  · simp at h
  · obtain ⟨row, hr, he⟩ := peerPhotoLoads_mem env yFrom a _ h
    exact ⟨row, hr, by injection he with he; exact he.symm⟩

theorem quiet_onUpdateSelected (env : FilterEnv) (senv : ScrollEnv) (mouse : Option Int)
    (a : DialogsListWidget) :
    Quiet a (DialogsListWidget.onUpdateSelected env senv mouse a) := by
  have hq : ∀ b : DialogsListWidget, b.dialogs = a.dialogs →
      b.contactsNoDialogs = a.contactsNoDialogs → b.contacts = a.contacts →
      b.filter = a.filter → b.filtered = a.filtered →
      (b.effects = a.effects ∨ b.effects = a.effects ++ [Effect.parentUpdate]) → Quiet a b := by
    intro b h1 h2 h3 h4 h5 h6
    rcases h6 with h | h
    · exact ⟨h1, h2, h3, h4, h5, [], by simp [h], fun p hp => by cases hp⟩
    · exact ⟨h1, h2, h3, h4, h5, [Effect.parentUpdate], h, fun p hp => by simp at hp⟩
  unfold DialogsListWidget.onUpdateSelected
  cases mouse with
  | none => exact quiet_refl a
  | some mouseY =>
    dsimp only
    repeat' split
    all_goals
      first
        | exact quiet_refl a
        | exact hq _ rfl rfl rfl rfl rfl (Or.inr rfl)

theorem quiet_setMouseSel (msel toTop : Bool) (a : DialogsListWidget) :
    Quiet a (DialogsListWidget.setMouseSel msel toTop a) := by
  obtain ⟨h1, h2, h3, h4, h5, h6⟩ := setMouseSel_fields msel toTop a
  exact ⟨h4, h5, h6, h1, h2, [], by simp [h3], fun p hp => by cases hp⟩

theorem calm_refl (env : Env) (senv : ScrollEnv) (p : Wired) : Calm env senv p p :=
  ⟨triggered_refl env _, quiet_refl _, fun _ => rfl⟩

theorem calm_trans (env : Env) (senv : ScrollEnv) (p q r : Wired) (h1 : Calm env senv p q)
    (h2 : Calm env senv q r) : Calm env senv p r :=
  ⟨triggered_trans env _ _ _ h1.1 h2.1, quiet_trans _ _ _ h1.2.1 h2.2.1,
    fun hs => (h2.2.2 hs).trans (h1.2.2 hs)⟩

theorem calm_log (env : Env) (senv : ScrollEnv) (e : Effect) (p : Wired)
    (he : ∀ peer, e ≠ Effect.photoLoad peer) : Calm env senv p (Wired.log e p) :=
  ⟨triggered_refl env _,
    quiet_effects p.list [e] (fun peer hp => absurd (List.mem_singleton.mp hp).symm (he peer)),
    fun _ => rfl⟩

theorem calm_loadPeerPhotos (env : Env) (fenv : FilterEnv) (senv : ScrollEnv) (yFrom : Int)
    (p : Wired) : Calm env senv p (Wired.loadPeerPhotos fenv yFrom p) :=
  ⟨triggered_refl env _, quiet_loadPeerPhotos fenv yFrom p.list, fun _ => rfl⟩

theorem wired_scrolled (env : Env) (fenv : FilterEnv) (senv : ScrollEnv) (p : Wired) :
    Triggered env p.widget (Wired.scrolled env fenv senv p).widget ∧
      Quiet p.list (Wired.scrolled env fenv senv p).list :=
  ⟨triggered_onListScroll env _ p.widget,
    quiet_trans _ _ _ (quiet_onUpdateSelected fenv senv _ p.list)
      (quiet_loadPeerPhotos fenv p.scrollTop _)⟩

theorem calm_moved (env : Env) (fenv : FilterEnv) (senv : ScrollEnv) (move : Int × Bool)
    (p : Wired) (hm : Silent senv → move.2 = false) :
    Calm env senv p (Wired.moved env fenv senv move p) := by
  unfold Wired.moved
  by_cases h : move.2 = true
  · rw [if_pos h]
    obtain ⟨h1, h2⟩ := wired_scrolled env fenv senv { p with scrollTop := move.1 }
    refine ⟨h1, h2, fun hs => ?_⟩
    rw [hm hs] at h
    cases h
  · rw [if_neg h]
    exact ⟨triggered_refl env _, quiet_refl _, fun _ => rfl⟩

theorem calm_resized (env : Env) (fenv : FilterEnv) (senv : ScrollEnv) (height : Int)
    (p : Wired) : Calm env senv p (Wired.resized env fenv senv height p) :=
  calm_moved env fenv senv _ p (fun hs => hs.2 _ _)

theorem calm_scrollToY (env : Env) (fenv : FilterEnv) (senv : ScrollEnv)
    (toTop toBottom : Int) (p : Wired) :
    Calm env senv p (Wired.scrollToY env fenv senv toTop toBottom p) :=
  calm_moved env fenv senv _ p (fun hs => hs.1 _ _ _)

theorem calm_refresh (env : Env) (fenv : FilterEnv) (senv : ScrollEnv) (toTop : Bool)
    (p : Wired) : Calm env senv p (Wired.refresh env fenv senv toTop p) := by
  unfold Wired.refresh
  dsimp only
  cases toTop with
  | false =>
    simp only [Bool.false_eq_true, if_false]
    exact calm_trans env senv _ _ _
      (calm_trans env senv _ _ _ (calm_log env senv _ p (fun _ h => by cases h))
        (calm_resized env fenv senv _ _))
      (calm_log env senv _ _ (fun _ h => by cases h))
  | true =>
    simp only [if_true]
    exact calm_trans env senv _ _ _
      (calm_trans env senv _ _ _
        (calm_trans env senv _ _ _
          (calm_trans env senv _ _ _
            (calm_trans env senv _ _ _ (calm_log env senv _ p (fun _ h => by cases h))
              (calm_resized env fenv senv _ _))
            (calm_log env senv _ _ (fun _ h => by cases h)))
          (calm_scrollToY env fenv senv 0 0 _))
        (calm_loadPeerPhotos env fenv senv 0 _))
      (calm_log env senv _ _ (fun _ h => by cases h))

theorem wired_onFilterUpdate (env : Env) (fenv : FilterEnv) (senv : ScrollEnv)
    (text : QString) (p : Wired) (h : foldedFilter fenv text ≠ p.list.filter) :
    Triggered env p.widget (Wired.onFilterUpdate env fenv senv text p).widget ∧
      Quiet (filterCore fenv text p.list) (Wired.onFilterUpdate env fenv senv text p).list ∧
      (Silent senv → (Wired.onFilterUpdate env fenv senv text p).widget = p.widget) := by
  unfold Wired.onFilterUpdate
  simp only [ne_eq, h, not_false_eq_true, if_true]
  obtain ⟨t, q, n⟩ := calm_refresh env fenv senv true
    { p with list := filterCore fenv text p.list }
  exact ⟨t, quiet_trans _ _ _ q (quiet_setMouseSel false true _), n⟩

/-- C16 (as amended): for every filter text and every state, what `onFilterUpdate` does
itself, with the refresh it performs, reads only rows already in memory: it renews the
filter and the filtered sequence as the list widget on its own would, leaves the lists as
they are, and every photo it asks to load belongs to a row it holds.  It sends no contacts
request and, itself, no page request.  But `refresh(true)` resizes the list and emits
`mustScrollTo(0, 0)`, and when the scroll area answers with `scrolled()` the slot
`onListScroll` runs `loadDialogs`: the cursor is only triggered, so every request sent is
the dialogs page request for the current offset, none is sent while a dialogs request is in
flight or when the cursor is terminal, and at most one when request ids are not zero.  When
the scroll area emits no `scrolled()` the cursor is untouched, and when the folded text is
the stored filter nothing happens at all. -/
theorem filter_update_requests (env : Env) (fenv : FilterEnv) (senv : ScrollEnv)
    (text : QString) (p : Wired) :
    (foldedFilter fenv text = p.list.filter →
        Wired.onFilterUpdate env fenv senv text p = p) ∧
      Triggered env p.widget (Wired.onFilterUpdate env fenv senv text p).widget ∧
      (Silent senv → (Wired.onFilterUpdate env fenv senv text p).widget = p.widget) ∧
      (Wired.onFilterUpdate env fenv senv text p).list.filter
        = (DialogsListWidget.onFilterUpdate fenv text p.list).filter ∧
      (Wired.onFilterUpdate env fenv senv text p).list.filtered
        = (DialogsListWidget.onFilterUpdate fenv text p.list).filtered ∧
      (Wired.onFilterUpdate env fenv senv text p).list.dialogs = p.list.dialogs ∧
      (Wired.onFilterUpdate env fenv senv text p).list.contactsNoDialogs
        = p.list.contactsNoDialogs ∧
      (Wired.onFilterUpdate env fenv senv text p).list.contacts = p.list.contacts ∧
      ∃ new : List Effect,
        (Wired.onFilterUpdate env fenv senv text p).list.effects = p.list.effects ++ new ∧
        ∀ peer, Effect.photoLoad peer ∈ new →
          ∃ row ∈ (Wired.onFilterUpdate env fenv senv text p).list.filtered ++
              p.list.dialogs.list ++ p.list.contactsNoDialogs.list, row.peer = peer := by
  by_cases h : foldedFilter fenv text = p.list.filter
  · have hsame : Wired.onFilterUpdate env fenv senv text p = p := by
      unfold Wired.onFilterUpdate
      simp [h]
    rw [hsame, onFilterUpdate_same fenv text p.list h]
    exact ⟨fun _ => rfl, triggered_refl env _, fun _ => rfl, rfl, rfl, rfl, rfl, rfl, [],
      (by simp), (fun peer hp => by cases hp)⟩
  · obtain ⟨t, ⟨d, n, c, f, g, new, e, ph⟩, nw⟩ := wired_onFilterUpdate env fenv senv text p h
    obtain ⟨f1, f2⟩ := onFilterUpdate_fields fenv text p.list h
    obtain ⟨_, c2, c3, c4, c5⟩ := filterCore_filter fenv text p.list
    refine ⟨fun e => absurd e h, t, nw, ?_, ?_, ?_, ?_, ?_, new, ?_, ?_⟩
    · rw [f, f1]
    · rw [g, f2]
    · rw [d, c2]
    · rw [n, c3]
    · rw [c, c4]
    · rw [e, c5]
    · intro peer hp
      obtain ⟨row, hr, hpeer⟩ := ph peer hp
      rw [c2, c3, ← g] at hr
      exact ⟨row, hr, hpeer⟩

/-- C16 as stated fails.  The cursor is idle at offset 1 of 100 after a failed page request;
the list holds the dialog `john` and the contact `bob`, no filter, and is scrolled down by
10.  For the text `jo`, `refresh(true)` emits `mustScrollTo(0, 0)`, the scroll area moves to
the top and emits `scrolled()`, and `onListScroll` finds `0 > 1 * 62 - 100` and calls
`loadDialogs`, which sends the page request for offset 1; besides, the photo of `john` is
asked to load, by `onListScroll` and by `refresh`. -/
theorem filter_update_requests_a_page :
    scrolledDown.widget.dlgPreloading = 0 ∧
      (Wired.onFilterUpdate env50 envPlain scrollPlain [106, 111] scrolledDown).widget.sent
        = scrolledDown.widget.sent ++ [MTPRequest.messages_GetDialogs 1 0 50] ∧
      (Wired.onFilterUpdate env50 envPlain scrollPlain [106, 111]
          scrolledDown).widget.dlgPreloading = 4 ∧
      (Wired.onFilterUpdate env50 envPlain scrollPlain [106, 111] scrolledDown).list.filtered
        = [john] ∧
      (Wired.onFilterUpdate env50 envPlain scrollPlain [106, 111] scrolledDown).list.effects
        = [Effect.resize 62, Effect.mustScrollTo 0 0, Effect.clearLoaderPriorities,
            Effect.photoLoad 1, Effect.clearLoaderPriorities, Effect.photoLoad 1,
            Effect.parentUpdate] := by
  decide

end Telegram
